import Mathlib

/-!
# Task manager: cache-aside repository over a relational store

A shallow embedding of `src/config/redis.js` (the `cache` helper) and
`src/models/Task.js` (the `Task` repository), with the controller's filter
construction from `src/controllers/taskController.js`.

* JavaScript values are modelled by `JsVal` (field values), `JsObj` (objects as
  property lists in enumeration order) and `Value` (what the repository returns
  and what the cache holds).
* `async` functions are state transformers on a `World` that may throw:
  `Js α = World → Except String α × World`.
* The Redis client and the MySQL pool are external collaborators; they are
  modelled as state machines with an explicit fault plan, so that every command
  may fail at any time.
* A task id is the text the controller hands over (`req.params.id`): the cache
  key is built from that text as it is, while the store reads it as a number,
  so that `01` and `1` name the same row and two different cache keys.
-/

namespace TaskApp

/-! ## JavaScript values -/

/-- A field value of a request object: `undefined` (property absent), `null`
or a string. -/
inductive JsVal where
  | undefined
  | null
  | str (s : String)
  deriving DecidableEq, Repr

/-- JavaScript truthiness: `undefined`, `null` and the empty string are falsy. -/
def JsVal.truthy : JsVal → Bool
  | .str s => decide (s ≠ "")
  | _ => false

/-- The JavaScript expression `a || b`. -/
def JsVal.orElse (a b : JsVal) : JsVal :=
  if a.truthy then a else b

/-- A plain JavaScript object: its own properties in enumeration order. Property
names are unique, as in any JavaScript object. -/
structure JsObj where
  props : List (String × JsVal)
  nodup : (props.map Prod.fst).Nodup

/-- The empty object `{}`. -/
def JsObj.empty : JsObj := ⟨[], List.nodup_nil⟩

/-- Property lookup in a property list; an absent property reads as `undefined`. -/
def lookupProp (k : String) : List (String × JsVal) → JsVal
  | [] => .undefined
  | p :: ps => if p.1 = k then p.2 else lookupProp k ps

/-- Property access `obj.k`. -/
def JsObj.get (o : JsObj) (k : String) : JsVal := lookupProp k o.props

/-! ## `JSON.stringify` on strings and flat objects -/

/-- The double quote character. -/
def dquote : Char := Char.ofNat 34

/-- The backslash character. -/
def bslash : Char := Char.ofNat 92

/-- A lowercase hexadecimal digit. -/
def hexDigit (n : Nat) : Char :=
  if n < 10 then Char.ofNat (48 + n) else Char.ofNat (87 + n)

/-- The escape of one character inside a JSON string (ECMAScript
`QuoteJSONString`): quote and backslash are escaped, control characters use the
short escapes or `\u00XX`, every other character stands for itself. -/
def quoteChar (c : Char) : List Char :=
  if c = dquote then [bslash, dquote]
  else if c = bslash then [bslash, bslash]
  else if c.toNat = 8 then [bslash, 'b']
  else if c.toNat = 12 then [bslash, 'f']
  else if c.toNat = 10 then [bslash, 'n']
  else if c.toNat = 13 then [bslash, 'r']
  else if c.toNat = 9 then [bslash, 't']
  else if c.toNat < 32 then
    [bslash, 'u', '0', '0', hexDigit (c.toNat / 16), hexDigit (c.toNat % 16)]
  else [c]

/-- The body of a JSON string: the escapes of its characters. -/
def quoteBody : List Char → List Char
  | [] => []
  | c :: cs => quoteChar c ++ quoteBody cs

/-- The JSON text of a string: `JSON.stringify(s)`. -/
def quoteJSONString (s : String) : List Char :=
  dquote :: (quoteBody s.data ++ [dquote])

/-- The JSON text of a property value; a property whose value is `undefined`
is left out by `JSON.stringify`. -/
def jsonValue : JsVal → Option (List Char)
  | .undefined => none
  | .null => some ['n', 'u', 'l', 'l']
  | .str s => some (quoteJSONString s)

/-- One member `"key":value` of an object's JSON text. -/
def jsonMember (k : String) (v : List Char) : List Char :=
  quoteJSONString k ++ ':' :: v

/-- The members after the first one, each preceded by a comma, and the closing
brace. -/
def jsonRest : List (String × JsVal) → List Char
  | [] => [Char.ofNat 125]
  | p :: ps =>
    match jsonValue p.2 with
    | none => jsonRest ps
    | some v => ',' :: (jsonMember p.1 v ++ jsonRest ps)

/-- The members of an object and the closing brace. -/
def jsonMembers : List (String × JsVal) → List Char
  | [] => [Char.ofNat 125]
  | p :: ps =>
    match jsonValue p.2 with
    | none => jsonMembers ps
    | some v => jsonMember p.1 v ++ jsonRest ps

/-- The text `JSON.stringify(o)` of a flat object. -/
def jsonStringify (o : JsObj) : String :=
  String.mk (Char.ofNat 123 :: jsonMembers o.props)

/-! ## Cache keys (`Task.js` lines 9, 50, 182) -/

/-- The key of a filtered list: `tasks:all:${JSON.stringify(filters)}`. -/
def listKey (filters : JsObj) : String :=
  "tasks:all:" ++ jsonStringify filters

/-- The key of a single task: `task:${id}`. The id is the text the controller
hands over, `req.params.id`, a segment of the URL path taken as it came
(`taskController.js` lines 32, 86, 123); a numeric id stands here as its
decimal text, which is what the template literal makes of it. -/
def taskKey (id : String) : String :=
  "task:" ++ id

/-- The key of the aggregate statistics. -/
def statsKey : String := "tasks:stats"

/-- The pattern every mutation invalidates. -/
def listPattern : String := "tasks:all:*"

/-- The filter object the controller builds (`taskController.js` lines 8-11):
`status` first, `priority` second, either possibly `undefined`. -/
def controllerFilters (status priority : JsVal) : JsObj :=
  ⟨[("status", status), ("priority", priority)], by simp⟩

/-! ## Rows and returned values -/

/-- A row of table `tasks` (`scripts/init-db.js`), as the JSON image a client
sees: `title` is `NOT NULL`, every other data column is nullable, dates and
timestamps are kept as the text or number the store holds. -/
structure Row where
  id : Nat
  title : String
  description : Option String
  status : Option String
  priority : Option String
  due_date : Option String
  created_at : Nat
  updated_at : Nat
  deriving DecidableEq, Repr

/-- The row of the aggregate query of `getStats`, after the renaming of
`highpriority`. `COUNT(*)` is a number; each `SUM(...)` is `NULL` on an empty
table. -/
structure Stats where
  total : Nat
  pending : Option Nat
  in_progress : Option Nat
  completed : Option Nat
  high_priority : Option Nat
  overdue : Option Nat
  deriving DecidableEq, Repr

/-- The object literal `create` returns (`Task.js` lines 90-97). -/
structure Created where
  id : Nat
  title : JsVal
  description : JsVal
  status : JsVal
  priority : JsVal
  due_date : JsVal
  deriving DecidableEq, Repr

/-- What the repository functions return and what `JSON.parse` yields on a
cached text: JSON scalars, a task row, a list of rows, the statistics object,
or the record `create` builds. -/
inductive Value where
  | null
  | bool (b : Bool)
  | num (n : Int)
  | str (s : String)
  | task (r : Row)
  | tasks (rs : List Row)
  | stats (s : Stats)
  | created (c : Created)
  deriving DecidableEq, Repr

/-- JavaScript truthiness of a value: `null`, `false`, `0` and `""` are falsy,
every object and array (the empty array included) is truthy. -/
def Value.truthy : Value → Bool
  | .null => false
  | .bool b => b
  | .num n => decide (n ≠ 0)
  | .str s => decide (s ≠ "")
  | _ => true

/-- The property names of a returned record. -/
def Value.keys : Value → List String
  | .task _ =>
    ["id", "title", "description", "status", "priority", "due_date", "created_at",
      "updated_at"]
  | .created _ => ["id", "title", "description", "status", "priority", "due_date"]
  | .stats _ => ["total", "pending", "in_progress", "completed", "high_priority", "overdue"]
  | _ => []

/-- The JSON image of a nullable text column. -/
def jsOfColumn : Option String → JsVal
  | none => .null
  | some s => .str s

/-! ## The Redis client -/

/-- The text held under a Redis key: either the `JSON.stringify` text of a
value (represented by the value it parses back to) or a text that is not
valid JSON. -/
inductive Stored where
  | json (v : Value)
  | malformed (text : String)
  deriving DecidableEq, Repr

/-- Whether the stored text is the empty string (falsy in JavaScript). -/
def Stored.isEmptyText : Stored → Bool
  | .json _ => false
  | .malformed t => decide (t = "")

/-- A Redis entry: key, seconds to live as given to `SETEX`, text. -/
structure Entry where
  key : String
  ttl : Int
  data : Stored
  deriving DecidableEq, Repr

/-- The Redis server as the client sees it. `faults` is the fault plan: the
head says whether the next command fails; once the list is used up every
command behaves as `faultsAfter` says. -/
structure Redis where
  entries : List Entry
  faults : List Bool
  faultsAfter : Bool
  deriving DecidableEq, Repr

/-- Consume one step of the fault plan. -/
def Redis.nextFault (r : Redis) : Bool × Redis :=
  match r.faults with
  | [] => (r.faultsAfter, r)
  | b :: bs => (b, { r with faults := bs })

/-- The text under a key, if any. -/
def Redis.lookup (r : Redis) (key : String) : Option Stored :=
  (r.entries.find? (fun e => e.key = key)).map Entry.data

/-- Glob matching as `KEYS` does it, for patterns made of literal characters,
`?` and `*`. -/
def globMatch : List Char → List Char → Bool
  | [], s => s.isEmpty
  | p :: ps, s =>
    if p = '*' then s.tails.any (globMatch ps)
    else
      match s with
      | [] => false
      | c :: cs => (p = '?' || p = c) && globMatch ps cs

/-! ## The relational store -/

/-- A bind parameter of a prepared statement: a field value (the id of a
request is one, a string) or a number, which the store accepts as well. -/
inductive Param where
  | val (v : JsVal)
  | int (n : Nat)
  deriving DecidableEq, Repr

/-- The number a list of decimal digits stands for. -/
def digitsValue (cs : List Char) : Nat :=
  cs.foldl (fun a c => 10 * a + (c.toNat - 48)) 0

/-- Whether a character is one of the decimal digits `0` to `9`. -/
def isDigitChar (c : Char) : Bool :=
  decide (48 ≤ c.toNat ∧ c.toNat ≤ 57)

/-- The number the store reads in a text that it compares with the integer
column `id`: a non-empty text of decimal digits stands for its value, leading
zeros included, so that `01` and `1` stand for the same key; a text of any
other shape is taken to match no row. The storage engine is not among the
sources (see `Db.execute`); this is the part of its comparison the statements
below rely on. -/
def readId (s : String) : Option Nat :=
  if s.data ≠ [] ∧ s.data.all isDigitChar = true then some (digitsValue s.data) else none

/-- The key of table `tasks` a bind parameter stands for in `WHERE id = ?`. -/
def Param.key : Param → Option Nat
  | .int n => some n
  | .val (.str s) => readId s
  | .val _ => none

/-- What `pool.execute` resolves to (first component): the rows of a `SELECT`,
the header of a write, or the single row of the aggregate query. -/
inductive QueryResult where
  | rows (rs : List Row)
  | header (insertId affectedRows : Nat)
  | aggregate (s : Stats)
  deriving DecidableEq, Repr

/-- The row array of a result. -/
def QueryResult.rowList : QueryResult → List Row
  | .rows rs => rs
  | _ => []

/-- The field `insertId` of a result header. -/
def QueryResult.insertId : QueryResult → Nat
  | .header i _ => i
  | _ => 0

/-- The field `affectedRows` of a result header. -/
def QueryResult.affectedRows : QueryResult → Nat
  | .header _ n => n
  | _ => 0

/-- The table and the session state of the store. `nextId` is the
`AUTO_INCREMENT` counter, `now` the value of `CURRENT_TIMESTAMP`, `today` the
value of `CURDATE()`. `faults` is the fault plan: the head says whether the
next statement fails (and with which message); once the list is used up every
statement behaves as `faultsAfter` says. -/
structure Db where
  rows : List Row
  nextId : Nat
  now : Nat
  today : String
  faults : List (Option String)
  faultsAfter : Option String
  deriving DecidableEq, Repr

/-- Consume one step of the fault plan. -/
def Db.nextFault (db : Db) : Option String × Db :=
  match db.faults with
  | [] => (db.faultsAfter, db)
  | f :: fs => (f, { db with faults := fs })

/-! ### The statements the repository issues -/

/-- `Task.js` line 60. -/
def sqlSelectById : String := "SELECT * FROM tasks WHERE id = ?"

/-- `Task.js` line 82. -/
def sqlInsert : String :=
  "INSERT INTO tasks (title, description, status, priority, due_date) VALUES (?, ?, ?, ?, ?)"

/-- `Task.js` line 162. -/
def sqlDelete : String := "DELETE FROM tasks WHERE id = ?"

/-- `Task.js` line 191. -/
def sqlStats : String :=
  "SELECT COUNT(*) as total, SUM(CASE WHEN status = ? THEN 1 ELSE 0 END) as pending, SUM(CASE WHEN status = ? THEN 1 ELSE 0 END) as in_progress, SUM(CASE WHEN status = ? THEN 1 ELSE 0 END) as completed, SUM(CASE WHEN priority = ? THEN 1 ELSE 0 END) as highpriority, SUM(CASE WHEN due_date < CURDATE() AND status <> ? THEN 1 ELSE 0 END) as overdue FROM tasks"

/-- The list query of `getAll` (`Task.js` lines 19-32) with or without each of
the two conditions. -/
def sqlSelectAll (byStatus byPriority : Bool) : String :=
  "SELECT * FROM tasks WHERE 1=1"
    ++ (if byStatus then " AND status = ?" else "")
    ++ (if byPriority then " AND priority = ?" else "")
    ++ " ORDER BY created_at DESC"

/-- The text of an `UPDATE` with the given `SET` items (`Task.js` line 140). -/
def sqlUpdate (updates : List String) : String :=
  "UPDATE tasks SET " ++ ", ".intercalate updates ++ " WHERE id = ?"

/-- The data columns of table `tasks` a statement may assign. -/
def dataColumns : List String :=
  ["title", "description", "status", "priority", "due_date"]

/-- The `SET` item of a column. -/
def setItem (col : String) : String := col ++ " = ?"

/-- The column lists of the well-formed `UPDATE` statements over the data
columns: every non-empty selection, in table order. -/
def updateColumnSets : List (List String) :=
  (dataColumns.sublists).filter (fun cs => !cs.isEmpty)

/-- The values of enumerated column `status`. -/
def statusDomain : List String := ["pending", "in-progress", "completed"]

/-- The values of enumerated column `priority`. -/
def priorityDomain : List String := ["low", "medium", "high"]

/-- The message of mysql2 for an `undefined` bind parameter. -/
def undefinedBindMessage : String :=
  "Bind parameters must not contain undefined. To pass SQL NULL specify JS null"

/-- The message of the server when the parameters do not fit the statement. -/
def badArgumentsMessage : String := "Incorrect arguments to mysqld_stmt_execute"

/-- The message of the server for a statement it cannot parse. -/
def syntaxErrorMessage : String := "You have an error in your SQL syntax"

/-- Whether a bind parameter is `undefined`. -/
def Param.isUndefined : Param → Bool
  | .val .undefined => true
  | _ => false

/-- Assign a value to a data column of a row, checking the column's
constraints (`NOT NULL` and length of `title`, the two enumerations). -/
def setColumn (col : String) (v : JsVal) (r : Row) : Except String Row :=
  match v with
  | .undefined => .error undefinedBindMessage
  | .null =>
    if col = "title" then .error "Column 'title' cannot be null"
    else if col = "description" then .ok { r with description := none }
    else if col = "status" then .ok { r with status := none }
    else if col = "priority" then .ok { r with priority := none }
    else if col = "due_date" then .ok { r with due_date := none }
    else .error ("Unknown column '" ++ col ++ "' in 'field list'")
  | .str s =>
    if col = "title" then
      if s.length ≤ 255 then .ok { r with title := s }
      else .error "Data too long for column 'title' at row 1"
    else if col = "description" then .ok { r with description := some s }
    else if col = "status" then
      if s ∈ statusDomain then .ok { r with status := some s }
      else .error "Data truncated for column 'status' at row 1"
    else if col = "priority" then
      if s ∈ priorityDomain then .ok { r with priority := some s }
      else .error "Data truncated for column 'priority' at row 1"
    else if col = "due_date" then .ok { r with due_date := some s }
    else .error ("Unknown column '" ++ col ++ "' in 'field list'")

/-- Apply column assignments from left to right. -/
def applyAssignments : List (String × JsVal) → Row → Except String Row
  | [], r => .ok r
  | a :: as, r =>
    match setColumn a.1 a.2 r with
    | .ok r1 => applyAssignments as r1
    | .error m => .error m

/-- The row an `UPDATE` leaves: the assignments applied, and `updated_at` set
to the current timestamp when some column changed (`ON UPDATE
CURRENT_TIMESTAMP`). -/
def updateRow (now : Nat) (asg : List (String × JsVal)) (r : Row) : Except String Row :=
  match applyAssignments asg r with
  | .ok r1 => .ok (if r1 = r then r else { r1 with updated_at := now })
  | .error m => .error m

/-- Update every row with the given key; the count is the number of rows
matched (mysql2 connects with `FOUND_ROWS`). -/
def updateRows (now : Nat) (asg : List (String × JsVal)) (key : Option Nat) :
    List Row → Except String (List Row × Nat)
  | [] => .ok ([], 0)
  | r :: rs =>
    match updateRows now asg key rs with
    | .error m => .error m
    | .ok (rs1, n) =>
      if key = some r.id then
        match updateRow now asg r with
        | .ok r1 => .ok (r1 :: rs1, n + 1)
        | .error m => .error m
      else .ok (r :: rs1, n)

/-- The field values among bind parameters, or nothing when an integer occurs. -/
def paramValues : List Param → Option (List JsVal)
  | [] => some []
  | .val v :: ps => (paramValues ps).map (fun vs => v :: vs)
  | .int _ :: _ => none

/-- Lexicographic order on texts by code point; on ISO dates `YYYY-MM-DD` it is
the order of the dates. -/
def ltChars : List Char → List Char → Bool
  | [], [] => false
  | [], _ :: _ => true
  | _ :: _, [] => false
  | a :: as, b :: bs =>
    if a.toNat < b.toNat then true
    else if b.toNat < a.toNat then false
    else ltChars as bs

/-- The aggregate `SUM(CASE WHEN p THEN 1 ELSE 0 END)`: `NULL` on an empty
table. -/
def sumCase (p : Row → Bool) (rows : List Row) : Option Nat :=
  if rows.isEmpty then none else some (rows.countP p)

/-- The condition `due_date < CURDATE() AND status <> ?`: it holds only when
both columns are not `NULL`. -/
def overdueCond (today : String) (done : String) (r : Row) : Bool :=
  match r.due_date, r.status with
  | some d, some s => ltChars d.data today.data && decide (s ≠ done)
  | _, _ => false

/-- The order of `ORDER BY created_at DESC`. -/
def newerFirst (a b : Row) : Prop := b.created_at ≤ a.created_at

instance : DecidableRel newerFirst := fun a b =>
  inferInstanceAs (Decidable (b.created_at ≤ a.created_at))

instance : IsTotal Row newerFirst := ⟨fun a b => Nat.le_total b.created_at a.created_at⟩

instance : IsTrans Row newerFirst :=
  ⟨fun a b c (hab : b.created_at ≤ a.created_at) (hbc : c.created_at ≤ b.created_at) =>
    Nat.le_trans hbc hab⟩

/-- The `WHERE` clause of a list query: each condition that is present asks
for equality with the column. -/
def rowMatches (status priority : Option String) (r : Row) : Bool :=
  (match status with
    | some s => decide (r.status = some s)
    | none => true) &&
  (match priority with
    | some p => decide (r.priority = some p)
    | none => true)

/-- The rows a list query selects, most recent first. -/
def selectRows (status priority : Option String) (rows : List Row) : List Row :=
  (rows.filter (rowMatches status priority)).insertionSort newerFirst

/-- The list query with the given conditions, on its parameters. -/
def Db.selectAll (byStatus byPriority : Bool) (params : List Param) (db : Db) :
    Except String (QueryResult × Db) :=
  match byStatus, byPriority, params with
  | false, false, [] => .ok (.rows (selectRows none none db.rows), db)
  | true, false, [.val (.str s)] => .ok (.rows (selectRows (some s) none db.rows), db)
  | false, true, [.val (.str p)] => .ok (.rows (selectRows none (some p) db.rows), db)
  | true, true, [.val (.str s), .val (.str p)] =>
    .ok (.rows (selectRows (some s) (some p) db.rows), db)
  | _, _, _ => .error badArgumentsMessage

/-- The statement `INSERT INTO tasks (...) VALUES (?, ?, ?, ?, ?)`: the new row
takes the next id and the current timestamp twice. -/
def Db.insert (params : List Param) (db : Db) : Except String (QueryResult × Db) :=
  match paramValues params with
  | some [t, d, s, p, due] =>
    match applyAssignments
        [("title", t), ("description", d), ("status", s), ("priority", p), ("due_date", due)]
        { id := db.nextId, title := "", description := none, status := none,
          priority := none, due_date := none, created_at := db.now,
          updated_at := db.now } with
    | .ok r =>
      .ok (.header db.nextId 1, { db with rows := db.rows ++ [r], nextId := db.nextId + 1 })
    | .error m => .error m
  | _ => .error badArgumentsMessage

/-- The statement `UPDATE tasks SET c1 = ?, ... WHERE id = ?`: the last
parameter is the id. -/
def Db.update (cols : List String) (params : List Param) (db : Db) :
    Except String (QueryResult × Db) :=
  match params.getLast? with
  | some p =>
    match paramValues params.dropLast with
    | some vs =>
      if vs.length = cols.length then
        match updateRows db.now (cols.zip vs) p.key db.rows with
        | .ok (rows, n) => .ok (.header 0 n, { db with rows := rows })
        | .error m => .error m
      else .error badArgumentsMessage
    | none => .error badArgumentsMessage
  | none => .error badArgumentsMessage

/-- The statement `DELETE FROM tasks WHERE id = ?`. -/
def Db.delete (params : List Param) (db : Db) : Except String (QueryResult × Db) :=
  match params with
  | [p] =>
    .ok (.header 0 (db.rows.countP (fun r => p.key = some r.id)),
      { db with rows := db.rows.filter (fun r => p.key ≠ some r.id) })
  | _ => .error badArgumentsMessage

/-- The aggregate query of `getStats` on its five parameters. -/
def Db.stats (params : List Param) (db : Db) : Except String (QueryResult × Db) :=
  match params with
  | [.val (.str p0), .val (.str p1), .val (.str p2), .val (.str p3), .val (.str p4)] =>
    .ok (.aggregate
      { total := db.rows.length
        pending := sumCase (fun r => r.status = some p0) db.rows
        in_progress := sumCase (fun r => r.status = some p1) db.rows
        completed := sumCase (fun r => r.status = some p2) db.rows
        high_priority := sumCase (fun r => r.priority = some p3) db.rows
        overdue := sumCase (overdueCond db.today p4) db.rows }, db)
  | _ => .error badArgumentsMessage

/-- The effect of a statement on a healthy store. The store knows the statement
texts this program can issue; any other text is a syntax error. -/
def Db.run (sql : String) (params : List Param) (db : Db) :
    Except String (QueryResult × Db) :=
  if sql = sqlSelectById then
    match params with
    | [p] => .ok (.rows (db.rows.filter (fun r => p.key = some r.id)), db)
    | _ => .error badArgumentsMessage
  else if sql = sqlInsert then db.insert params
  else if sql = sqlDelete then db.delete params
  else if sql = sqlStats then db.stats params
  else
    match [(false, false), (true, false), (false, true), (true, true)].find?
        (fun sh => sqlSelectAll sh.1 sh.2 = sql) with
    | some sh => db.selectAll sh.1 sh.2 params
    | none =>
      match updateColumnSets.find? (fun cs => sqlUpdate (cs.map setItem) = sql) with
      | some cs => db.update cs params
      | none => .error syntaxErrorMessage

/-- Modelled from the spec: the module `config/database.js`, which exports
`pool`, is not among the sources; the specification takes the store as an
external collaborator with parameterized execute operations that return rows
or affected-row counts, and the table is the one `scripts/init-db.js` creates.
The call `pool.execute(sql, params)` against the store alone: mysql2
rejects an `undefined` parameter before it talks to the server; otherwise the
statement fails if the fault plan says so, and runs if not. A failed statement
changes nothing but the fault plan. -/
def Db.execute (sql : String) (params : List Param) (db : Db) :
    Except String QueryResult × Db :=
  if params.any Param.isUndefined then (.error undefinedBindMessage, db)
  else
    match db.nextFault with
    | (some msg, db1) => (.error msg, db1)
    | (none, db1) =>
      match Db.run sql params db1 with
      | .ok (res, db2) => (.ok res, db2)
      | .error msg => (.error msg, db1)

/-! ## The world and asynchronous functions -/

/-- One call to a collaborator, as it appears in the trace of a run. -/
inductive Event where
  | sql (text : String) (params : List Param) (error : Option String)
  | redisGet (key : String) (ok : Bool)
  | redisSetEx (key : String) (ttl : Int) (ok : Bool)
  | redisDel (keys : List String) (ok : Bool)
  | redisKeys (pattern : String) (ok : Bool)
  deriving DecidableEq, Repr

/-- The state a request runs in: the store, the Redis server, the result of
`parseInt(process.env.CACHE_TTL)` (`none` for `NaN`) and the trace of the
calls made to the two collaborators so far. -/
structure World where
  db : Db
  redis : Redis
  cacheTtlEnv : Option Int
  log : List Event
  deriving DecidableEq, Repr

instance exceptDecEq {ε α : Type} [DecidableEq ε] [DecidableEq α] :
    DecidableEq (Except ε α) := fun a b =>
  match a, b with
  | .ok x, .ok y =>
    if h : x = y then isTrue (by rw [h]) else isFalse (fun e => h (by injection e))
  | .error x, .error y =>
    if h : x = y then isTrue (by rw [h]) else isFalse (fun e => h (by injection e))
  | .ok _, .error _ => isFalse (fun e => by injection e)
  | .error _, .ok _ => isFalse (fun e => by injection e)

/-- An `async` function body: it ends with a value or with a thrown error
(its message), and leaves a world. -/
def Js (α : Type) : Type := World → Except String α × World

/-- The computation `return a`. -/
def Js.pure {α : Type} (a : α) : Js α := fun w => (.ok a, w)

/-- Sequencing: `const a = await m; f(a)`. -/
def Js.bind {α β : Type} (m : Js α) (f : α → Js β) : Js β := fun w =>
  match (m w).1 with
  | .ok a => f a (m w).2
  | .error e => (.error e, (m w).2)

/-- The statement `throw new Error(msg)`. -/
def Js.throw {α : Type} (msg : String) : Js α := fun w => (.error msg, w)

/-- The statement `try { body } catch (error) { handler(error.message) }`. -/
def Js.tryCatch {α : Type} (body : Js α) (handler : String → Js α) : Js α := fun w =>
  match (body w).1 with
  | .ok a => (.ok a, (body w).2)
  | .error e => handler e (body w).2

instance : Monad Js where
  pure := Js.pure
  bind := Js.bind

/-- Append an event to the trace. -/
def World.record (w : World) (e : Event) : World :=
  { w with log := w.log ++ [e] }

/-! ### Commands of the Redis client -/

/-- The error of a failed Redis command. -/
def redisFaultMessage : String := "The client is closed"

/-- Command `redisClient.get(key)`. -/
def redisClient.get (key : String) : Js (Option Stored) := fun w =>
  if w.redis.nextFault.1 then
    (.error redisFaultMessage,
      { w with redis := w.redis.nextFault.2, log := w.log ++ [.redisGet key false] })
  else
    (.ok (w.redis.lookup key),
      { w with redis := w.redis.nextFault.2, log := w.log ++ [.redisGet key true] })

/-- Command `redisClient.setEx(key, ttl, text)`: the server refuses a
non-positive expiry. -/
def redisClient.setEx (key : String) (ttl : Int) (text : Stored) : Js Unit := fun w =>
  if w.redis.nextFault.1 then
    (.error redisFaultMessage,
      { w with redis := w.redis.nextFault.2, log := w.log ++ [.redisSetEx key ttl false] })
  else if ttl ≤ 0 then
    (.error "ERR invalid expire time in 'setex' command",
      { w with redis := w.redis.nextFault.2, log := w.log ++ [.redisSetEx key ttl false] })
  else
    (.ok (),
      { w with
        redis :=
          { w.redis.nextFault.2 with
            entries :=
              ⟨key, ttl, text⟩ :: w.redis.entries.filter (fun e => e.key ≠ key) }
        log := w.log ++ [.redisSetEx key ttl true] })

/-- Command `redisClient.del(keys)`; it resolves to the number of keys removed. -/
def redisClient.del (keys : List String) : Js Nat := fun w =>
  if w.redis.nextFault.1 then
    (.error redisFaultMessage,
      { w with redis := w.redis.nextFault.2, log := w.log ++ [.redisDel keys false] })
  else
    (.ok (w.redis.entries.countP (fun e => e.key ∈ keys)),
      { w with
        redis :=
          { w.redis.nextFault.2 with
            entries := w.redis.entries.filter (fun e => e.key ∉ keys) }
        log := w.log ++ [.redisDel keys true] })

/-- Command `redisClient.keys(pattern)`. -/
def redisClient.keys (pattern : String) : Js (List String) := fun w =>
  if w.redis.nextFault.1 then
    (.error redisFaultMessage,
      { w with redis := w.redis.nextFault.2, log := w.log ++ [.redisKeys pattern false] })
  else
    (.ok ((w.redis.entries.filter (fun e => globMatch pattern.data e.key.data)).map Entry.key),
      { w with redis := w.redis.nextFault.2, log := w.log ++ [.redisKeys pattern true] })

/-- The error message of an outcome, if it is a failure. -/
def errorOf {α : Type} : Except String α → Option String
  | .ok _ => none
  | .error m => some m

/-- The call `pool.execute(sql, params)`, traced. -/
def pool.execute (sql : String) (params : List Param) : Js QueryResult := fun w =>
  ((w.db.execute sql params).1,
    { w with
      db := (w.db.execute sql params).2
      log := w.log ++ [.sql sql params (errorOf (w.db.execute sql params).1)] })

/-! ## The cache helpers (`config/redis.js` lines 35-82) -/

/-- An argument of `cache.set`: a value `JSON.stringify` can serialize, or one
it throws on (a cyclic structure, a `BigInt`). -/
inductive Payload where
  | value (v : Value)
  | unserializable
  deriving DecidableEq, Repr

/-- The call `JSON.stringify(value)`. -/
def jsonStringifyPayload : Payload → Js Stored
  | .value v => Js.pure (.json v)
  | .unserializable => Js.throw "Converting circular structure to JSON"

/-- The call `JSON.parse(text)`. -/
def jsonParse : Stored → Js Value
  | .json v => Js.pure v
  | .malformed _ => Js.throw "Unexpected token in JSON"

/-- The default expiry `parseInt(process.env.CACHE_TTL) || 300`. -/
def defaultTtl (env : Option Int) : Int :=
  match env with
  | some n => if n ≠ 0 then n else 300
  | none => 300

/-- Helper `cache.get` (lines 37-45). -/
def cache.get (key : String) : Js Value :=
  Js.tryCatch
    (do
      let data ← redisClient.get key
      match data with
      | some text => if text.isEmptyText then pure Value.null else jsonParse text
      | none => pure Value.null)
    (fun _ => pure Value.null)

/-- Helper `cache.set` (lines 48-56); `ttl` is `none` when the caller leaves
the third argument out. -/
def cache.set (key : String) (value : Payload) (ttl : Option Int) : Js Bool := fun w =>
  Js.tryCatch
    (do
      let text ← jsonStringifyPayload value
      redisClient.setEx key (ttl.getD (defaultTtl w.cacheTtlEnv)) text
      pure true)
    (fun _ => pure false) w

/-- Helper `cache.del` (lines 59-67). -/
def cache.del (key : String) : Js Bool :=
  Js.tryCatch
    (do
      let _ ← redisClient.del [key]
      pure true)
    (fun _ => pure false)

/-- Helper `cache.delPattern` (lines 70-81). -/
def cache.delPattern (pattern : String) : Js Bool :=
  Js.tryCatch
    (do
      let keys ← redisClient.keys pattern
      if keys.length > 0 then
        let _ ← redisClient.del keys
        pure true
      else
        pure true)
    (fun _ => pure false)

/-! ## The repository (`models/Task.js`) -/

/-- The query text `getAll` builds (lines 19-32). -/
def Task.listQuery (filters : JsObj) : String :=
  let query := "SELECT * FROM tasks WHERE 1=1"
  let query := if (filters.get "status").truthy then query ++ " AND status = ?" else query
  let query := if (filters.get "priority").truthy then query ++ " AND priority = ?" else query
  query ++ " ORDER BY created_at DESC"

/-- The parameters `getAll` collects (lines 20-30). -/
def Task.listParams (filters : JsObj) : List Param :=
  let params : List Param := []
  let params :=
    if (filters.get "status").truthy then params ++ [.val (filters.get "status")] else params
  let params :=
    if (filters.get "priority").truthy then params ++ [.val (filters.get "priority")]
    else params
  params

/-- Method `Task.getAll` (lines 6-45). -/
def Task.getAll (filters : JsObj) : Js Value :=
  Js.tryCatch
    (do
      let cacheKey := listKey filters
      let cachedData ← cache.get cacheKey
      if cachedData.truthy then
        pure cachedData
      else
        let result ← pool.execute (Task.listQuery filters) (Task.listParams filters)
        let rows := result.rowList
        let _ ← cache.set cacheKey (.value (.tasks rows)) none
        pure (Value.tasks rows))
    (fun msg => Js.throw ("Failed to get tasks: " ++ msg))

/-- Method `Task.getById` (lines 48-74). -/
def Task.getById (id : String) : Js Value :=
  Js.tryCatch
    (do
      let cacheKey := taskKey id
      let cachedData ← cache.get cacheKey
      if cachedData.truthy then
        pure cachedData
      else
        let result ← pool.execute sqlSelectById [.val (.str id)]
        match result.rowList with
        | [] => pure Value.null
        | row :: _ =>
          let _ ← cache.set cacheKey (.value (.task row)) none
          pure (Value.task row))
    (fun msg => Js.throw ("Failed to get task: " ++ msg))

/-- The bind parameters of the `INSERT` of `create` (line 83). -/
def Task.insertParams (taskData : JsObj) : List Param :=
  [.val (taskData.get "title"),
   .val ((taskData.get "description").orElse .null),
   .val ((taskData.get "status").orElse (.str "pending")),
   .val ((taskData.get "priority").orElse (.str "medium")),
   .val ((taskData.get "due_date").orElse .null)]

/-- Method `Task.create` (lines 77-101). -/
def Task.create (taskData : JsObj) : Js Value :=
  Js.tryCatch
    (do
      let result ← pool.execute sqlInsert (Task.insertParams taskData)
      let _ ← cache.delPattern listPattern
      pure (Value.created
        { id := result.insertId
          title := taskData.get "title"
          description := taskData.get "description"
          status := (taskData.get "status").orElse (.str "pending")
          priority := (taskData.get "priority").orElse (.str "medium")
          due_date := taskData.get "due_date" }))
    (fun msg => Js.throw ("Failed to create task: " ++ msg))

/-- One step of the dynamic update (lines 112-131): when the field is not
`undefined`, push its `SET` item and its value. -/
def pushField (item : String) (v : JsVal) (acc : List String × List Param) :
    List String × List Param :=
  if v ≠ .undefined then (acc.1 ++ [item], acc.2 ++ [.val v]) else acc

/-- The lists `updates` and `params` of `update` before the id is pushed
(lines 109-131). -/
def Task.updateParts (taskData : JsObj) : List String × List Param :=
  pushField "due_date = ?" (taskData.get "due_date")
    (pushField "priority = ?" (taskData.get "priority")
      (pushField "status = ?" (taskData.get "status")
        (pushField "description = ?" (taskData.get "description")
          (pushField "title = ?" (taskData.get "title") ([], [])))))

/-- Method `Task.update` (lines 104-157). -/
def Task.update (id : String) (taskData : JsObj) : Js Value :=
  Js.tryCatch
    (do
      let updates := (Task.updateParts taskData).1
      let params := (Task.updateParts taskData).2
      if updates.length = 0 then
        Js.throw "No fields to update"
      else
        let params := params ++ [.val (.str id)]
        let result ← pool.execute (sqlUpdate updates) params
        if result.affectedRows = 0 then
          pure Value.null
        else
          let _ ← cache.del (taskKey id)
          let _ ← cache.delPattern listPattern
          Task.getById id)
    (fun msg => Js.throw ("Failed to update task: " ++ msg))

/-- Method `Task.delete` (lines 160-177). -/
def Task.delete (id : String) : Js Value :=
  Js.tryCatch
    (do
      let result ← pool.execute sqlDelete [.val (.str id)]
      if result.affectedRows = 0 then
        pure (Value.bool false)
      else
        let _ ← cache.del (taskKey id)
        let _ ← cache.delPattern listPattern
        pure (Value.bool true))
    (fun msg => Js.throw ("Failed to delete task: " ++ msg))

/-- The bind parameters of the aggregate query (line 193). -/
def Task.statsParams : List Param :=
  [.val (.str "pending"), .val (.str "in-progress"), .val (.str "completed"),
   .val (.str "high"), .val (.str "completed")]

/-- The first row `stats[0]` of the aggregate result. -/
def QueryResult.firstStats : QueryResult → Js Stats
  | .aggregate s => Js.pure s
  | _ => Js.throw "Cannot read properties of undefined (reading 'total')"

/-- Method `Task.getStats` (lines 180-213). -/
def Task.getStats : Js Value :=
  Js.tryCatch
    (do
      let cacheKey := statsKey
      let cachedData ← cache.get cacheKey
      if cachedData.truthy then
        pure cachedData
      else
        let stats ← pool.execute sqlStats Task.statsParams
        let row ← stats.firstStats
        let result : Stats :=
          { total := row.total
            pending := row.pending
            in_progress := row.in_progress
            completed := row.completed
            high_priority := row.high_priority
            overdue := row.overdue }
        let _ ← cache.set cacheKey (.value (.stats result)) (some 60)
        pure (Value.stats result))
    (fun msg => Js.throw ("Failed to get stats: " ++ msg))

end TaskApp
namespace TaskApp

/-! ## Auxiliary notions for the statements -/

/-- The keys command `KEYS pattern` returns in a Redis state. -/
def Redis.matching (r : Redis) (pattern : String) : List String :=
  (r.entries.filter (fun e => globMatch pattern.data e.key.data)).map Entry.key

/-- The data columns whose field is present (not `undefined`) in an update
request, in table order. -/
def presentColumns (taskData : JsObj) : List String :=
  dataColumns.filter (fun c => taskData.get c ≠ .undefined)

/-- The JSON image of a data column of a row, by column name. -/
def Row.field (r : Row) (c : String) : JsVal :=
  if c = "title" then .str r.title
  else if c = "description" then jsOfColumn r.description
  else if c = "status" then jsOfColumn r.status
  else if c = "priority" then jsOfColumn r.priority
  else if c = "due_date" then jsOfColumn r.due_date
  else .undefined

/-- The property of the record `create` returns, by name, for the five data
fields. -/
def Created.field (c : Created) (k : String) : JsVal :=
  if k = "title" then c.title
  else if k = "description" then c.description
  else if k = "status" then c.status
  else if k = "priority" then c.priority
  else if k = "due_date" then c.due_date
  else .undefined

/-- What `cache.get(key)` resolves to in a Redis state: `null` when the
command fails, when the key is absent and when the text is empty or not JSON;
the parsed value otherwise. -/
def Redis.read (r : Redis) (key : String) : Value :=
  if r.nextFault.1 then Value.null
  else
    match r.lookup key with
    | some (.json v) => v
    | _ => Value.null

/-- The condition a filter field puts on a list query (`Task.js` lines 22-30):
a non-empty string asks for equality, anything falsy asks for nothing. -/
def filterOf (v : JsVal) : Option String :=
  match v with
  | .str s => if s ≠ "" then some s else none
  | _ => none

/-- The rows `getAll` asks the store for, given the filter object. -/
def listRows (filters : JsObj) (rows : List Row) : List Row :=
  selectRows (filterOf (filters.get "status")) (filterOf (filters.get "priority")) rows

/-- The statistics the aggregate query of `getStats` computes on a table. -/
def tableStats (db : Db) : Stats :=
  { total := db.rows.length
    pending := sumCase (fun r => r.status = some "pending") db.rows
    in_progress := sumCase (fun r => r.status = some "in-progress") db.rows
    completed := sumCase (fun r => r.status = some "completed") db.rows
    high_priority := sumCase (fun r => r.priority = some "high") db.rows
    overdue := sumCase (overdueCond db.today "completed") db.rows }

/-- Whether a key begins with `tasks:all:`. -/
def isListKey (key : String) : Bool :=
  ("tasks:all:".data).isPrefixOf key.data

/-- Redis answers every command from now on. -/
def Redis.healthy (r : Redis) : Prop :=
  r.faultsAfter = false ∧ ∀ b ∈ r.faults, b = false

instance (r : Redis) : Decidable r.healthy := by
  unfold Redis.healthy
  infer_instance

/-- Redis fails every command from now on (an outage). -/
def Redis.down (r : Redis) : Prop :=
  r.faultsAfter = true ∧ ∀ b ∈ r.faults, b = true

instance (r : Redis) : Decidable r.down := by
  unfold Redis.down
  infer_instance

/-- The store's connection never fails from now on (a statement can still be
refused for what it says). -/
def Db.healthy (db : Db) : Prop :=
  db.faultsAfter = none ∧ ∀ f ∈ db.faults, f = none

instance (db : Db) : Decidable db.healthy := by
  unfold Db.healthy
  infer_instance

/-- A small world: an empty table, an empty healthy cache, no `CACHE_TTL`. -/
def emptyWorld : World :=
  { db := { rows := [], nextId := 1, now := 1000, today := "2024-06-01", faults := [],
            faultsAfter := none }
    redis := { entries := [], faults := [], faultsAfter := false }
    cacheTtlEnv := none
    log := [] }

/-- A create request with a title and an empty description. -/
def emptyDescriptionTask : JsObj :=
  ⟨[("title", .str "A"), ("description", .str "")], by decide⟩

/-- A create request with only a title. -/
def titleOnlyTask : JsObj := ⟨[("title", .str "A")], by decide⟩

/-- The world after the two invalidations of `update` and `delete`
(`cache.del` of the task key, then `cache.delPattern` of the list keys). -/
def invalidated (id : String) (w : World) : World :=
  (cache.delPattern listPattern (cache.del (taskKey id) w).2).2

/-- The statement text of `update` for a request. -/
def Task.updateSql (taskData : JsObj) : String :=
  sqlUpdate ((presentColumns taskData).map setItem)

/-- The statement parameters of `update` for a request. -/
def Task.updateParams (id : String) (taskData : JsObj) : List Param :=
  (presentColumns taskData).map (fun c => Param.val (taskData.get c)) ++ [.val (.str id)]

/-- A stored task. -/
def sampleRow : Row :=
  { id := 1, title := "A", description := none, status := some "pending",
    priority := some "medium", due_date := none, created_at := 900, updated_at := 900 }

/-- A world with one task in the table and a healthy cache that holds the
unfiltered list, the task and the statistics. -/
def cachedWorld : World :=
  { db := { rows := [sampleRow], nextId := 2, now := 1000, today := "2024-06-01",
            faults := [], faultsAfter := none }
    redis :=
      { entries :=
          [⟨listKey (controllerFilters .undefined .undefined), 300, .json (.tasks [sampleRow])⟩,
           ⟨taskKey "1", 300, .json (.task sampleRow)⟩,
           ⟨statsKey, 60, .json (.stats ⟨1, some 1, some 0, some 0, some 0, some 0⟩)⟩]
        faults := []
        faultsAfter := false }
    cacheTtlEnv := none
    log := [] }

/-- The filter object of the request `GET /api/tasks?status=`. -/
def emptyStatusFilters : JsObj := controllerFilters (.str "") .undefined

/-- A world with one task in the table and an empty healthy cache. -/
def plainWorld : World :=
  { cachedWorld with redis := { entries := [], faults := [], faultsAfter := false } }

/-- A world whose only task has no status and a due date in the past. -/
def noStatusWorld : World :=
  { plainWorld with
    db := { plainWorld.db with
      rows := [{ sampleRow with status := none, due_date := some "2024-01-01" }] } }

/-- A mutating call of the repository. -/
inductive Mutation where
  | create (taskData : JsObj)
  | update (id : String) (taskData : JsObj)
  | delete (id : String)

/-- The repository method a mutating call runs. -/
def Mutation.run : Mutation → Js Value
  | .create taskData => Task.create taskData
  | .update id taskData => Task.update id taskData
  | .delete id => Task.delete id

/-- The world after a sequence of mutating calls, whatever each returned. -/
def runMutations : List Mutation → World → World
  | [], w => w
  | m :: ms, w => runMutations ms (m.run w).2

/-- The entry Redis holds under a key, if any. -/
def Redis.entry (r : Redis) (key : String) : Option Entry :=
  r.entries.find? (fun e => e.key = key)

/-- An update request that sets the status only. -/
def completedUpdate : JsObj := ⟨[("status", .str "completed")], by decide⟩

/-- The filter object `getAllTasks` builds from the query of a request
(`taskController.js` lines 8-11), whatever the order of the query parameters. -/
def TaskController.filtersOf (query : JsObj) : JsObj :=
  controllerFilters (query.get "status") (query.get "priority")

/-- A filter object with status before priority. -/
def statusFirstFilters : JsObj :=
  ⟨[("status", .str "pending"), ("priority", .str "high")], by decide⟩

/-- The same filters, supplied with priority before status. -/
def priorityFirstFilters : JsObj :=
  ⟨[("priority", .str "high"), ("status", .str "pending")], by decide⟩

/-- The properties of an object that `JSON.stringify` writes: those whose
value is not `undefined`. -/
def definedProps (o : JsObj) : List (String × JsVal) :=
  o.props.filter (fun p => p.2 ≠ .undefined)

/-- The value of a hexadecimal digit. -/
def hexVal (c : Char) : Nat :=
  if c.toNat < 58 then c.toNat - 48 else c.toNat - 87

/-- The character a one-letter escape stands for. -/
def unescapeChar (e : Char) : Char :=
  if e = 'b' then Char.ofNat 8
  else if e = 'f' then Char.ofNat 12
  else if e = 'n' then Char.ofNat 10
  else if e = 'r' then Char.ofNat 13
  else if e = 't' then Char.ofNat 9
  else e

/-- Read one character of the body of a JSON string, undoing its escape. -/
def decodeOne : List Char → Option (Char × List Char)
  | [] => none
  | c :: cs =>
    if c = bslash then
      match cs with
      | [] => none
      | e :: cs1 =>
        if e = 'u' then
          match cs1 with
          | _ :: _ :: h1 :: h2 :: rest => some (Char.ofNat (16 * hexVal h1 + hexVal h2), rest)
          | _ => none
        else some (unescapeChar e, cs1)
    else some (c, cs)

/-- A filter object whose status holds a quote, a colon and braces. -/
def quotedStatusFilters : JsObj :=
  controllerFilters (.str "a\":\x7b,\x7d") .undefined

/-- A filter object whose priority holds the same text. -/
def quotedPriorityFilters : JsObj :=
  controllerFilters .undefined (.str "a\":\x7b,\x7d")

/-! ### The repository without a cache -/

/-- Reading the list directly from the store: `getAll` with every cache call
removed. -/
def Direct.getAll (filters : JsObj) : Js Value :=
  Js.tryCatch
    (do
      let result ← pool.execute (Task.listQuery filters) (Task.listParams filters)
      pure (Value.tasks result.rowList))
    (fun msg => Js.throw ("Failed to get tasks: " ++ msg))

/-- Reading a task directly from the store: `getById` with every cache call
removed. -/
def Direct.getById (id : String) : Js Value :=
  Js.tryCatch
    (do
      let result ← pool.execute sqlSelectById [.val (.str id)]
      match result.rowList with
      | [] => pure Value.null
      | row :: _ => pure (Value.task row))
    (fun msg => Js.throw ("Failed to get task: " ++ msg))

/-- Creating a task directly in the store: `create` with every cache call
removed. -/
def Direct.create (taskData : JsObj) : Js Value :=
  Js.tryCatch
    (do
      let result ← pool.execute sqlInsert (Task.insertParams taskData)
      pure (Value.created
        { id := result.insertId
          title := taskData.get "title"
          description := taskData.get "description"
          status := (taskData.get "status").orElse (.str "pending")
          priority := (taskData.get "priority").orElse (.str "medium")
          due_date := taskData.get "due_date" }))
    (fun msg => Js.throw ("Failed to create task: " ++ msg))

/-- Updating a task directly in the store: `update` with every cache call
removed. -/
def Direct.update (id : String) (taskData : JsObj) : Js Value :=
  Js.tryCatch
    (do
      let updates := (Task.updateParts taskData).1
      let params := (Task.updateParts taskData).2
      if updates.length = 0 then
        Js.throw "No fields to update"
      else
        let params := params ++ [.val (.str id)]
        let result ← pool.execute (sqlUpdate updates) params
        if result.affectedRows = 0 then
          pure Value.null
        else
          Direct.getById id)
    (fun msg => Js.throw ("Failed to update task: " ++ msg))

/-- Deleting a task directly in the store: `delete` with every cache call
removed. -/
def Direct.delete (id : String) : Js Value :=
  Js.tryCatch
    (do
      let result ← pool.execute sqlDelete [.val (.str id)]
      if result.affectedRows = 0 then
        pure (Value.bool false)
      else
        pure (Value.bool true))
    (fun msg => Js.throw ("Failed to delete task: " ++ msg))

/-- Computing the statistics directly in the store: `getStats` with every
cache call removed. -/
def Direct.getStats : Js Value :=
  Js.tryCatch
    (do
      let stats ← pool.execute sqlStats Task.statsParams
      let row ← stats.firstStats
      pure (Value.stats
        { total := row.total
          pending := row.pending
          in_progress := row.in_progress
          completed := row.completed
          high_priority := row.high_priority
          overdue := row.overdue }))
    (fun msg => Js.throw ("Failed to get stats: " ++ msg))

/-- A call of one of the six repository methods. -/
inductive Call where
  | getAll (filters : JsObj)
  | getById (id : String)
  | create (taskData : JsObj)
  | update (id : String) (taskData : JsObj)
  | delete (id : String)
  | getStats

/-- The method a call runs. -/
def Call.run : Call → Js Value
  | .getAll filters => Task.getAll filters
  | .getById id => Task.getById id
  | .create taskData => Task.create taskData
  | .update id taskData => Task.update id taskData
  | .delete id => Task.delete id
  | .getStats => Task.getStats

/-- The same call against the store with no cache. -/
def Call.direct : Call → Js Value
  | .getAll filters => Direct.getAll filters
  | .getById id => Direct.getById id
  | .create taskData => Direct.create taskData
  | .update id taskData => Direct.update id taskData
  | .delete id => Direct.delete id
  | .getStats => Direct.getStats

/-- The text each method puts before the message of an error it rethrows. -/
def Call.failureText : Call → String
  | .getAll _ => "Failed to get tasks: "
  | .getById _ => "Failed to get task: "
  | .create _ => "Failed to create task: "
  | .update _ _ => "Failed to update task: "
  | .delete _ => "Failed to delete task: "
  | .getStats => "Failed to get stats: "

/-- The events a run added to the trace. -/
def newEvents (w w1 : World) : List Event := w1.log.drop w.log.length

/-- Whether an event is a store statement. -/
def Event.isSql : Event → Bool
  | .sql _ _ _ => true
  | _ => false

/-- Whether an event is a cache deletion: the `DEL` of `cache.del`, or the
`KEYS` and `DEL` of `cache.delPattern`. -/
def Event.isInvalidation : Event → Bool
  | .redisDel _ _ => true
  | .redisKeys _ _ => true
  | _ => false

/-- Whether a statement text is one of the writes of the repository: the
`INSERT`, the `DELETE` or an `UPDATE`. -/
def isWriteSql (sql : String) : Bool :=
  decide (sql = sqlInsert) || decide (sql = sqlDelete) ||
    updateColumnSets.any (fun cs => decide (sqlUpdate (cs.map setItem) = sql))

/-- The store statements a run added to the trace. -/
def sqlEvents (w w1 : World) : List Event := (newEvents w w1).filter Event.isSql

/-- A world whose Redis is down and whose table holds one task. -/
def downWorld : World :=
  { plainWorld with redis := { entries := [], faults := [], faultsAfter := true } }

/-- A world whose store loses the connection on the next statement. -/
def failingWorld : World :=
  { plainWorld with db := { plainWorld.db with faults := [some "Connection lost"] } }

/-- A state is coherent when every cached task is the store's current row for
its id (the row the store returns for the id text of the key) and every cached
list is the store's current result for its filters. -/
def Coherent (w : World) : Prop :=
  (∀ id e, w.redis.entry (taskKey id) = some e →
    ∃ row, (w.db.rows.filter (fun r => readId id = some r.id)).head? = some row ∧
      e.data = .json (.task row)) ∧
  (∀ filters e, w.redis.entry (listKey filters) = some e →
    e.data = .json (.tasks (listRows filters w.db.rows)))

/-- The names of the fields `JSON.stringify` writes for an object, in the order
it writes them: those of the properties whose value is not `undefined`. -/
def writtenKeys (o : JsObj) : List String := (definedProps o).map Prod.fst

/-- The filter object of the request `GET /api/tasks?priority=high`: status is
`undefined`. -/
def undefinedStatusFilters : JsObj := controllerFilters .undefined (.str "high")

/-- The same filters with the two fields in the other order. -/
def priorityThenStatusFilters : JsObj :=
  ⟨[("priority", .str "high"), ("status", .undefined)], by decide⟩

/-- The cache holds the row of `id` under no other spelling of its key: every
`task:<s>` entry whose `s` the store reads as the same number has `s = id`. -/
def SoleSpelling (id : String) (w : World) : Prop :=
  ∀ s e n, w.redis.entry (taskKey s) = some e → readId s = some n → readId id = some n →
    s = id

/-- What a call needs for coherence to survive it: an `update` or a `delete`
finds no entry cached under another spelling of its id; the reads and `create`
need nothing. -/
def Call.soleSpelling : Call → World → Prop
  | .update id _, w => SoleSpelling id w
  | .delete id, w => SoleSpelling id w
  | _, _ => True

/-- The world after the request `GET /api/tasks/01` on a table that holds
task 1 and an empty cache: the task is now cached under `task:01`. -/
def aliasWorld : World := (Task.getById "01" plainWorld).2

/-- The trace grows: the later world has the earlier trace as its beginning. -/
def LogGrows (w w1 : World) : Prop := ∃ evs, w1.log = w.log ++ evs

end TaskApp

namespace TaskApp

/-! ## Running the monad -/

theorem Js.run_pure {α : Type} (a : α) (w : World) :
    (pure a : Js α) w = (.ok a, w) := rfl

theorem Js.run_bind {α β : Type} (m : Js α) (f : α → Js β) (w : World) :
    (m >>= f) w =
      match (m w).1 with
      | .ok a => f a (m w).2
      | .error e => (.error e, (m w).2) := rfl

theorem Redis.nextFault_entries (r : Redis) : r.nextFault.2.entries = r.entries := by
  unfold Redis.nextFault
  cases r.faults <;> rfl

theorem cache_get_run (key : String) (w : World) :
    cache.get key w =
      (.ok (w.redis.read key),
        { w with
          redis := w.redis.nextFault.2
          log := w.log ++ [.redisGet key (!w.redis.nextFault.1)] }) := by
  unfold cache.get Js.tryCatch Redis.read
  simp only [Js.run_bind, redisClient.get]
  by_cases hf : w.redis.nextFault.1 = true
  · simp [hf, pure, Js.pure]
  · simp only [hf, if_false, Bool.false_eq_true]
    cases hl : w.redis.lookup key with
    | none => simp [pure, Js.pure]
    | some text =>
      cases text with
      | json v => simp [Stored.isEmptyText, jsonParse, Js.pure]
      | malformed t =>
        by_cases ht : t = "" <;> simp [Stored.isEmptyText, ht, jsonParse, Js.throw, pure, Js.pure]

theorem cache_set_run (key : String) (v : Value) (ttl : Option Int) (w : World) :
    cache.set key (.value v) ttl w =
      if w.redis.nextFault.1 = true ∨ ttl.getD (defaultTtl w.cacheTtlEnv) ≤ 0 then
        (.ok false,
          { w with
            redis := w.redis.nextFault.2
            log := w.log ++ [.redisSetEx key (ttl.getD (defaultTtl w.cacheTtlEnv)) false] })
      else
        (.ok true,
          { w with
            redis :=
              { w.redis.nextFault.2 with
                entries :=
                  ⟨key, ttl.getD (defaultTtl w.cacheTtlEnv), .json v⟩ ::
                    w.redis.entries.filter (fun e => e.key ≠ key) }
            log := w.log ++ [.redisSetEx key (ttl.getD (defaultTtl w.cacheTtlEnv)) true] }) := by
  unfold cache.set Js.tryCatch
  simp only [Js.run_bind, redisClient.setEx, jsonStringifyPayload, Js.pure]
  by_cases hf : w.redis.nextFault.1 = true
  · simp [hf, pure, Js.pure]
  · by_cases ht : ttl.getD (defaultTtl w.cacheTtlEnv) ≤ 0
    · simp [hf, ht, pure, Js.pure]
    · simp [hf, ht, pure, Js.pure]

theorem cache_set_unserializable (key : String) (ttl : Option Int) (w : World) :
    cache.set key .unserializable ttl w = (.ok false, w) := by
  unfold cache.set Js.tryCatch
  simp [Js.run_bind, jsonStringifyPayload, Js.throw, pure, Js.pure]

theorem cache_del_run (key : String) (w : World) :
    cache.del key w =
      if w.redis.nextFault.1 = true then
        (.ok false,
          { w with redis := w.redis.nextFault.2, log := w.log ++ [.redisDel [key] false] })
      else
        (.ok true,
          { w with
            redis :=
              { w.redis.nextFault.2 with
                entries := w.redis.entries.filter (fun e => e.key ∉ [key]) }
            log := w.log ++ [.redisDel [key] true] }) := by
  unfold cache.del Js.tryCatch
  simp only [Js.run_bind, redisClient.del]
  by_cases hf : w.redis.nextFault.1 = true
  · simp [hf, pure, Js.pure]
  · simp [hf, pure, Js.pure]

/-- The keys a pattern selects in a Redis state. -/
theorem cache_delPattern_run (pattern : String) (w : World) :
    cache.delPattern pattern w =
      if w.redis.nextFault.1 = true then
        (.ok false,
          { w with redis := w.redis.nextFault.2, log := w.log ++ [.redisKeys pattern false] })
      else if (w.redis.matching pattern).length > 0 then
        if w.redis.nextFault.2.nextFault.1 = true then
          (.ok false,
            { w with
              redis := w.redis.nextFault.2.nextFault.2
              log := w.log ++ [.redisKeys pattern true,
                .redisDel (w.redis.matching pattern) false] })
        else
          (.ok true,
            { w with
              redis :=
                { w.redis.nextFault.2.nextFault.2 with
                  entries :=
                    w.redis.entries.filter (fun e => e.key ∉ w.redis.matching pattern) }
              log := w.log ++ [.redisKeys pattern true,
                .redisDel (w.redis.matching pattern) true] })
      else
        (.ok true,
          { w with redis := w.redis.nextFault.2, log := w.log ++ [.redisKeys pattern true] }) := by
  unfold cache.delPattern Js.tryCatch
  simp only [Js.run_bind, redisClient.keys, redisClient.del, Redis.matching]
  by_cases hf : w.redis.nextFault.1 = true
  · simp [hf, pure, Js.pure]
  · simp only [hf, if_false, Bool.false_eq_true]
    split_ifs with h1 h2 <;>
      simp_all [Js.run_bind, redisClient.del, pure, Js.pure, Redis.nextFault_entries]

/-! ## The trace only grows -/

theorem LogGrows.refl (w : World) : LogGrows w w := ⟨[], by simp⟩

theorem LogGrows.trans {a b c : World} (h1 : LogGrows a b) (h2 : LogGrows b c) :
    LogGrows a c := by
  obtain ⟨e1, h1⟩ := h1
  obtain ⟨e2, h2⟩ := h2
  exact ⟨e1 ++ e2, by rw [h2, h1, List.append_assoc]⟩

theorem logGrows_bind {α β : Type} (m : Js α) (f : α → Js β)
    (hm : ∀ w, LogGrows w (m w).2) (hf : ∀ a w, LogGrows w (f a w).2) (w : World) :
    LogGrows w ((m >>= f) w).2 := by
  rw [Js.run_bind]
  cases h : (m w).1 with
  | ok a => exact (hm w).trans (hf a _)
  | error e => exact hm w

theorem logGrows_tryCatch {α : Type} (body : Js α) (handler : String → Js α)
    (hb : ∀ w, LogGrows w (body w).2) (hh : ∀ e w, LogGrows w (handler e w).2) (w : World) :
    LogGrows w (Js.tryCatch body handler w).2 := by
  unfold Js.tryCatch
  cases h : (body w).1 with
  | ok a => exact hb w
  | error e => exact (hb w).trans (hh e _)

theorem logGrows_cache_get (key : String) (w : World) : LogGrows w (cache.get key w).2 := by
  rw [cache_get_run]
  exact ⟨_, rfl⟩

theorem logGrows_cache_set (key : String) (p : Payload) (ttl : Option Int) (w : World) :
    LogGrows w (cache.set key p ttl w).2 := by
  cases p with
  | value v =>
    rw [cache_set_run]
    split_ifs <;> exact ⟨_, rfl⟩
  | unserializable =>
    rw [cache_set_unserializable]
    exact LogGrows.refl w

theorem logGrows_cache_del (key : String) (w : World) : LogGrows w (cache.del key w).2 := by
  rw [cache_del_run]
  split_ifs <;> exact ⟨_, rfl⟩

theorem logGrows_cache_delPattern (pattern : String) (w : World) :
    LogGrows w (cache.delPattern pattern w).2 := by
  rw [cache_delPattern_run]
  split_ifs <;> exact ⟨_, rfl⟩

theorem logGrows_execute (sql : String) (params : List Param) (w : World) :
    LogGrows w (pool.execute sql params w).2 :=
  ⟨_, rfl⟩

theorem logGrows_getById (id : String) (w : World) : LogGrows w (Task.getById id w).2 := by
  unfold Task.getById
  apply logGrows_tryCatch
  · intro w
    apply logGrows_bind
    · exact logGrows_cache_get _
    · intro v w
      split_ifs
      · exact LogGrows.refl w
      · apply logGrows_bind
        · exact logGrows_execute _ _
        · intro res w
          rcases res.rowList with _ | ⟨row, t⟩
          · exact LogGrows.refl w
          · exact logGrows_bind _ _ (logGrows_cache_set _ _ _) (fun _ w => LogGrows.refl w) w
  · intro e w
    exact LogGrows.refl w

/-! ## The dynamic update statement -/

theorem setItem_values :
    setItem "title" = "title = ?" ∧ setItem "description" = "description = ?" ∧
      setItem "status" = "status = ?" ∧ setItem "priority" = "priority = ?" ∧
      setItem "due_date" = "due_date = ?" := by decide

theorem updateParts_eq (taskData : JsObj) :
    Task.updateParts taskData =
      ((presentColumns taskData).map setItem,
        (presentColumns taskData).map (fun c => Param.val (taskData.get c))) := by
  obtain ⟨h1, h2, h3, h4, h5⟩ := setItem_values
  unfold Task.updateParts presentColumns dataColumns pushField
  by_cases c1 : taskData.get "title" = .undefined <;>
  by_cases c2 : taskData.get "description" = .undefined <;>
  by_cases c3 : taskData.get "status" = .undefined <;>
  by_cases c4 : taskData.get "priority" = .undefined <;>
  by_cases c5 : taskData.get "due_date" = .undefined <;>
  simp [c1, c2, c3, c4, c5, h1, h2, h3, h4, h5]

theorem presentColumns_mem (taskData : JsObj) (h : presentColumns taskData ≠ []) :
    presentColumns taskData ∈ updateColumnSets := by
  unfold updateColumnSets
  rw [List.mem_filter]
  refine ⟨?_, ?_⟩
  · rw [List.mem_sublists]
    exact List.filter_sublist _
  · cases hp : presentColumns taskData with
    | nil => exact absurd hp h
    | cons a t => rfl

theorem tryCatch_throw_world {α : Type} (body : Js α) (p : String) (w : World) :
    (Js.tryCatch body (fun msg => Js.throw (p ++ msg)) w).2 = (body w).2 := by
  unfold Js.tryCatch
  cases (body w).1 <;> rfl

theorem tryCatch_throw_result {α : Type} (body : Js α) (p : String) (w : World) :
    (Js.tryCatch body (fun msg => Js.throw (p ++ msg)) w).1 =
      match (body w).1 with
      | .ok a => .ok a
      | .error e => .error (p ++ e) := by
  unfold Js.tryCatch
  cases (body w).1 <;> rfl

theorem update_placeholders :
    ∀ cs ∈ updateColumnSets,
      (sqlUpdate (cs.map setItem)).data.count '?' = cs.length + 1 := by decide

theorem logGrows_afterWrite (id : String) (res : QueryResult) (w : World) :
    LogGrows w
      ((if res.affectedRows = 0 then (pure Value.null : Js Value)
        else do
          let _ ← cache.del (taskKey id)
          let _ ← cache.delPattern listPattern
          Task.getById id) w).2 := by
  split_ifs
  · exact LogGrows.refl w
  · exact logGrows_bind _ _ (logGrows_cache_del _)
      (fun _ w => logGrows_bind _ _ (logGrows_cache_delPattern _)
        (fun _ w => logGrows_getById id w) w) w

theorem update_no_fields (id : String) (taskData : JsObj) (w : World)
    (h : ∀ c ∈ dataColumns, taskData.get c = .undefined) :
    Task.update id taskData w =
      (.error "Failed to update task: No fields to update", w) := by
  have hp : presentColumns taskData = [] := by
    unfold presentColumns
    rw [List.filter_eq_nil_iff]
    intro c hc
    simp [h c hc]
  unfold Task.update Js.tryCatch
  simp [updateParts_eq, hp, Js.throw]

/-- C13: `update` called with none of the five fields present fails with the
"No fields to update" error and leaves the whole world as it was: no store
statement and no cache command is issued (the trace is unchanged too). -/
theorem update_without_fields (id : String) (taskData : JsObj) (w : World)
    (h : ∀ c ∈ dataColumns, taskData.get c = .undefined) :
    Task.update id taskData w =
      (.error "Failed to update task: No fields to update", w) :=
  update_no_fields id taskData w h

theorem update_without_fields_witness :
    (∀ c ∈ dataColumns, JsObj.empty.get c = .undefined) ∧
      Task.update "7" JsObj.empty emptyWorld =
        (.error "Failed to update task: No fields to update", emptyWorld) :=
  ⟨by decide, update_without_fields "7" JsObj.empty emptyWorld (by decide)⟩

/-- C20: when at least one of the five fields is present, the first call
`update` makes is the statement `UPDATE tasks SET c1 = ?, ... WHERE id = ?`
whose `SET` items are exactly the present columns among title, description,
status, priority, due_date (in that order, whatever else the object carries),
whose parameters are the values of those fields in the same order followed by
the id, and whose text has as many `?` as there are parameters. -/
theorem update_statement_shape (id : String) (taskData : JsObj) (w : World)
    (h : presentColumns taskData ≠ []) :
    (∃ err rest,
      (Task.update id taskData w).2.log =
        w.log ++
          Event.sql (sqlUpdate ((presentColumns taskData).map setItem))
            ((presentColumns taskData).map (fun c => Param.val (taskData.get c)) ++ [.val (.str id)])
            err :: rest) ∧
    (sqlUpdate ((presentColumns taskData).map setItem)).data.count '?' =
      ((presentColumns taskData).map (fun c => Param.val (taskData.get c)) ++
        [Param.val (.str id)]).length ∧
    (presentColumns taskData).Sublist dataColumns := by
  refine ⟨?_, ?_, List.filter_sublist _⟩
  · unfold Task.update
    rw [tryCatch_throw_world]
    have hl : ¬ ((presentColumns taskData).map setItem).length = 0 := by
      simpa using h
    simp only [updateParts_eq, hl, if_false]
    generalize sqlUpdate ((presentColumns taskData).map setItem) = sql
    generalize (presentColumns taskData).map (fun c => Param.val (taskData.get c)) ++
      [Param.val (.str id)] = ps
    rw [Js.run_bind]
    cases hr : (pool.execute sql ps w).1 with
    | ok res =>
      obtain ⟨evs, he⟩ := logGrows_afterWrite id res (pool.execute sql ps w).2
      refine ⟨errorOf (w.db.execute sql ps).1, evs, ?_⟩
      rw [he]
      show (w.log ++ [_]) ++ evs = _
      rw [List.append_assoc]
      rfl
    | error e => exact ⟨errorOf (w.db.execute sql ps).1, [], rfl⟩
  · rw [update_placeholders _ (presentColumns_mem taskData h)]
    simp

theorem update_statement_shape_witness :
    presentColumns ⟨[("status", .str "completed"), ("owner", .str "x")], by decide⟩ ≠ [] ∧
    ((∃ err rest,
      (Task.update "7" ⟨[("status", .str "completed"), ("owner", .str "x")], by decide⟩
          emptyWorld).2.log =
        emptyWorld.log ++
          Event.sql
            (sqlUpdate ((presentColumns
              ⟨[("status", .str "completed"), ("owner", .str "x")], by decide⟩).map setItem))
            ((presentColumns
              ⟨[("status", .str "completed"), ("owner", .str "x")], by decide⟩).map
                (fun c => Param.val
                  ((⟨[("status", .str "completed"), ("owner", .str "x")], by decide⟩ :
                    JsObj).get c)) ++ [.val (.str "7")])
            err :: rest) ∧
    (sqlUpdate ((presentColumns
        ⟨[("status", .str "completed"), ("owner", .str "x")], by decide⟩).map
          setItem)).data.count '?' =
      ((presentColumns
        ⟨[("status", .str "completed"), ("owner", .str "x")], by decide⟩).map
          (fun c => Param.val
            ((⟨[("status", .str "completed"), ("owner", .str "x")], by decide⟩ :
              JsObj).get c)) ++ [Param.val (.str "7")]).length ∧
    (presentColumns
      ⟨[("status", .str "completed"), ("owner", .str "x")], by decide⟩).Sublist dataColumns) :=
  ⟨by decide, update_statement_shape "7" _ emptyWorld (by decide)⟩

/-! ## The store on the statements of the repository -/

theorem run_selectById (id : String) (db : Db) :
    Db.run sqlSelectById [.val (.str id)] db =
      .ok (.rows (db.rows.filter (fun r => readId id = some r.id)), db) := by
  simp [Db.run, Param.key]

theorem run_insert (params : List Param) (db : Db) :
    Db.run sqlInsert params db = db.insert params := by
  have h : sqlInsert ≠ sqlSelectById := by decide
  simp [Db.run, h]

theorem run_delete (params : List Param) (db : Db) :
    Db.run sqlDelete params db = db.delete params := by
  have h1 : sqlDelete ≠ sqlSelectById := by decide
  have h2 : sqlDelete ≠ sqlInsert := by decide
  simp [Db.run, h1, h2]

theorem run_stats (params : List Param) (db : Db) :
    Db.run sqlStats params db = db.stats params := by
  have h1 : sqlStats ≠ sqlSelectById := by decide
  have h2 : sqlStats ≠ sqlInsert := by decide
  have h3 : sqlStats ≠ sqlDelete := by decide
  simp [Db.run, h1, h2, h3]

theorem selectAll_dispatch :
    ∀ sh ∈ [(false, false), (true, false), (false, true), (true, true)],
      sqlSelectAll sh.1 sh.2 ≠ sqlSelectById ∧ sqlSelectAll sh.1 sh.2 ≠ sqlInsert ∧
      sqlSelectAll sh.1 sh.2 ≠ sqlDelete ∧ sqlSelectAll sh.1 sh.2 ≠ sqlStats ∧
      [(false, false), (true, false), (false, true), (true, true)].find?
        (fun s => sqlSelectAll s.1 s.2 = sqlSelectAll sh.1 sh.2) = some sh := by decide

theorem run_selectAll (byStatus byPriority : Bool) (params : List Param) (db : Db) :
    Db.run (sqlSelectAll byStatus byPriority) params db =
      db.selectAll byStatus byPriority params := by
  have hm : (byStatus, byPriority) ∈
      [(false, false), (true, false), (false, true), (true, true)] := by
    cases byStatus <;> cases byPriority <;> simp
  obtain ⟨h1, h2, h3, h4, h5⟩ := selectAll_dispatch _ hm
  unfold Db.run
  simp only [h1, h2, h3, h4, if_false]
  rw [h5]

theorem update_dispatch :
    ∀ cs ∈ updateColumnSets,
      sqlUpdate (cs.map setItem) ≠ sqlSelectById ∧ sqlUpdate (cs.map setItem) ≠ sqlInsert ∧
      sqlUpdate (cs.map setItem) ≠ sqlDelete ∧ sqlUpdate (cs.map setItem) ≠ sqlStats ∧
      [(false, false), (true, false), (false, true), (true, true)].find?
        (fun s => sqlSelectAll s.1 s.2 = sqlUpdate (cs.map setItem)) = none ∧
      updateColumnSets.find? (fun c => sqlUpdate (c.map setItem) = sqlUpdate (cs.map setItem)) =
        some cs := by decide

theorem run_update (cols : List String) (hc : cols ∈ updateColumnSets) (params : List Param)
    (db : Db) :
    Db.run (sqlUpdate (cols.map setItem)) params db = db.update cols params := by
  obtain ⟨h1, h2, h3, h4, h5, h6⟩ := update_dispatch _ hc
  unfold Db.run
  simp only [h1, h2, h3, h4, if_false]
  rw [h5]
  simp only []
  rw [h6]

/-! ## Column assignments -/

theorem setColumn_ok {c : String} {v : JsVal} {r r1 : Row} (h : setColumn c v r = .ok r1) :
    c ∈ dataColumns ∧ r1.field c = v ∧ (∀ k, k ≠ c → r1.field k = r.field k) ∧
      r1.id = r.id ∧ r1.created_at = r.created_at ∧ r1.updated_at = r.updated_at := by
  unfold setColumn at h
  cases v with
  | undefined => simp at h
  | null =>
    simp only at h
    split_ifs at h with h1 h2 h3 h4 h5 <;>
      (injection h with h; subst h; subst_vars
       refine ⟨by decide, by simp [Row.field, jsOfColumn], ?_, rfl, rfl, rfl⟩
       intro k hk
       simp [Row.field, hk])
  | str s =>
    simp only at h
    split_ifs at h with h1 h2 h3 h4 h5 h6 h7 h8 <;>
      (injection h with h; subst h; subst_vars
       refine ⟨by decide, by simp [Row.field, jsOfColumn], ?_, rfl, rfl, rfl⟩
       intro k hk
       simp [Row.field, hk])

theorem applyAssignments_ok :
    ∀ (asg : List (String × JsVal)) (r r1 : Row), applyAssignments asg r = .ok r1 →
      (asg.map Prod.fst).Nodup →
      (∀ a ∈ asg, a.1 ∈ dataColumns ∧ r1.field a.1 = a.2) ∧
      (∀ k, k ∉ asg.map Prod.fst → r1.field k = r.field k) ∧
      r1.id = r.id ∧ r1.created_at = r.created_at ∧ r1.updated_at = r.updated_at
  | [], r, r1, h, _ => by
    simp only [applyAssignments, Except.ok.injEq] at h
    subst h
    simp
  | a :: asg, r, r1, h, hn => by
    rw [applyAssignments] at h
    cases hs : setColumn a.1 a.2 r with
    | error m => rw [hs] at h; simp at h
    | ok r2 =>
      rw [hs] at h
      simp only at h
      rw [List.map_cons, List.nodup_cons] at hn
      obtain ⟨hc, hv, hother, hid, hca, hua⟩ := setColumn_ok hs
      obtain ⟨hall, hrest, hid1, hca1, hua1⟩ := applyAssignments_ok asg r2 r1 h hn.2
      refine ⟨?_, ?_, hid1.trans hid, hca1.trans hca, hua1.trans hua⟩
      · intro b hb
        rcases List.mem_cons.mp hb with rfl | hb
        · exact ⟨hc, (hrest _ hn.1).trans hv⟩
        · exact hall b hb
      · intro k hk
        rw [List.map_cons, List.mem_cons, not_or] at hk
        exact (hrest k hk.2).trans (hother k hk.1)

/-! ## The cache helpers never raise -/

theorem cache_get_ok (key : String) (w : World) : ∃ v, (cache.get key w).1 = .ok v := by
  rw [cache_get_run]
  exact ⟨_, rfl⟩

theorem cache_set_ok (key : String) (p : Payload) (ttl : Option Int) (w : World) :
    ∃ b, (cache.set key p ttl w).1 = .ok b := by
  cases p with
  | value v =>
    rw [cache_set_run]
    split_ifs <;> exact ⟨_, rfl⟩
  | unserializable =>
    rw [cache_set_unserializable]
    exact ⟨_, rfl⟩

theorem cache_del_ok (key : String) (w : World) : ∃ b, (cache.del key w).1 = .ok b := by
  rw [cache_del_run]
  split_ifs <;> exact ⟨_, rfl⟩

theorem cache_delPattern_ok (pattern : String) (w : World) :
    ∃ b, (cache.delPattern pattern w).1 = .ok b := by
  rw [cache_delPattern_run]
  split_ifs <;> exact ⟨_, rfl⟩

/-! ## `create` -/

theorem create_run (taskData : JsObj) (w : World) :
    Task.create taskData w =
      match (w.db.execute sqlInsert (Task.insertParams taskData)).1 with
      | .ok res =>
        (.ok (Value.created
          { id := res.insertId
            title := taskData.get "title"
            description := taskData.get "description"
            status := (taskData.get "status").orElse (.str "pending")
            priority := (taskData.get "priority").orElse (.str "medium")
            due_date := taskData.get "due_date" }),
          (cache.delPattern listPattern
            (pool.execute sqlInsert (Task.insertParams taskData) w).2).2)
      | .error m =>
        (.error ("Failed to create task: " ++ m),
          (pool.execute sqlInsert (Task.insertParams taskData) w).2) := by
  unfold Task.create Js.tryCatch
  simp only [Js.run_bind]
  have hp : (pool.execute sqlInsert (Task.insertParams taskData) w).1 =
      (w.db.execute sqlInsert (Task.insertParams taskData)).1 := rfl
  rw [hp]
  cases (w.db.execute sqlInsert (Task.insertParams taskData)).1 with
  | error m => simp [Js.throw]
  | ok res =>
    obtain ⟨b, hb⟩ := cache_delPattern_ok listPattern
      (pool.execute sqlInsert (Task.insertParams taskData) w).2
    simp [hb, pure, Js.pure]

theorem execute_ok {sql : String} {params : List Param} {db : Db} {res : QueryResult}
    (h : (db.execute sql params).1 = .ok res) :
    db.nextFault.1 = none ∧
      Db.run sql params db.nextFault.2 = .ok (res, (db.execute sql params).2) := by
  unfold Db.execute at h ⊢
  by_cases hu : params.any Param.isUndefined = true
  · simp [hu] at h
  · simp only [hu, if_false, Bool.false_eq_true] at h ⊢
    rcases hn : db.nextFault with ⟨f, db1⟩
    rw [hn] at h
    cases f with
    | some m => simp at h
    | none =>
      simp only at h ⊢
      cases hr : Db.run sql params db1 with
      | error m => rw [hr] at h; simp at h
      | ok p =>
        rw [hr] at h
        simp only [Except.ok.injEq] at h
        subst h
        simp

theorem paramValues_some : ∀ (ps : List Param) (vs : List JsVal),
    paramValues ps = some vs → ps = vs.map Param.val
  | [], vs, h => by
    simp only [paramValues, Option.some.injEq] at h
    subst h
    rfl
  | .val v :: ps, vs, h => by
    simp only [paramValues, Option.map_eq_some'] at h
    obtain ⟨vs1, h1, rfl⟩ := h
    rw [paramValues_some ps vs1 h1]
    rfl
  | .int _ :: _, vs, h => by simp [paramValues] at h

theorem nextFault_db (db : Db) :
    db.nextFault.2.rows = db.rows ∧ db.nextFault.2.nextId = db.nextId ∧
      db.nextFault.2.now = db.now ∧ db.nextFault.2.today = db.today := by
  unfold Db.nextFault
  cases db.faults <;> simp

theorem insert_ok {params : List Param} {db db2 : Db} {res : QueryResult}
    (h : db.insert params = .ok (res, db2)) :
    ∃ t d s p due row,
      params = [.val t, .val d, .val s, .val p, .val due] ∧
      res = .header db.nextId 1 ∧ db2 = { db with rows := db.rows ++ [row], nextId := db.nextId + 1 } ∧
      row.id = db.nextId ∧ row.created_at = db.now ∧ row.updated_at = db.now ∧
      row.field "title" = t ∧ row.field "description" = d ∧ row.field "status" = s ∧
      row.field "priority" = p ∧ row.field "due_date" = due := by
  unfold Db.insert at h
  split at h
  · rename_i t d s p due hpv
    split at h
    · rename_i r hr
      simp only [Except.ok.injEq, Prod.mk.injEq] at h
      obtain ⟨hall, _, hid, hc, hu⟩ := applyAssignments_ok _ _ _ hr (by simp)
      refine ⟨t, d, s, p, due, r, ?_, h.1.symm, h.2.symm, hid, hc, hu,
        (hall (_, _) (by simp)).2, (hall ("description", d) (by simp)).2,
        (hall ("status", s) (by simp)).2, (hall ("priority", p) (by simp)).2,
        (hall ("due_date", due) (by simp)).2⟩
      exact paramValues_some _ _ hpv
    · simp at h
  · simp at h

/-! ## The cache helpers leave the store alone -/

theorem cache_get_db (key : String) (w : World) : (cache.get key w).2.db = w.db := by
  rw [cache_get_run]

theorem cache_set_db (key : String) (p : Payload) (ttl : Option Int) (w : World) :
    (cache.set key p ttl w).2.db = w.db := by
  cases p with
  | value v =>
    rw [cache_set_run]
    split_ifs <;> rfl
  | unserializable => rw [cache_set_unserializable]

theorem cache_del_db (key : String) (w : World) : (cache.del key w).2.db = w.db := by
  rw [cache_del_run]
  split_ifs <;> rfl

theorem cache_delPattern_db (pattern : String) (w : World) :
    (cache.delPattern pattern w).2.db = w.db := by
  rw [cache_delPattern_run]
  split_ifs <;> rfl

/-- C11 (as amended): a successful `create` appends exactly one row; its title
is the supplied title; its status and priority are the supplied values when
these are non-empty strings and `pending` / `medium` otherwise; its description
and due date are the supplied values when these are non-empty strings and
`NULL` otherwise (omitted, `null` or empty); the returned record carries the
status and priority of the inserted row. -/
theorem create_inserted_row (taskData : JsObj) (w w1 : World) (res : Value)
    (h : Task.create taskData w = (.ok res, w1)) :
    ∃ row c, w1.db.rows = w.db.rows ++ [row] ∧ res = .created c ∧
      row.field "title" = taskData.get "title" ∧
      row.field "status" = (taskData.get "status").orElse (.str "pending") ∧
      row.field "priority" = (taskData.get "priority").orElse (.str "medium") ∧
      row.field "description" = (taskData.get "description").orElse .null ∧
      row.field "due_date" = (taskData.get "due_date").orElse .null ∧
      c.status = row.field "status" ∧ c.priority = row.field "priority" := by
  rw [create_run] at h
  cases he : (w.db.execute sqlInsert (Task.insertParams taskData)).1 with
  | error m => rw [he] at h; simp at h
  | ok qr =>
    rw [he] at h
    simp only [Prod.mk.injEq, Except.ok.injEq] at h
    obtain ⟨hres, hw⟩ := h
    obtain ⟨_, hrun⟩ := execute_ok he
    rw [run_insert] at hrun
    obtain ⟨t, d, s, p, due, row, hps, _, hdb, _, _, _, ht, hd, hs, hp, hdue⟩ := insert_ok hrun
    simp only [Task.insertParams, List.cons.injEq, Param.val.injEq, and_true] at hps
    obtain ⟨rfl, rfl, rfl, rfl, rfl⟩ := hps
    refine ⟨row, _, ?_, hres.symm, ht, hs, hp, hd, hdue, hs.symm, hp.symm⟩
    rw [← hw, cache_delPattern_db]
    show (w.db.execute sqlInsert (Task.insertParams taskData)).2.rows = _
    rw [hdb]
    simp [(nextFault_db w.db).1]

theorem create_inserted_row_witness :
    ∃ row c,
      (Task.create emptyDescriptionTask emptyWorld).2.db.rows = emptyWorld.db.rows ++ [row] ∧
      Value.created ⟨1, .str "A", .str "", .str "pending", .str "medium", .undefined⟩ =
        .created c ∧
      row.field "title" = emptyDescriptionTask.get "title" ∧
      row.field "status" = (emptyDescriptionTask.get "status").orElse (.str "pending") ∧
      row.field "priority" = (emptyDescriptionTask.get "priority").orElse (.str "medium") ∧
      row.field "description" = (emptyDescriptionTask.get "description").orElse .null ∧
      row.field "due_date" = (emptyDescriptionTask.get "due_date").orElse .null ∧
      c.status = row.field "status" ∧ c.priority = row.field "priority" :=
  create_inserted_row emptyDescriptionTask emptyWorld
    (Task.create emptyDescriptionTask emptyWorld).2
    (.created ⟨1, .str "A", .str "", .str "pending", .str "medium", .undefined⟩)
    (Prod.ext (by decide) rfl)

/-- C11 (counterexample to the claim as stated): a create call that supplies
the empty string as description inserts a row whose description is `NULL`,
not the supplied value. -/
theorem create_empty_description_stored_null :
    emptyDescriptionTask.get "description" = .str "" ∧
      (Task.create emptyDescriptionTask emptyWorld).2.db.rows.map
        (fun r => r.field "description") = [.null] := by
  decide

/-! ## The store on a working connection -/

theorem execute_eq (sql : String) (params : List Param) (db : Db) :
    db.execute sql params =
      if params.any Param.isUndefined then (.error undefinedBindMessage, db)
      else
        match db.nextFault.1 with
        | some m => (.error m, db.nextFault.2)
        | none =>
          match Db.run sql params db.nextFault.2 with
          | .ok p => (.ok p.1, p.2)
          | .error m => (.error m, db.nextFault.2) := by
  unfold Db.execute
  split_ifs
  · rfl
  · rcases hn : db.nextFault with ⟨f, db1⟩
    cases f with
    | some m => rfl
    | none =>
      simp only
      cases Db.run sql params db1 <;> rfl

theorem execute_selectById (id : String) (db : Db) :
    db.execute sqlSelectById [.val (.str id)] =
      match db.nextFault.1 with
      | some m => (.error m, db.nextFault.2)
      | none => (.ok (.rows (db.rows.filter (fun r => readId id = some r.id))), db.nextFault.2) := by
  rw [execute_eq, run_selectById]
  simp [Param.isUndefined, (nextFault_db db).1]

theorem execute_delete (id : String) (db : Db) :
    db.execute sqlDelete [.val (.str id)] =
      match db.nextFault.1 with
      | some m => (.error m, db.nextFault.2)
      | none =>
        (.ok (.header 0 (db.rows.countP (fun r => readId id = some r.id))),
          { db.nextFault.2 with rows := db.rows.filter (fun r => readId id ≠ some r.id) }) := by
  rw [execute_eq, run_delete]
  simp [Param.isUndefined, Db.delete, Param.key, (nextFault_db db).1]

theorem execute_stats (db : Db) :
    db.execute sqlStats Task.statsParams =
      match db.nextFault.1 with
      | some m => (.error m, db.nextFault.2)
      | none =>
        (.ok (.aggregate
          { total := db.rows.length
            pending := sumCase (fun r => r.status = some "pending") db.rows
            in_progress := sumCase (fun r => r.status = some "in-progress") db.rows
            completed := sumCase (fun r => r.status = some "completed") db.rows
            high_priority := sumCase (fun r => r.priority = some "high") db.rows
            overdue := sumCase (overdueCond db.today "completed") db.rows }),
          db.nextFault.2) := by
  rw [execute_eq, run_stats]
  simp [Param.isUndefined, Db.stats, Task.statsParams, (nextFault_db db).1, (nextFault_db db).2.2.2]

theorem listQuery_eq (filters : JsObj) :
    Task.listQuery filters =
      sqlSelectAll (filters.get "status").truthy (filters.get "priority").truthy := by
  unfold Task.listQuery
  cases (filters.get "status").truthy <;> cases (filters.get "priority").truthy <;> decide

theorem truthy_filterOf (v : JsVal) (h : v.truthy = true) :
    ∃ s, v = .str s ∧ filterOf v = some s := by
  cases v with
  | undefined => simp [JsVal.truthy] at h
  | null => simp [JsVal.truthy] at h
  | str s =>
    simp only [JsVal.truthy, decide_eq_true_eq] at h
    exact ⟨s, rfl, by simp [filterOf, h]⟩

theorem falsy_filterOf (v : JsVal) (h : v.truthy = false) : filterOf v = none := by
  cases v with
  | undefined => rfl
  | null => rfl
  | str s =>
    simp only [JsVal.truthy, decide_eq_false_iff_not, not_not] at h
    simp [filterOf, h]

theorem execute_list (filters : JsObj) (db : Db) :
    db.execute (Task.listQuery filters) (Task.listParams filters) =
      match db.nextFault.1 with
      | some m => (.error m, db.nextFault.2)
      | none => (.ok (.rows (listRows filters db.rows)), db.nextFault.2) := by
  rw [execute_eq, listQuery_eq, run_selectAll]
  unfold Task.listParams listRows
  cases h1 : (filters.get "status").truthy <;> cases h2 : (filters.get "priority").truthy
  · simp [Db.selectAll, falsy_filterOf _ h1, falsy_filterOf _ h2, (nextFault_db db).1]
  · obtain ⟨p, hp, hfp⟩ := truthy_filterOf _ h2
    rw [falsy_filterOf _ h1, hfp]
    simp [Db.selectAll, hp, Param.isUndefined, (nextFault_db db).1]
  · obtain ⟨s, hs, hfs⟩ := truthy_filterOf _ h1
    rw [falsy_filterOf _ h2, hfs]
    simp [Db.selectAll, hs, Param.isUndefined, (nextFault_db db).1]
  · obtain ⟨s, hs, hfs⟩ := truthy_filterOf _ h1
    obtain ⟨p, hp, hfp⟩ := truthy_filterOf _ h2
    rw [hfp, hfs]
    simp [Db.selectAll, hs, hp, Param.isUndefined, (nextFault_db db).1]

/-! ## The repository methods, step by step -/

theorem cache_get_fst (key : String) (w : World) :
    (cache.get key w).1 = .ok (w.redis.read key) := by
  rw [cache_get_run]

theorem execute_fst (sql : String) (params : List Param) (w : World) :
    (pool.execute sql params w).1 = (w.db.execute sql params).1 := rfl

theorem execute_db (sql : String) (params : List Param) (w : World) :
    (pool.execute sql params w).2.db = (w.db.execute sql params).2 := rfl

theorem execute_redis (sql : String) (params : List Param) (w : World) :
    (pool.execute sql params w).2.redis = w.redis := rfl

theorem getById_run (id : String) (w : World) :
    Task.getById id w =
      if (w.redis.read (taskKey id)).truthy then
        (.ok (w.redis.read (taskKey id)), (cache.get (taskKey id) w).2)
      else
        match w.db.nextFault.1 with
        | some m =>
          (.error ("Failed to get task: " ++ m),
            (pool.execute sqlSelectById [.val (.str id)] (cache.get (taskKey id) w).2).2)
        | none =>
          match w.db.rows.filter (fun r => readId id = some r.id) with
          | [] =>
            (.ok Value.null, (pool.execute sqlSelectById [.val (.str id)] (cache.get (taskKey id) w).2).2)
          | row :: _ =>
            (.ok (Value.task row),
              (cache.set (taskKey id) (.value (.task row)) none
                (pool.execute sqlSelectById [.val (.str id)] (cache.get (taskKey id) w).2).2).2) := by
  unfold Task.getById Js.tryCatch
  simp only [Js.run_bind, cache_get_fst]
  split_ifs with ht
  · simp [pure, Js.pure]
  · simp only [Js.run_bind, execute_fst, cache_get_db, execute_selectById]
    cases hn : w.db.nextFault.1 with
    | some m => simp [Js.throw]
    | none =>
      simp only [QueryResult.rowList]
      cases hr : w.db.rows.filter (fun r => readId id = some r.id) with
      | nil => simp [pure, Js.pure]
      | cons row t =>
        obtain ⟨b, hb⟩ := cache_set_ok (taskKey id) (.value (.task row)) none
          (pool.execute sqlSelectById [.val (.str id)] (cache.get (taskKey id) w).2).2
        simp [Js.run_bind, hb, pure, Js.pure]

theorem getAll_run (filters : JsObj) (w : World) :
    Task.getAll filters w =
      if (w.redis.read (listKey filters)).truthy then
        (.ok (w.redis.read (listKey filters)), (cache.get (listKey filters) w).2)
      else
        match w.db.nextFault.1 with
        | some m =>
          (.error ("Failed to get tasks: " ++ m),
            (pool.execute (Task.listQuery filters) (Task.listParams filters)
              (cache.get (listKey filters) w).2).2)
        | none =>
          (.ok (Value.tasks (listRows filters w.db.rows)),
            (cache.set (listKey filters) (.value (.tasks (listRows filters w.db.rows))) none
              (pool.execute (Task.listQuery filters) (Task.listParams filters)
                (cache.get (listKey filters) w).2).2).2) := by
  unfold Task.getAll Js.tryCatch
  simp only [Js.run_bind, cache_get_fst]
  split_ifs with ht
  · simp [pure, Js.pure]
  · simp only [Js.run_bind, execute_fst, cache_get_db, execute_list]
    cases hn : w.db.nextFault.1 with
    | some m => simp [Js.throw]
    | none =>
      simp only [QueryResult.rowList]
      obtain ⟨b, hb⟩ := cache_set_ok (listKey filters)
        (.value (.tasks (listRows filters w.db.rows))) none
        (pool.execute (Task.listQuery filters) (Task.listParams filters)
          (cache.get (listKey filters) w).2).2
      simp [hb, pure, Js.pure]

theorem getStats_run (w : World) :
    Task.getStats w =
      if (w.redis.read statsKey).truthy then
        (.ok (w.redis.read statsKey), (cache.get statsKey w).2)
      else
        match w.db.nextFault.1 with
        | some m =>
          (.error ("Failed to get stats: " ++ m),
            (pool.execute sqlStats Task.statsParams (cache.get statsKey w).2).2)
        | none =>
          (.ok (Value.stats (tableStats w.db)),
            (cache.set statsKey (.value (.stats (tableStats w.db))) (some 60)
              (pool.execute sqlStats Task.statsParams (cache.get statsKey w).2).2).2) := by
  unfold Task.getStats Js.tryCatch
  simp only [Js.run_bind, cache_get_fst]
  split_ifs with ht
  · simp [pure, Js.pure]
  · simp only [Js.run_bind, execute_fst, cache_get_db, execute_stats]
    cases hn : w.db.nextFault.1 with
    | some m => simp [Js.throw]
    | none =>
      simp only [QueryResult.firstStats, Js.pure]
      obtain ⟨b, hb⟩ := cache_set_ok statsKey (.value (.stats (tableStats w.db))) (some 60)
        (pool.execute sqlStats Task.statsParams (cache.get statsKey w).2).2
      simp only [tableStats] at hb ⊢
      simp [hb, pure, Js.pure]

theorem delete_run (id : String) (w : World) :
    Task.delete id w =
      match w.db.nextFault.1 with
      | some m =>
        (.error ("Failed to delete task: " ++ m), (pool.execute sqlDelete [.val (.str id)] w).2)
      | none =>
        if w.db.rows.countP (fun r => readId id = some r.id) = 0 then
          (.ok (Value.bool false), (pool.execute sqlDelete [.val (.str id)] w).2)
        else
          (.ok (Value.bool true), invalidated id (pool.execute sqlDelete [.val (.str id)] w).2) := by
  unfold Task.delete Js.tryCatch invalidated
  simp only [Js.run_bind, execute_fst, execute_delete]
  cases hn : w.db.nextFault.1 with
  | some m => simp [Js.throw]
  | none =>
    simp only [QueryResult.affectedRows]
    split_ifs with hc
    · simp [pure, Js.pure]
    · obtain ⟨b1, hb1⟩ := cache_del_ok (taskKey id) (pool.execute sqlDelete [.val (.str id)] w).2
      obtain ⟨b2, hb2⟩ := cache_delPattern_ok listPattern
        (cache.del (taskKey id) (pool.execute sqlDelete [.val (.str id)] w).2).2
      simp [Js.run_bind, hb1, hb2, pure, Js.pure]

theorem update_run (id : String) (taskData : JsObj) (w : World)
    (h : presentColumns taskData ≠ []) :
    Task.update id taskData w =
      match (w.db.execute (Task.updateSql taskData) (Task.updateParams id taskData)).1 with
      | .error m =>
        (.error ("Failed to update task: " ++ m),
          (pool.execute (Task.updateSql taskData) (Task.updateParams id taskData) w).2)
      | .ok res =>
        if res.affectedRows = 0 then
          (.ok Value.null,
            (pool.execute (Task.updateSql taskData) (Task.updateParams id taskData) w).2)
        else
          match (Task.getById id (invalidated id
              (pool.execute (Task.updateSql taskData) (Task.updateParams id taskData) w).2)).1 with
          | .ok v =>
            (.ok v, (Task.getById id (invalidated id
              (pool.execute (Task.updateSql taskData) (Task.updateParams id taskData) w).2)).2)
          | .error m =>
            (.error ("Failed to update task: " ++ m), (Task.getById id (invalidated id
              (pool.execute (Task.updateSql taskData) (Task.updateParams id taskData) w).2)).2) := by
  have hl : ¬ ((presentColumns taskData).map setItem).length = 0 := by
    simpa using h
  unfold Task.update Js.tryCatch invalidated Task.updateSql Task.updateParams
  simp only [updateParts_eq, hl, if_false]
  generalize sqlUpdate ((presentColumns taskData).map setItem) = sql
  generalize (presentColumns taskData).map (fun c => Param.val (taskData.get c)) ++
    [Param.val (.str id)] = ps
  simp only [Js.run_bind, execute_fst]
  cases hr : (w.db.execute sql ps).1 with
  | error m => simp [Js.throw]
  | ok res =>
    simp only
    split_ifs with hc
    · simp [pure, Js.pure]
    · obtain ⟨b1, hb1⟩ := cache_del_ok (taskKey id) (pool.execute sql ps w).2
      obtain ⟨b2, hb2⟩ := cache_delPattern_ok listPattern
        (cache.del (taskKey id) (pool.execute sql ps w).2).2
      simp only [Js.run_bind, hb1, hb2]
      cases hg : (Task.getById id
        (cache.delPattern listPattern (cache.del (taskKey id) (pool.execute sql ps w).2).2).2).1 with
      | ok v => simp
      | error m => simp [Js.throw]

/-! ## The invalidation pattern -/

theorem globMatch_star (s : List Char) : globMatch ['*'] s = true := by
  simp only [globMatch, if_true, List.any_eq_true]
  exact ⟨[], by simp, rfl⟩

theorem globMatch_literal :
    ∀ (lit s : List Char), (∀ c ∈ lit, c ≠ '*' ∧ c ≠ '?') →
      globMatch (lit ++ ['*']) s = lit.isPrefixOf s
  | [], s, _ => by
    rw [List.nil_append, globMatch_star]
    simp [List.isPrefixOf]
  | p :: ps, [], h => by
    have hp := (h p (by simp)).1
    simp [globMatch, hp, List.isPrefixOf]
  | p :: ps, c :: cs, h => by
    have hp := h p (by simp)
    have ih := globMatch_literal ps cs (fun c hc => h c (by simp [hc]))
    simp only [List.cons_append, globMatch, hp.1, if_false, List.isPrefixOf]
    show ((decide (p = '?') || decide (p = c)) && globMatch (ps ++ ['*']) cs) = _
    rw [ih]
    by_cases hpc : p = c <;> simp [hp.2, hpc]

theorem globMatch_listPattern (key : String) :
    globMatch listPattern.data key.data = isListKey key := by
  have h : listPattern.data = "tasks:all:".data ++ ['*'] := by decide
  rw [h, globMatch_literal _ _ (by decide)]
  rfl

/-! ## Key namespaces -/

theorem taskKey_data (id : String) :
    (taskKey id).data = 't' :: 'a' :: 's' :: 'k' :: ':' :: (toString id).data := by
  unfold taskKey
  rw [String.data_append]
  rfl

theorem listKey_data (filters : JsObj) :
    (listKey filters).data =
      "tasks:all:".data ++ (Char.ofNat 123 :: jsonMembers filters.props) := by
  unfold listKey jsonStringify
  rw [String.data_append]

theorem isListKey_taskKey (id : String) : isListKey (taskKey id) = false := by
  unfold isListKey
  rw [taskKey_data]
  rfl

theorem isListKey_statsKey : isListKey statsKey = false := by decide

theorem isListKey_listKey (filters : JsObj) : isListKey (listKey filters) = true := by
  unfold isListKey
  rw [listKey_data]
  simp [List.isPrefixOf]

/-! ## A healthy Redis -/

theorem healthy_next {r : Redis} (h : r.healthy) :
    r.nextFault.1 = false ∧ r.nextFault.2.healthy := by
  obtain ⟨h1, h2⟩ := h
  unfold Redis.nextFault
  cases hf : r.faults with
  | nil => exact ⟨h1, h1, by simp [hf]⟩
  | cons b bs =>
    rw [hf] at h2
    exact ⟨h2 b (by simp), h1, fun c hc => h2 c (by simp [hc])⟩

theorem nextFault_lookup (r : Redis) (key : String) :
    r.nextFault.2.lookup key = r.lookup key := by
  unfold Redis.lookup
  rw [Redis.nextFault_entries]

theorem cache_get_redis (key : String) (w : World) :
    (cache.get key w).2.redis = w.redis.nextFault.2 := by
  rw [cache_get_run]

theorem cache_get_env (key : String) (w : World) :
    (cache.get key w).2.cacheTtlEnv = w.cacheTtlEnv := by
  rw [cache_get_run]

theorem cache_get_healthy (key : String) (w : World) (h : w.redis.healthy) :
    (cache.get key w).2.redis.healthy ∧
      (cache.get key w).2.redis.entries = w.redis.entries := by
  rw [cache_get_redis, Redis.nextFault_entries]
  exact ⟨(healthy_next h).2, rfl⟩

theorem cache_del_healthy (key : String) (w : World) (h : w.redis.healthy) :
    (cache.del key w).2.redis.healthy ∧
      (cache.del key w).2.redis.entries = w.redis.entries.filter (fun e => e.key ≠ key) := by
  obtain ⟨h1, h2⟩ := healthy_next h
  rw [cache_del_run]
  simp only [h1, Bool.false_eq_true, if_false]
  exact ⟨h2, by simp⟩

theorem cache_delPattern_healthy (w : World) (h : w.redis.healthy) :
    (cache.delPattern listPattern w).2.redis.healthy ∧
      (cache.delPattern listPattern w).2.redis.entries =
        w.redis.entries.filter (fun e => !isListKey e.key) := by
  obtain ⟨h1, h2⟩ := healthy_next h
  obtain ⟨h3, h4⟩ := healthy_next h2
  have hm : ∀ e ∈ w.redis.entries,
      (e.key ∈ w.redis.matching listPattern ↔ isListKey e.key = true) := by
    intro e he
    unfold Redis.matching
    simp only [List.mem_map, List.mem_filter, globMatch_listPattern]
    constructor
    · rintro ⟨e1, ⟨_, h1⟩, h2⟩
      rw [← h2]
      exact h1
    · intro h1
      exact ⟨e, ⟨he, h1⟩, rfl⟩
  rw [cache_delPattern_run]
  simp only [h1, h3, Bool.false_eq_true, if_false]
  split_ifs with hlen
  · refine ⟨h4, ?_⟩
    apply List.filter_congr
    intro e he
    simp [hm e he]
  · refine ⟨h2, ?_⟩
    rw [Redis.nextFault_entries]
    symm
    rw [List.filter_eq_self]
    intro e he
    have : w.redis.matching listPattern = [] := by
      cases hl : w.redis.matching listPattern with
      | nil => rfl
      | cons a t => simp [hl] at hlen
    have hne : e.key ∉ w.redis.matching listPattern := by simp [this]
    rw [hm e he] at hne
    simpa using hne

theorem cache_set_healthy (key : String) (v : Value) (ttl : Option Int) (w : World)
    (h : w.redis.healthy) :
    (cache.set key (.value v) ttl w).2.redis.healthy ∧
      (cache.set key (.value v) ttl w).2.redis.entries =
        if ttl.getD (defaultTtl w.cacheTtlEnv) ≤ 0 then w.redis.entries
        else ⟨key, ttl.getD (defaultTtl w.cacheTtlEnv), .json v⟩ ::
          w.redis.entries.filter (fun e => e.key ≠ key) := by
  obtain ⟨h1, h2⟩ := healthy_next h
  rw [cache_set_run]
  simp only [h1, Bool.false_eq_true, false_or]
  split_ifs with ht
  · exact ⟨h2, Redis.nextFault_entries _⟩
  · exact ⟨h2, rfl⟩

theorem find?_filter_keep {α : Type} (l : List α) (p q : α → Bool)
    (h : ∀ x, q x = true → p x = true) : (l.filter p).find? q = l.find? q := by
  induction l with
  | nil => rfl
  | cons a t ih =>
    by_cases hq : q a = true
    · simp [List.filter, h a hq, hq]
    · by_cases hp : p a = true
      · simp [List.filter, hp, hq, ih]
      · simp [List.filter, hp, hq, ih]

theorem create_ok_world {taskData : JsObj} {w w1 : World} {res : Value}
    (h : Task.create taskData w = (.ok res, w1)) :
    w1 = (cache.delPattern listPattern
      (pool.execute sqlInsert (Task.insertParams taskData) w).2).2 := by
  rw [create_run] at h
  cases he : (w.db.execute sqlInsert (Task.insertParams taskData)).1 with
  | error m => rw [he] at h; simp at h
  | ok qr =>
    rw [he] at h
    simp only [Prod.mk.injEq] at h
    exact h.2.symm

/-- C16: after a successful `create` on a healthy cache, no key beginning with
`tasks:all:` is left, and the entries under every `task:<id>` key and under
`tasks:stats` (key, expiry and text) are the ones held before the call. -/
theorem create_cache_frame (taskData : JsObj) (w w1 : World) (res : Value)
    (hh : w.redis.healthy) (h : Task.create taskData w = (.ok res, w1)) :
    (∀ e ∈ w1.redis.entries, isListKey e.key = false) ∧
    (∀ id, w1.redis.entries.find? (fun e => e.key = taskKey id) =
      w.redis.entries.find? (fun e => e.key = taskKey id)) ∧
    w1.redis.entries.find? (fun e => e.key = statsKey) =
      w.redis.entries.find? (fun e => e.key = statsKey) := by
  have hw := create_ok_world h
  have he := (cache_delPattern_healthy
    (pool.execute sqlInsert (Task.insertParams taskData) w).2 hh).2
  rw [← hw, execute_redis] at he
  rw [he]
  refine ⟨?_, ?_, ?_⟩
  · intro e hm
    simpa using (List.mem_filter.mp hm).2
  · intro id
    apply find?_filter_keep
    intro e hk
    simp only [decide_eq_true_eq] at hk
    simp [hk, isListKey_taskKey]
  · apply find?_filter_keep
    intro e hk
    simp only [decide_eq_true_eq] at hk
    simp [hk, isListKey_statsKey]

theorem create_cache_frame_witness :
    cachedWorld.redis.healthy ∧
    (∀ e ∈ (Task.create titleOnlyTask cachedWorld).2.redis.entries, isListKey e.key = false) ∧
    (∀ id, (Task.create titleOnlyTask cachedWorld).2.redis.entries.find?
        (fun e => e.key = taskKey id) =
      cachedWorld.redis.entries.find? (fun e => e.key = taskKey id)) ∧
    (Task.create titleOnlyTask cachedWorld).2.redis.entries.find? (fun e => e.key = statsKey) =
      cachedWorld.redis.entries.find? (fun e => e.key = statsKey) :=
  ⟨by decide,
    create_cache_frame titleOnlyTask cachedWorld (Task.create titleOnlyTask cachedWorld).2
      (.created ⟨2, .str "A", .undefined, .str "pending", .str "medium", .undefined⟩)
      (by decide) (Prod.ext (by decide) rfl)⟩

/-! ## `getAll` on a miss -/

theorem listRows_perm (filters : JsObj) (rows : List Row) :
    (listRows filters rows).Perm
      (rows.filter (rowMatches (filterOf (filters.get "status"))
        (filterOf (filters.get "priority")))) :=
  List.perm_insertionSort _ _

theorem listRows_sorted (filters : JsObj) (rows : List Row) :
    (listRows filters rows).Sorted newerFirst :=
  List.sorted_insertionSort _ _

theorem getAll_miss_result (filters : JsObj) (w : World)
    (hmiss : (w.redis.read (listKey filters)).truthy = false)
    (hdb : w.db.nextFault.1 = none) :
    (Task.getAll filters w).1 = .ok (.tasks (listRows filters w.db.rows)) := by
  rw [getAll_run]
  simp [hmiss, hdb]

/-- C17 (as amended): on a cache miss, with the store answering, `getAll`
returns exactly the rows that satisfy the conditions of the filter set (a
status or priority given as a non-empty string asks for equality; an absent,
`null` or empty one asks for nothing), most recent first; and on a healthy
cache with a positive default expiry that same list is then held under the
list key with the default expiry. -/
theorem getAll_miss (filters : JsObj) (w : World)
    (hmiss : (w.redis.read (listKey filters)).truthy = false)
    (hdb : w.db.nextFault.1 = none) :
    (Task.getAll filters w).1 = .ok (.tasks (listRows filters w.db.rows)) ∧
    (listRows filters w.db.rows).Perm
      (w.db.rows.filter (rowMatches (filterOf (filters.get "status"))
        (filterOf (filters.get "priority")))) ∧
    (listRows filters w.db.rows).Sorted newerFirst ∧
    (w.redis.healthy → 0 < defaultTtl w.cacheTtlEnv →
      (Task.getAll filters w).2.redis.entries.find? (fun e => e.key = listKey filters) =
        some ⟨listKey filters, defaultTtl w.cacheTtlEnv,
          .json (.tasks (listRows filters w.db.rows))⟩) := by
  refine ⟨?_, listRows_perm _ _, listRows_sorted _ _, ?_⟩
  · rw [getAll_run]
    simp [hmiss, hdb]
  · intro hh httl
    rw [getAll_run]
    simp only [hmiss, hdb, Bool.false_eq_true, if_false]
    have h1 := (cache_get_healthy (listKey filters) w hh).1
    have h2 := (cache_set_healthy (listKey filters) (.tasks (listRows filters w.db.rows)) none
      (pool.execute (Task.listQuery filters) (Task.listParams filters)
        (cache.get (listKey filters) w).2).2 h1).2
    rw [h2]
    have henv : (pool.execute (Task.listQuery filters) (Task.listParams filters)
        (cache.get (listKey filters) w).2).2.cacheTtlEnv = w.cacheTtlEnv := by
      show (cache.get (listKey filters) w).2.cacheTtlEnv = _
      rw [cache_get_env]
    simp only [Option.getD_none, henv, not_le.mpr httl, if_false]
    simp

theorem getAll_miss_witness :
    (cachedWorld.redis.read (listKey emptyStatusFilters)).truthy = false ∧
    cachedWorld.db.nextFault.1 = none ∧
    (Task.getAll emptyStatusFilters cachedWorld).1 =
      .ok (.tasks (listRows emptyStatusFilters cachedWorld.db.rows)) ∧
    (listRows emptyStatusFilters cachedWorld.db.rows).Perm
      (cachedWorld.db.rows.filter (rowMatches (filterOf (emptyStatusFilters.get "status"))
        (filterOf (emptyStatusFilters.get "priority")))) ∧
    (listRows emptyStatusFilters cachedWorld.db.rows).Sorted newerFirst ∧
    (cachedWorld.redis.healthy → 0 < defaultTtl cachedWorld.cacheTtlEnv →
      (Task.getAll emptyStatusFilters cachedWorld).2.redis.entries.find?
          (fun e => e.key = listKey emptyStatusFilters) =
        some ⟨listKey emptyStatusFilters, defaultTtl cachedWorld.cacheTtlEnv,
          .json (.tasks (listRows emptyStatusFilters cachedWorld.db.rows))⟩) :=
  ⟨by decide, by decide, getAll_miss emptyStatusFilters cachedWorld (by decide) (by decide)⟩

/-- C17 (counterexample to the claim as stated): with the status filter
provided as the empty string, `getAll` on a miss returns a row whose status is
`pending`, not only rows whose status equals the filter. -/
theorem getAll_empty_status_returns_all :
    emptyStatusFilters.get "status" = .str "" ∧
    (cachedWorld.redis.read (listKey emptyStatusFilters)).truthy = false ∧
    (Task.getAll emptyStatusFilters cachedWorld).1 = .ok (.tasks [sampleRow]) ∧
    sampleRow.status ≠ some "" := by
  decide

/-! ## `getStats` on a miss -/

theorem overdueCond_iff (today done : String) (r : Row) :
    overdueCond today done r = true ↔
      ∃ d s, r.due_date = some d ∧ r.status = some s ∧ ltChars d.data today.data = true ∧
        s ≠ done := by
  unfold overdueCond
  cases hd : r.due_date with
  | none => simp
  | some d =>
    cases hs : r.status with
    | none => simp
    | some s => simp

/-- C18 (as amended): on a cache miss, with the store answering, `getStats`
returns `total` = the number of rows; on a table with at least one row,
`pending`, `in_progress`, `completed` are the numbers of rows with status
`pending`, `in-progress`, `completed`, `high_priority` the number of rows with
priority `high`, and `overdue` the number of rows that have a due date before
the current date and a status that is present and not `completed`; on the
empty table these five are `null`. -/
theorem getStats_miss (w : World)
    (hmiss : (w.redis.read statsKey).truthy = false) (hdb : w.db.nextFault.1 = none) :
    ∃ s, (Task.getStats w).1 = .ok (.stats s) ∧ s.total = w.db.rows.length ∧
      (w.db.rows ≠ [] →
        s.pending = some (w.db.rows.countP (fun r => r.status = some "pending")) ∧
        s.in_progress = some (w.db.rows.countP (fun r => r.status = some "in-progress")) ∧
        s.completed = some (w.db.rows.countP (fun r => r.status = some "completed")) ∧
        s.high_priority = some (w.db.rows.countP (fun r => r.priority = some "high")) ∧
        s.overdue = some (w.db.rows.countP (overdueCond w.db.today "completed"))) ∧
      (w.db.rows = [] →
        s.pending = none ∧ s.in_progress = none ∧ s.completed = none ∧
        s.high_priority = none ∧ s.overdue = none) := by
  refine ⟨tableStats w.db, ?_, rfl, ?_, ?_⟩
  · rw [getStats_run]
    simp [hmiss, hdb]
  · intro hne
    have : w.db.rows.isEmpty = false := by
      cases hr : w.db.rows with
      | nil => exact absurd hr hne
      | cons a t => rfl
    simp [tableStats, sumCase, this]
  · intro he
    simp [tableStats, sumCase, he]

theorem getStats_miss_witness :
    (plainWorld.redis.read statsKey).truthy = false ∧ plainWorld.db.nextFault.1 = none ∧
    ∃ s, (Task.getStats plainWorld).1 = .ok (.stats s) ∧ s.total = plainWorld.db.rows.length ∧
      (plainWorld.db.rows ≠ [] →
        s.pending = some (plainWorld.db.rows.countP (fun r => r.status = some "pending")) ∧
        s.in_progress =
          some (plainWorld.db.rows.countP (fun r => r.status = some "in-progress")) ∧
        s.completed = some (plainWorld.db.rows.countP (fun r => r.status = some "completed")) ∧
        s.high_priority = some (plainWorld.db.rows.countP (fun r => r.priority = some "high")) ∧
        s.overdue =
          some (plainWorld.db.rows.countP (overdueCond plainWorld.db.today "completed"))) ∧
      (plainWorld.db.rows = [] →
        s.pending = none ∧ s.in_progress = none ∧ s.completed = none ∧
        s.high_priority = none ∧ s.overdue = none) :=
  ⟨by decide, by decide, getStats_miss plainWorld (by decide) (by decide)⟩

set_option maxRecDepth 4000 in
/-- C18 (counterexample to the claim as stated): on the empty table `getStats`
returns `null`, not the count 0, for the five sums; and a task without a
status whose due date is past is not counted as overdue. -/
theorem getStats_empty_table_nulls :
    (Task.getStats emptyWorld).1 = .ok (.stats ⟨0, none, none, none, none, none⟩) ∧
    (Task.getStats noStatusWorld).1 = .ok (.stats ⟨1, some 0, some 0, some 0, some 0, some 0⟩) ∧
    noStatusWorld.db.rows.map (fun r => (r.status, r.due_date)) = [(none, some "2024-01-01")] ∧
    noStatusWorld.db.today = "2024-06-01" := by
  decide

/-! ## What each method leaves in a healthy cache -/

theorem entry_filter_ne (r : List Entry) (key k : String) (h : key ≠ k) :
    (r.filter (fun e => e.key ≠ k)).find? (fun e => e.key = key) =
      r.find? (fun e => e.key = key) := by
  apply find?_filter_keep
  intro e he
  simp only [decide_eq_true_eq] at he
  simp [he, h]

theorem entry_filter_list (r : List Entry) (key : String) (h : isListKey key = false) :
    (r.filter (fun e => !isListKey e.key)).find? (fun e => e.key = key) =
      r.find? (fun e => e.key = key) := by
  apply find?_filter_keep
  intro e he
  simp only [decide_eq_true_eq] at he
  simp [he, h]

theorem lookup_eq_entry (r : Redis) (key : String) :
    r.lookup key = (r.entry key).map Entry.data := rfl

theorem cache_get_frame (k : String) (w : World) (hh : w.redis.healthy) :
    (cache.get k w).2.redis.healthy ∧
      ∀ key, (cache.get k w).2.redis.entry key = w.redis.entry key := by
  obtain ⟨h1, h2⟩ := cache_get_healthy k w hh
  exact ⟨h1, fun key => by unfold Redis.entry; rw [h2]⟩

theorem cache_set_frame (k : String) (v : Value) (ttl : Option Int) (w : World)
    (hh : w.redis.healthy) :
    (cache.set k (.value v) ttl w).2.redis.healthy ∧
      ∀ key, key ≠ k → (cache.set k (.value v) ttl w).2.redis.entry key = w.redis.entry key := by
  obtain ⟨h1, h2⟩ := cache_set_healthy k v ttl w hh
  refine ⟨h1, fun key hk => ?_⟩
  unfold Redis.entry
  rw [h2]
  split_ifs
  · rfl
  · rw [List.find?_cons_of_neg _ (by simpa using fun h => hk h.symm)]
    exact entry_filter_ne _ _ _ hk

theorem cache_del_frame (k : String) (w : World) (hh : w.redis.healthy) :
    (cache.del k w).2.redis.healthy ∧
      ∀ key, key ≠ k → (cache.del k w).2.redis.entry key = w.redis.entry key := by
  obtain ⟨h1, h2⟩ := cache_del_healthy k w hh
  refine ⟨h1, fun key hk => ?_⟩
  unfold Redis.entry
  rw [h2]
  exact entry_filter_ne _ _ _ hk

theorem cache_delPattern_frame (w : World) (hh : w.redis.healthy) :
    (cache.delPattern listPattern w).2.redis.healthy ∧
      ∀ key, isListKey key = false →
        (cache.delPattern listPattern w).2.redis.entry key = w.redis.entry key := by
  obtain ⟨h1, h2⟩ := cache_delPattern_healthy w hh
  refine ⟨h1, fun key hk => ?_⟩
  unfold Redis.entry
  rw [h2]
  exact entry_filter_list _ _ hk

theorem invalidated_frame (id : String) (w : World) (hh : w.redis.healthy) :
    (invalidated id w).redis.healthy ∧
      ∀ key, isListKey key = false → key ≠ taskKey id →
        (invalidated id w).redis.entry key = w.redis.entry key := by
  unfold invalidated
  obtain ⟨h1, h2⟩ := cache_del_frame (taskKey id) w hh
  obtain ⟨h3, h4⟩ := cache_delPattern_frame (cache.del (taskKey id) w).2 h1
  exact ⟨h3, fun key hl hk => (h4 key hl).trans (h2 key hk)⟩

theorem getById_frame (id : String) (w : World) (hh : w.redis.healthy) :
    (Task.getById id w).2.redis.healthy ∧
      ∀ key, key ≠ taskKey id →
        (Task.getById id w).2.redis.entry key = w.redis.entry key := by
  obtain ⟨h1, h2⟩ := cache_get_frame (taskKey id) w hh
  rw [getById_run]
  split_ifs with ht
  · exact ⟨h1, fun key _ => h2 key⟩
  · cases hn : w.db.nextFault.1 with
    | some m => exact ⟨h1, fun key _ => h2 key⟩
    | none =>
      simp only
      cases hr : w.db.rows.filter (fun r => readId id = some r.id) with
      | nil => exact ⟨h1, fun key _ => h2 key⟩
      | cons row t =>
        simp only
        obtain ⟨h3, h4⟩ := cache_set_frame (taskKey id) (.task row) none
          (pool.execute sqlSelectById [.val (.str id)] (cache.get (taskKey id) w).2).2 h1
        exact ⟨h3, fun key hk => (h4 key hk).trans (h2 key)⟩

theorem create_frame (taskData : JsObj) (w : World) (hh : w.redis.healthy) :
    (Task.create taskData w).2.redis.healthy ∧
      ∀ key, isListKey key = false →
        (Task.create taskData w).2.redis.entry key = w.redis.entry key := by
  rw [create_run]
  cases he : (w.db.execute sqlInsert (Task.insertParams taskData)).1 with
  | error m => exact ⟨hh, fun key _ => rfl⟩
  | ok qr =>
    exact cache_delPattern_frame (pool.execute sqlInsert (Task.insertParams taskData) w).2 hh

theorem delete_frame (id : String) (w : World) (hh : w.redis.healthy) :
    (Task.delete id w).2.redis.healthy ∧
      ∀ key, isListKey key = false → key ≠ taskKey id →
        (Task.delete id w).2.redis.entry key = w.redis.entry key := by
  rw [delete_run]
  cases hn : w.db.nextFault.1 with
  | some m => exact ⟨hh, fun key _ _ => rfl⟩
  | none =>
    simp only
    split_ifs
    · exact ⟨hh, fun key _ _ => rfl⟩
    · exact invalidated_frame id (pool.execute sqlDelete [.val (.str id)] w).2 hh

theorem update_frame (id : String) (taskData : JsObj) (w : World) (hh : w.redis.healthy) :
    (Task.update id taskData w).2.redis.healthy ∧
      ∀ key, isListKey key = false → key ≠ taskKey id →
        (Task.update id taskData w).2.redis.entry key = w.redis.entry key := by
  by_cases hp : presentColumns taskData = []
  · have : Task.update id taskData w =
        (.error "Failed to update task: No fields to update", w) := by
      apply update_no_fields
      intro c hc
      by_contra hne
      have : c ∈ presentColumns taskData := by
        unfold presentColumns
        rw [List.mem_filter]
        exact ⟨hc, by simpa using hne⟩
      rw [hp] at this
      simp at this
    rw [this]
    exact ⟨hh, fun key _ _ => rfl⟩
  · rw [update_run id taskData w hp]
    cases he : (w.db.execute (Task.updateSql taskData) (Task.updateParams id taskData)).1 with
    | error m => exact ⟨hh, fun key _ _ => rfl⟩
    | ok res =>
      simp only
      split_ifs
      · exact ⟨hh, fun key _ _ => rfl⟩
      · obtain ⟨h1, h2⟩ := invalidated_frame id
          (pool.execute (Task.updateSql taskData) (Task.updateParams id taskData) w).2 hh
        obtain ⟨h3, h4⟩ := getById_frame id _ h1
        have : ∀ key, isListKey key = false → key ≠ taskKey id →
            (Task.getById id (invalidated id
              (pool.execute (Task.updateSql taskData) (Task.updateParams id taskData)
                w).2)).2.redis.entry key = w.redis.entry key :=
          fun key hl hk => (h4 key hk).trans (h2 key hl hk)
        cases hg : (Task.getById id (invalidated id
          (pool.execute (Task.updateSql taskData) (Task.updateParams id taskData) w).2)).1 with
        | ok v => exact ⟨h3, this⟩
        | error m => exact ⟨h3, this⟩

/-! ## The statistics entry -/

theorem statsKey_ne_taskKey (id : String) : statsKey ≠ taskKey id := by
  intro h
  have h1 := congrArg String.data h
  rw [taskKey_data] at h1
  have h2 : ['t', 'a', 's', 'k', 's', ':', 's', 't', 'a', 't', 's'] =
      't' :: 'a' :: 's' :: 'k' :: ':' :: (toString id).data := h1
  simp at h2

theorem read_healthy {r : Redis} (hh : r.healthy) (key : String) :
    r.read key =
      match r.lookup key with
      | some (.json v) => v
      | _ => Value.null := by
  unfold Redis.read
  rw [(healthy_next hh).1]
  rfl

theorem read_truthy {r : Redis} (hh : r.healthy) (key : String)
    (ht : (r.read key).truthy = true) :
    ∃ e, r.entry key = some e ∧ e.data = .json (r.read key) := by
  rw [read_healthy hh] at ht ⊢
  rw [lookup_eq_entry] at ht ⊢
  cases he : r.entry key with
  | none => rw [he] at ht; simp [Value.truthy] at ht
  | some e =>
    rw [he] at ht
    simp only [Option.map_some'] at ht ⊢
    cases hd : e.data with
    | json v => exact ⟨e, rfl, by simp [hd]⟩
    | malformed t => rw [hd] at ht; simp [Value.truthy] at ht

theorem mutation_frame (m : Mutation) (w : World) (hh : w.redis.healthy) :
    (m.run w).2.redis.healthy ∧ (m.run w).2.redis.entry statsKey = w.redis.entry statsKey := by
  cases m with
  | create taskData =>
    obtain ⟨h1, h2⟩ := create_frame taskData w hh
    exact ⟨h1, h2 _ isListKey_statsKey⟩
  | update id taskData =>
    obtain ⟨h1, h2⟩ := update_frame id taskData w hh
    exact ⟨h1, h2 _ isListKey_statsKey (statsKey_ne_taskKey id)⟩
  | delete id =>
    obtain ⟨h1, h2⟩ := delete_frame id w hh
    exact ⟨h1, h2 _ isListKey_statsKey (statsKey_ne_taskKey id)⟩

theorem runMutations_frame :
    ∀ (ms : List Mutation) (w : World), w.redis.healthy →
      (runMutations ms w).redis.healthy ∧
        (runMutations ms w).redis.entry statsKey = w.redis.entry statsKey
  | [], w, hh => ⟨hh, rfl⟩
  | m :: ms, w, hh => by
    obtain ⟨h1, h2⟩ := mutation_frame m w hh
    obtain ⟨h3, h4⟩ := runMutations_frame ms (m.run w).2 h1
    exact ⟨h3, h4.trans h2⟩

theorem getStats_hit {w : World} (hh : w.redis.healthy) {e : Entry} {v : Value}
    (he : w.redis.entry statsKey = some e) (hd : e.data = .json v) (hv : v.truthy = true) :
    (Task.getStats w).1 = .ok v := by
  have hr : w.redis.read statsKey = v := by
    rw [read_healthy hh, lookup_eq_entry, he]
    simp [hd]
  rw [getStats_run, hr]
  simp [hv]

theorem getStats_leaves (w : World) (hh : w.redis.healthy) (v : Value)
    (h : (Task.getStats w).1 = .ok v) :
    (Task.getStats w).2.redis.healthy ∧
      ∃ e, (Task.getStats w).2.redis.entry statsKey = some e ∧ e.data = .json v ∧
        v.truthy = true ∧
        ((w.redis.read statsKey).truthy = false → e = ⟨statsKey, 60, .json v⟩) := by
  obtain ⟨h1, h2⟩ := cache_get_frame statsKey w hh
  rw [getStats_run] at h ⊢
  by_cases ht : (w.redis.read statsKey).truthy = true
  · rw [if_pos ht] at h ⊢
    simp only [Except.ok.injEq] at h
    obtain ⟨e, he, hd⟩ := read_truthy hh statsKey ht
    refine ⟨h1, e, (h2 _).trans he, by rw [← h]; exact hd, by rw [← h]; exact ht, ?_⟩
    intro hf
    rw [hf] at ht
    exact absurd ht (by simp)
  · rw [if_neg ht] at h ⊢
    cases hn : w.db.nextFault.1 with
    | some m => rw [hn] at h; simp at h
    | none =>
      rw [hn] at h
      simp only [Except.ok.injEq] at h ⊢
      obtain ⟨h3, h4⟩ := cache_set_healthy statsKey (.stats (tableStats w.db)) (some 60)
        (pool.execute sqlStats Task.statsParams (cache.get statsKey w).2).2 h1
      refine ⟨h3, ⟨statsKey, 60, .json v⟩, ?_, rfl, by rw [← h]; rfl, fun _ => rfl⟩
      unfold Redis.entry
      rw [h4, ← h]
      simp

/-- C19: on a healthy cache, a `getStats` that misses leaves its result under
`tasks:stats` with an expiry of 60 seconds; and whatever `getStats` returned
(from the cache or from the store), it returns the same value again after any
sequence of `create`, `update` and `delete` calls: none of them touches that
entry. -/
theorem getStats_stable (w : World) (hh : w.redis.healthy) (v : Value)
    (h : (Task.getStats w).1 = .ok v) (ms : List Mutation) :
    ((w.redis.read statsKey).truthy = false →
      (Task.getStats w).2.redis.entry statsKey = some ⟨statsKey, 60, .json v⟩) ∧
    (runMutations ms (Task.getStats w).2).redis.entry statsKey =
      (Task.getStats w).2.redis.entry statsKey ∧
    (Task.getStats (runMutations ms (Task.getStats w).2)).1 = .ok v := by
  obtain ⟨h1, e, he, hd, hv, hmiss⟩ := getStats_leaves w hh v h
  obtain ⟨h2, h3⟩ := runMutations_frame ms (Task.getStats w).2 h1
  refine ⟨fun hm => ?_, h3, getStats_hit h2 (h3.trans he) hd hv⟩
  rw [he, hmiss hm]

set_option maxRecDepth 4000 in
theorem getStats_stable_witness :
    plainWorld.redis.healthy ∧
    (Task.getStats plainWorld).1 = .ok (.stats ⟨1, some 1, some 0, some 0, some 0, some 0⟩) ∧
    ((plainWorld.redis.read statsKey).truthy = false →
      (Task.getStats plainWorld).2.redis.entry statsKey =
        some ⟨statsKey, 60, .json (.stats ⟨1, some 1, some 0, some 0, some 0, some 0⟩)⟩) ∧
    (runMutations [.create titleOnlyTask, .delete "1"] (Task.getStats plainWorld).2).redis.entry
        statsKey =
      (Task.getStats plainWorld).2.redis.entry statsKey ∧
    (Task.getStats
        (runMutations [.create titleOnlyTask, .delete "1"] (Task.getStats plainWorld).2)).1 =
      .ok (.stats ⟨1, some 1, some 0, some 0, some 0, some 0⟩) :=
  ⟨by decide, by decide,
    getStats_stable plainWorld (by decide) _ (by decide) [.create titleOnlyTask, .delete "1"]⟩

/-! ## `update` and `delete` at the store -/

theorem paramValues_map (f : String → JsVal) :
    ∀ cols : List String, paramValues (cols.map (fun c => Param.val (f c))) = some (cols.map f)
  | [] => rfl
  | c :: cs => by
    simp only [List.map_cons, paramValues, paramValues_map f cs, Option.map_some']

theorem present_not_undefined (taskData : JsObj) :
    ∀ c ∈ presentColumns taskData, taskData.get c ≠ .undefined := by
  intro c hc
  unfold presentColumns at hc
  simpa using (List.mem_filter.mp hc).2

theorem updateParams_defined (id : String) (taskData : JsObj) :
    (Task.updateParams id taskData).any Param.isUndefined = false := by
  unfold Task.updateParams
  rw [List.any_eq_false]
  intro p hp
  rcases List.mem_append.mp hp with h | h
  · obtain ⟨c, hc, rfl⟩ := List.mem_map.mp h
    have := present_not_undefined taskData c hc
    cases hg : taskData.get c with
    | undefined => exact absurd hg this
    | null => simp [Param.isUndefined]
    | str s => simp [Param.isUndefined]
  · simp only [List.mem_singleton] at h
    subst h
    simp [Param.isUndefined]

theorem execute_update (id : String) (taskData : JsObj) (db : Db)
    (h : presentColumns taskData ≠ []) :
    db.execute (Task.updateSql taskData) (Task.updateParams id taskData) =
      match db.nextFault.1 with
      | some m => (.error m, db.nextFault.2)
      | none =>
        match updateRows db.now
            ((presentColumns taskData).zip ((presentColumns taskData).map taskData.get))
            (readId id) db.rows with
        | .ok p => (.ok (.header 0 p.2), { db.nextFault.2 with rows := p.1 })
        | .error m => (.error m, db.nextFault.2) := by
  rw [execute_eq, updateParams_defined]
  simp only [Bool.false_eq_true, if_false]
  cases hn : db.nextFault.1 with
  | some m => rfl
  | none =>
    simp only
    unfold Task.updateSql
    rw [run_update _ (presentColumns_mem taskData h)]
    unfold Db.update Task.updateParams
    have hl : ((presentColumns taskData).map (fun c => Param.val (taskData.get c)) ++
        [Param.val (.str id)]).getLast? = some (Param.val (.str id)) := by simp
    rw [hl]
    simp only [List.dropLast_concat, paramValues_map, List.length_map, if_true, Param.key,
      (nextFault_db db).1, (nextFault_db db).2.2.1]
    generalize updateRows db.now
      ((presentColumns taskData).zip ((presentColumns taskData).map taskData.get)) (readId id)
      db.rows = u
    cases u with
    | error m => rfl
    | ok p => rfl

theorem updateRows_no_match (now : Nat) (asg : List (String × JsVal)) (key : Option Nat) :
    ∀ rows : List Row, (∀ r ∈ rows, key ≠ some r.id) →
      updateRows now asg key rows = .ok (rows, 0)
  | [], _ => rfl
  | r :: rs, h => by
    rw [updateRows, updateRows_no_match now asg key rs (fun x hx => h x (by simp [hx]))]
    simp [h r (by simp)]

/-- C15: for an id with no row, on a store that answers, `update` with at
least one field present returns `null` and `delete` returns `false`; neither
raises, and both leave the rows of the table and the whole cache as they
were. -/
theorem missing_id_untouched (id : String) (taskData : JsObj) (w : World)
    (hrow : ∀ r ∈ w.db.rows, readId id ≠ some r.id) (hp : presentColumns taskData ≠ [])
    (hdb : w.db.nextFault.1 = none) :
    (Task.update id taskData w).1 = .ok Value.null ∧
    (Task.update id taskData w).2.db.rows = w.db.rows ∧
    (Task.update id taskData w).2.redis = w.redis ∧
    (Task.delete id w).1 = .ok (Value.bool false) ∧
    (Task.delete id w).2.db.rows = w.db.rows ∧
    (Task.delete id w).2.redis = w.redis := by
  have hu := execute_update id taskData w.db hp
  rw [hdb] at hu
  simp only [updateRows_no_match _ _ _ _ hrow] at hu
  have hc : w.db.rows.countP (fun r => readId id = some r.id) = 0 := by
    rw [List.countP_eq_zero]
    intro r hr
    simpa using hrow r hr
  have hf : w.db.rows.filter (fun r => readId id ≠ some r.id) = w.db.rows := by
    rw [List.filter_eq_self]
    intro r hr
    simpa using hrow r hr
  refine ⟨?_, ?_, ?_, ?_, ?_, ?_⟩
  · rw [update_run id taskData w hp, hu]
    simp [QueryResult.affectedRows]
  · rw [update_run id taskData w hp, hu]
    simp only [QueryResult.affectedRows, if_true]
    rw [execute_db, hu]
  · rw [update_run id taskData w hp, hu]
    simp only [QueryResult.affectedRows, if_true]
    rfl
  · rw [delete_run, hdb]
    simp [hc]
  · rw [delete_run, hdb]
    simp only [hc, if_true]
    rw [execute_db, execute_delete, hdb]
    exact hf
  · rw [delete_run, hdb]
    simp only [hc, if_true]
    rfl

theorem missing_id_untouched_witness :
    (∀ r ∈ plainWorld.db.rows, readId "7" ≠ some r.id) ∧
    presentColumns completedUpdate ≠ [] ∧
    plainWorld.db.nextFault.1 = none ∧
    (Task.update "7" completedUpdate plainWorld).1 = .ok Value.null ∧
    (Task.update "7" completedUpdate plainWorld).2.db.rows = plainWorld.db.rows ∧
    (Task.update "7" completedUpdate plainWorld).2.redis = plainWorld.redis ∧
    (Task.delete "7" plainWorld).1 = .ok (Value.bool false) ∧
    (Task.delete "7" plainWorld).2.db.rows = plainWorld.db.rows ∧
    (Task.delete "7" plainWorld).2.redis = plainWorld.redis :=
  ⟨by decide, by decide, by decide,
    missing_id_untouched "7" completedUpdate plainWorld (by decide) (by decide) (by decide)⟩

/-! ## After the invalidations -/

theorem db_healthy_next {db : Db} (h : db.healthy) :
    db.nextFault.1 = none ∧ db.nextFault.2.healthy := by
  obtain ⟨h1, h2⟩ := h
  unfold Db.nextFault
  cases hf : db.faults with
  | nil => exact ⟨h1, h1, by simp [hf]⟩
  | cons b bs =>
    rw [hf] at h2
    exact ⟨h2 b (by simp), h1, fun c hc => h2 c (by simp [hc])⟩

theorem find?_filter_none {α : Type} (l : List α) (p q : α → Bool)
    (h : ∀ x, q x = true → p x = false) : (l.filter p).find? q = none := by
  rw [List.find?_eq_none]
  intro x hx
  have := List.mem_filter.mp hx
  intro hq
  rw [h x hq] at this
  exact absurd this.2 (by simp)

theorem invalidated_entries (id : String) (w : World) (hh : w.redis.healthy) :
    (invalidated id w).redis.healthy ∧
    (invalidated id w).redis.entries =
      (w.redis.entries.filter (fun e => e.key ≠ taskKey id)).filter
        (fun e => !isListKey e.key) ∧
    (invalidated id w).db = w.db ∧ (invalidated id w).cacheTtlEnv = w.cacheTtlEnv := by
  unfold invalidated
  obtain ⟨h1, h2⟩ := cache_del_healthy (taskKey id) w hh
  obtain ⟨h3, h4⟩ := cache_delPattern_healthy (cache.del (taskKey id) w).2 h1
  refine ⟨h3, by rw [h4, h2], by rw [cache_delPattern_db, cache_del_db], ?_⟩
  rw [cache_delPattern_run, cache_del_run]
  split_ifs <;> rfl

theorem invalidated_no_task (id : String) (w : World) (hh : w.redis.healthy) :
    (invalidated id w).redis.entry (taskKey id) = none := by
  unfold Redis.entry
  rw [(invalidated_entries id w hh).2.1, List.filter_filter]
  apply find?_filter_none
  intro e he
  simp only [decide_eq_true_eq] at he
  simp [he]

theorem invalidated_no_list (id : String) (w : World) (hh : w.redis.healthy) (key : String)
    (hk : isListKey key = true) :
    (invalidated id w).redis.entry key = none := by
  unfold Redis.entry
  rw [(invalidated_entries id w hh).2.1, List.filter_filter]
  apply find?_filter_none
  intro e he
  simp only [decide_eq_true_eq] at he
  simp [he, hk]

theorem read_absent {r : Redis} {key : String} (h : r.entry key = none) :
    r.read key = Value.null := by
  unfold Redis.read
  rw [lookup_eq_entry, h]
  split_ifs <;> rfl

theorem getById_miss_run (id : String) (w : World)
    (hmiss : (w.redis.read (taskKey id)).truthy = false) (hdb : w.db.nextFault.1 = none) :
    (Task.getById id w).1 =
      match w.db.rows.filter (fun r => readId id = some r.id) with
      | [] => .ok Value.null
      | row :: _ => .ok (Value.task row) := by
  rw [getById_run]
  simp only [hmiss, hdb, Bool.false_eq_true, if_false]
  cases w.db.rows.filter (fun r => readId id = some r.id) <;> rfl

/-- C14: for an id that has a row, on a healthy cache (whatever it holds) and
a store that answers, `delete(id)` returns `true`; after it `getById(id)`
returns `null` (not found) and `getAll` with any filter object returns a list
of rows none of which has that id. -/
theorem delete_then_read (id : String) (w : World)
    (hrow : ∃ r ∈ w.db.rows, readId id = some r.id)
    (hh : w.redis.healthy) (hdb : w.db.healthy) :
    (Task.delete id w).1 = .ok (Value.bool true) ∧
    (Task.getById id (Task.delete id w).2).1 = .ok Value.null ∧
    ∀ filters, ∃ rows,
      (Task.getAll filters (Task.delete id w).2).1 = .ok (.tasks rows) ∧
      ∀ r ∈ rows, readId id ≠ some r.id := by
  obtain ⟨hn, hn2⟩ := db_healthy_next hdb
  have hc : ¬ w.db.rows.countP (fun r => readId id = some r.id) = 0 := by
    rw [List.countP_eq_zero]
    push_neg
    obtain ⟨r, hr, hid⟩ := hrow
    exact ⟨r, hr, by simpa using hid⟩
  have hw : (Task.delete id w).2 = invalidated id (pool.execute sqlDelete [.val (.str id)] w).2 := by
    rw [delete_run, hn]
    simp only [hc, if_false]
  have hinv := invalidated_entries id (pool.execute sqlDelete [.val (.str id)] w).2 hh
  have hdb1 : (Task.delete id w).2.db =
      { w.db.nextFault.2 with rows := w.db.rows.filter (fun r => readId id ≠ some r.id) } := by
    rw [hw, hinv.2.2.1, execute_db, execute_delete, hn]
  have hrows : (Task.delete id w).2.db.rows = w.db.rows.filter (fun r => readId id ≠ some r.id) := by
    rw [hdb1]
  have hnf : (Task.delete id w).2.db.nextFault.1 = none := by
    rw [hdb1]
    exact (@db_healthy_next { w.db.nextFault.2 with
      rows := w.db.rows.filter (fun r => readId id ≠ some r.id) } hn2).1
  refine ⟨?_, ?_, ?_⟩
  · rw [delete_run, hn]
    simp only [hc, if_false]
  · have hm : ((Task.delete id w).2.redis.read (taskKey id)).truthy = false := by
      rw [hw, read_absent (invalidated_no_task id (pool.execute sqlDelete [.val (.str id)] w).2 hh)]
      rfl
    rw [getById_miss_run id _ hm hnf, hrows, List.filter_filter]
    have : w.db.rows.filter
        (fun r => decide (readId id = some r.id) && decide (readId id ≠ some r.id)) = [] := by
      rw [List.filter_eq_nil_iff]
      intro r _
      simp
    rw [this]
  · intro filters
    have hm : ((Task.delete id w).2.redis.read (listKey filters)).truthy = false := by
      rw [hw, read_absent (invalidated_no_list id (pool.execute sqlDelete [.val (.str id)] w).2 hh _
        (isListKey_listKey filters))]
      rfl
    refine ⟨_, getAll_miss_result filters _ hm hnf, ?_⟩
    intro r hr
    have h1 := (listRows_perm filters (Task.delete id w).2.db.rows).subset hr
    have h2 := (List.mem_filter.mp h1).1
    rw [hrows] at h2
    simpa using (List.mem_filter.mp h2).2

theorem delete_then_read_witness :
    (∃ r ∈ cachedWorld.db.rows, readId "1" = some r.id) ∧ cachedWorld.redis.healthy ∧
    cachedWorld.db.healthy ∧
    (Task.delete "1" cachedWorld).1 = .ok (Value.bool true) ∧
    (Task.getById "1" (Task.delete "1" cachedWorld).2).1 = .ok Value.null ∧
    ∀ filters, ∃ rows,
      (Task.getAll filters (Task.delete "1" cachedWorld).2).1 = .ok (.tasks rows) ∧
      ∀ r ∈ rows, readId "1" ≠ some r.id :=
  ⟨by decide, by decide, by decide,
    delete_then_read "1" cachedWorld (by decide) (by decide) (by decide)⟩

/-! ## The rows an `UPDATE` leaves -/

theorem updateRow_ok {now : Nat} {asg : List (String × JsVal)} {r r1 : Row}
    (h : updateRow now asg r = .ok r1) (hn : (asg.map Prod.fst).Nodup) :
    (∀ a ∈ asg, r1.field a.1 = a.2) ∧
    (∀ k, k ∉ asg.map Prod.fst → r1.field k = r.field k) ∧
    r1.id = r.id ∧ r1.created_at = r.created_at := by
  unfold updateRow at h
  cases ha : applyAssignments asg r with
  | error m => rw [ha] at h; simp at h
  | ok r2 =>
    rw [ha] at h
    simp only [Except.ok.injEq] at h
    obtain ⟨h1, h2, h3, h4, _⟩ := applyAssignments_ok asg r r2 ha hn
    by_cases he : r2 = r
    · rw [if_pos he] at h
      subst h
      subst he
      exact ⟨fun a ha => (h1 a ha).2, h2, rfl, rfl⟩
    · rw [if_neg he] at h
      subst h
      exact ⟨fun a ha => (h1 a ha).2, h2, h3, h4⟩

theorem applyAssignments_id :
    ∀ {asg : List (String × JsVal)} {r r1 : Row}, applyAssignments asg r = .ok r1 →
      r1.id = r.id
  | [], r, r1, h => by
    simp only [applyAssignments, Except.ok.injEq] at h
    rw [h]
  | a :: asg, r, r1, h => by
    rw [applyAssignments] at h
    cases hs : setColumn a.1 a.2 r with
    | error m => rw [hs] at h; simp at h
    | ok r2 =>
      rw [hs] at h
      exact (applyAssignments_id h).trans (setColumn_ok hs).2.2.2.1

theorem updateRows_ok {now : Nat} {asg : List (String × JsVal)} {key : Option Nat} :
    ∀ {rows rows1 : List Row} {n : Nat}, updateRows now asg key rows = .ok (rows1, n) →
      n = rows.countP (fun r => key = some r.id) ∧
      (∀ j : Option Nat, j ≠ key →
        rows1.filter (fun r => j = some r.id) = rows.filter (fun r => j = some r.id)) ∧
      (∀ old, (rows.filter (fun r => key = some r.id)).head? = some old →
        ∃ new, (rows1.filter (fun r => key = some r.id)).head? = some new ∧
          updateRow now asg old = .ok new)
  | [], rows1, n, h => by
    simp only [updateRows, Except.ok.injEq, Prod.mk.injEq] at h
    obtain ⟨rfl, rfl⟩ := h
    simp
  | r :: rs, rows1, n, h => by
    rw [updateRows] at h
    cases hr : updateRows now asg key rs with
    | error m => rw [hr] at h; simp at h
    | ok p =>
      obtain ⟨rs1, n1⟩ := p
      rw [hr] at h
      simp only at h
      obtain ⟨ih1, ih2, ih3⟩ := updateRows_ok hr
      by_cases hid : key = some r.id
      · rw [if_pos hid] at h
        cases hu : updateRow now asg r with
        | error m => rw [hu] at h; simp at h
        | ok r1 =>
          rw [hu] at h
          simp only [Except.ok.injEq, Prod.mk.injEq] at h
          obtain ⟨rfl, rfl⟩ := h
          have hid0 : r1.id = r.id := by
            unfold updateRow at hu
            cases ha : applyAssignments asg r with
            | error m => rw [ha] at hu; simp at hu
            | ok r2 =>
              rw [ha] at hu
              simp only [Except.ok.injEq] at hu
              have := applyAssignments_id ha
              split_ifs at hu <;> subst hu <;> simp [this]
          subst hid
          refine ⟨by simp [ih1], ?_, ?_⟩
          · intro j hj
            have h1 : ¬ j = some r1.id := by rw [hid0]; exact hj
            simp [List.filter, h1, hj, ih2 j hj]
          · intro old hold
            simp only [List.filter, decide_True, List.head?_cons, Option.some.injEq] at hold
            subst hold
            exact ⟨r1, by simp [List.filter, hid0], hu⟩
      · rw [if_neg hid] at h
        simp only [Except.ok.injEq, Prod.mk.injEq] at h
        obtain ⟨rfl, rfl⟩ := h
        refine ⟨by simp [hid, ih1], ?_, ?_⟩
        · intro j hj
          rw [List.filter_cons, List.filter_cons, ih2 j hj]
        · intro old hold
          simp only [List.filter, hid, decide_False] at hold
          obtain ⟨new, hnew, hu⟩ := ih3 old hold
          exact ⟨new, by simpa [List.filter, hid] using hnew, hu⟩

/-! ## `getById` on a healthy cache -/

theorem getById_miss_world (id : String) (w : World) (hh : w.redis.healthy)
    (hmiss : (w.redis.read (taskKey id)).truthy = false) (hdb : w.db.nextFault.1 = none)
    (row : Row) (t : List Row) (hr : w.db.rows.filter (fun r => readId id = some r.id) = row :: t) :
    (Task.getById id w).1 = .ok (.task row) ∧
    (Task.getById id w).2.redis.healthy ∧
    (Task.getById id w).2.redis.entries =
      if defaultTtl w.cacheTtlEnv ≤ 0 then w.redis.entries
      else ⟨taskKey id, defaultTtl w.cacheTtlEnv, .json (.task row)⟩ ::
        w.redis.entries.filter (fun e => e.key ≠ taskKey id) := by
  obtain ⟨h1, h2⟩ := cache_get_healthy (taskKey id) w hh
  obtain ⟨h3, h4⟩ := cache_set_healthy (taskKey id) (.task row) none
    (pool.execute sqlSelectById [.val (.str id)] (cache.get (taskKey id) w).2).2 h1
  have henv : (pool.execute sqlSelectById [.val (.str id)]
      (cache.get (taskKey id) w).2).2.cacheTtlEnv = w.cacheTtlEnv := by
    show (cache.get (taskKey id) w).2.cacheTtlEnv = _
    rw [cache_get_env]
  rw [getById_run]
  simp only [hmiss, hdb, hr, Bool.false_eq_true, if_false]
  refine ⟨trivial, h3, ?_⟩
  rw [h4, henv, execute_redis, h2]
  rfl

theorem getById_hit (id : String) (w : World) (hh : w.redis.healthy) (e : Entry) (v : Value)
    (he : w.redis.entry (taskKey id) = some e) (hd : e.data = .json v)
    (hv : v.truthy = true) :
    (Task.getById id w).1 = .ok v ∧
      (Task.getById id w).2.redis.entries = w.redis.entries := by
  have hr : w.redis.read (taskKey id) = v := by
    rw [read_healthy hh, lookup_eq_entry, he]
    simp [hd]
  rw [getById_run, hr]
  simp only [hv, if_true]
  exact ⟨trivial, (cache_get_healthy (taskKey id) w hh).2⟩

theorem zip_map_fst (cols : List String) (f : String → JsVal) :
    (cols.zip (cols.map f)).map Prod.fst = cols := by
  induction cols with
  | nil => rfl
  | cons c cs ih => simp [ih]

theorem mem_zip_map (cols : List String) (f : String → JsVal) (c : String) (hc : c ∈ cols) :
    (c, f c) ∈ cols.zip (cols.map f) := by
  induction cols with
  | nil => simp at hc
  | cons a cs ih =>
    rcases List.mem_cons.mp hc with rfl | h
    · simp
    · simp [ih h]

theorem presentColumns_nodup (taskData : JsObj) : (presentColumns taskData).Nodup :=
  List.Nodup.sublist (List.filter_sublist _) (by decide)

/-- C12: for an id that has a row (`old` is the row the store returns for it),
a field set with at least one field present, a healthy cache with a positive
default expiry (whatever the cache holds): when `update` returns a value, that
value is a task record in which every present field has the supplied value and
every other field among title, description, status, priority, due_date has the
value it had in `old`; a following `getById(id)` returns the same record;
after the update the cache holds that record under `task:<id>` with the
default expiry and holds no key beginning with `tasks:all:`, and the following
`getById` leaves the cache entries as they are. -/
theorem update_then_read (id : String) (taskData : JsObj) (w : World) (hh : w.redis.healthy)
    (httl : 0 < defaultTtl w.cacheTtlEnv) (hp : presentColumns taskData ≠ [])
    (old : Row)
    (hold : (w.db.rows.filter (fun r => readId id = some r.id)).head? = some old)
    (v : Value) (hok : (Task.update id taskData w).1 = .ok v) :
    ∃ new, v = .task new ∧
      (∀ c ∈ presentColumns taskData, new.field c = taskData.get c) ∧
      (∀ c ∈ dataColumns, c ∉ presentColumns taskData → new.field c = old.field c) ∧
      (Task.getById id (Task.update id taskData w).2).1 = .ok (.task new) ∧
      (Task.update id taskData w).2.redis.entry (taskKey id) =
        some ⟨taskKey id, defaultTtl w.cacheTtlEnv, .json (.task new)⟩ ∧
      (∀ e ∈ (Task.update id taskData w).2.redis.entries, isListKey e.key = false) ∧
      (Task.getById id (Task.update id taskData w).2).2.redis.entries =
        (Task.update id taskData w).2.redis.entries := by
  have hu := execute_update id taskData w.db hp
  have hrun := update_run id taskData w hp
  cases hn : w.db.nextFault.1 with
  | some m =>
    rw [hn] at hu
    rw [hrun, hu] at hok
    simp at hok
  | none =>
    rw [hn] at hu
    simp only at hu
    cases hur : updateRows w.db.now
        ((presentColumns taskData).zip ((presentColumns taskData).map taskData.get))
        (readId id) w.db.rows with
    | error m =>
      rw [hur] at hu
      rw [hrun, hu] at hok
      simp at hok
    | ok p =>
      obtain ⟨rows1, n⟩ := p
      rw [hur] at hu
      simp only at hu
      obtain ⟨hcount, _, hnew⟩ := updateRows_ok hur
      obtain ⟨new, hnew1, hnew2⟩ := hnew old hold
      have hn0 : ¬ n = 0 := by
        rw [hcount, List.countP_eq_zero]
        push_neg
        have hm : old ∈ w.db.rows.filter (fun r => readId id = some r.id) := List.mem_of_mem_head? hold
        exact ⟨old, (List.mem_filter.mp hm).1, (List.mem_filter.mp hm).2⟩
      obtain ⟨hf1, hf2, _, _⟩ := updateRow_ok hnew2
        (by rw [zip_map_fst]; exact presentColumns_nodup taskData)
      rw [zip_map_fst] at hf2
      -- the world after the write and the two invalidations
      have hinv := invalidated_entries id
        (pool.execute (Task.updateSql taskData) (Task.updateParams id taskData) w).2 hh
      have hnotask := invalidated_no_task id
        (pool.execute (Task.updateSql taskData) (Task.updateParams id taskData) w).2 hh
      generalize hW : invalidated id
        (pool.execute (Task.updateSql taskData) (Task.updateParams id taskData) w).2 = W
        at hinv hnotask hrun
      obtain ⟨hWh, hWe, hWdb, hWenv⟩ := hinv
      rw [execute_db, hu] at hWdb
      rw [execute_redis] at hWe
      have hWrows : W.db.rows = rows1 := by rw [hWdb]
      have hmiss : (W.redis.read (taskKey id)).truthy = false := by
        rw [read_absent hnotask]
        rfl
      rw [hu] at hrun
      simp only [QueryResult.affectedRows, hn0, if_false] at hrun
      cases hWn : W.db.nextFault.1 with
      | some m =>
        have hg : (Task.getById id W).1 = .error ("Failed to get task: " ++ m) := by
          rw [getById_run]
          simp [hmiss, hWn]
        rw [hrun, hg] at hok
        simp at hok
      | none =>
        obtain ⟨t, ht⟩ : ∃ t, W.db.rows.filter (fun r => readId id = some r.id) = new :: t := by
          rw [hWrows]
          cases hfl : rows1.filter (fun r => readId id = some r.id) with
          | nil => rw [hfl] at hnew1; simp at hnew1
          | cons a t =>
            rw [hfl] at hnew1
            simp only [List.head?_cons, Option.some.injEq] at hnew1
            exact ⟨t, by rw [hnew1]⟩
        obtain ⟨hg1, hg2, hg3⟩ := getById_miss_world id W hWh hmiss hWn new t ht
        have henv : W.cacheTtlEnv = w.cacheTtlEnv := hWenv
        rw [henv, if_neg (not_le.mpr httl)] at hg3
        have hfinal : (Task.update id taskData w).2 = (Task.getById id W).2 := by
          rw [hrun, hg1]
        have hval : v = .task new := by
          rw [hrun, hg1] at hok
          simp only [Except.ok.injEq] at hok
          exact hok.symm
        have hentry : (Task.getById id W).2.redis.entry (taskKey id) =
            some ⟨taskKey id, defaultTtl w.cacheTtlEnv, .json (.task new)⟩ := by
          unfold Redis.entry
          rw [hg3]
          simp
        obtain ⟨hh1, hh2⟩ := getById_hit id (Task.getById id W).2 hg2 _ (.task new) hentry rfl rfl
        refine ⟨new, hval, ?_, ?_, ?_, ?_, ?_, ?_⟩
        · intro c hc
          exact hf1 (c, taskData.get c) (mem_zip_map _ _ c hc)
        · intro c _ hc
          exact hf2 c hc
        · rw [hfinal]
          exact hh1
        · rw [hfinal]
          exact hentry
        · rw [hfinal, hg3]
          intro e he
          rcases List.mem_cons.mp he with rfl | he
          · exact isListKey_taskKey id
          · have := (List.mem_filter.mp he).1
            rw [hWe] at this
            simpa using (List.mem_filter.mp this).2
        · rw [hfinal]
          exact hh2

theorem update_then_read_witness :
    cachedWorld.redis.healthy ∧ 0 < defaultTtl cachedWorld.cacheTtlEnv ∧
    presentColumns completedUpdate ≠ [] ∧
    (cachedWorld.db.rows.filter (fun r => readId "1" = some r.id)).head? = some sampleRow ∧
    (Task.update "1" completedUpdate cachedWorld).1 =
      .ok (.task { sampleRow with status := some "completed", updated_at := 1000 }) ∧
    ∃ new, Value.task { sampleRow with status := some "completed", updated_at := 1000 } =
        .task new ∧
      (∀ c ∈ presentColumns completedUpdate, new.field c = completedUpdate.get c) ∧
      (∀ c ∈ dataColumns, c ∉ presentColumns completedUpdate →
        new.field c = sampleRow.field c) ∧
      (Task.getById "1" (Task.update "1" completedUpdate cachedWorld).2).1 = .ok (.task new) ∧
      (Task.update "1" completedUpdate cachedWorld).2.redis.entry (taskKey "1") =
        some ⟨taskKey "1", defaultTtl cachedWorld.cacheTtlEnv, .json (.task new)⟩ ∧
      (∀ e ∈ (Task.update "1" completedUpdate cachedWorld).2.redis.entries,
        isListKey e.key = false) ∧
      (Task.getById "1" (Task.update "1" completedUpdate cachedWorld).2).2.redis.entries =
        (Task.update "1" completedUpdate cachedWorld).2.redis.entries :=
  ⟨by decide, by decide, by decide, by decide, by decide,
    update_then_read "1" completedUpdate cachedWorld (by decide) (by decide) (by decide)
      sampleRow (by decide) _ (by decide)⟩

/-! ## Claims about keys and about the cache helpers -/

theorem taskKey_ne_listKey (id : String) (filters : JsObj) : taskKey id ≠ listKey filters := by
  intro h
  have h1 := isListKey_taskKey id
  rw [h, isListKey_listKey] at h1
  exact absurd h1 (by simp)

theorem listKey_ne_statsKey (filters : JsObj) : listKey filters ≠ statsKey := by
  intro h
  have h1 := isListKey_statsKey
  rw [← h, isListKey_listKey] at h1
  exact absurd h1 (by simp)

/-- C5: for every task id and every filter object the keys `task:<id>`,
`tasks:all:<filters>` and `tasks:stats` are pairwise different, and neither
`task:<id>` nor `tasks:stats` matches the invalidation pattern `tasks:all:*`. -/
theorem key_namespaces_disjoint (id : String) (filters : JsObj) :
    taskKey id ≠ listKey filters ∧ taskKey id ≠ statsKey ∧ listKey filters ≠ statsKey ∧
    globMatch listPattern.data (taskKey id).data = false ∧
    globMatch listPattern.data statsKey.data = false := by
  refine ⟨taskKey_ne_listKey id filters, fun h => statsKey_ne_taskKey id h.symm,
    listKey_ne_statsKey filters, ?_, ?_⟩
  · rw [globMatch_listPattern, isListKey_taskKey]
  · rw [globMatch_listPattern, isListKey_statsKey]

/-- C8: the four cache helpers never raise, whatever the Redis client does:
`get` resolves to `null` when the client command fails, when the key is absent
and when the stored text is empty or not valid JSON, and to the parsed value
otherwise; `set` resolves to `false` when serialization throws or the `SETEX`
command fails and to `true` otherwise; `del` resolves to `false` when the
`DEL` command fails and to `true` otherwise; `delPattern` resolves to `false`
when `KEYS` fails or the `DEL` of the matched keys fails, and to `true`
otherwise (also when no key matches). -/
theorem cache_helpers_never_raise (key pattern : String) (p : Payload) (ttl : Option Int)
    (w : World) :
    ((cache.get key w).1 =
      match (redisClient.get key w).1 with
      | .error _ => .ok Value.null
      | .ok none => .ok Value.null
      | .ok (some (.malformed _)) => .ok Value.null
      | .ok (some (.json v)) => .ok v) ∧
    ((cache.set key p ttl w).1 =
      match p with
      | .unserializable => .ok false
      | .value v =>
        match (redisClient.setEx key (ttl.getD (defaultTtl w.cacheTtlEnv)) (.json v) w).1 with
        | .error _ => .ok false
        | .ok _ => .ok true) ∧
    ((cache.del key w).1 =
      match (redisClient.del [key] w).1 with
      | .error _ => .ok false
      | .ok _ => .ok true) ∧
    ((cache.delPattern pattern w).1 =
      match (redisClient.keys pattern w).1 with
      | .error _ => .ok false
      | .ok keys =>
        if keys.length > 0 then
          match (redisClient.del keys (redisClient.keys pattern w).2).1 with
          | .error _ => .ok false
          | .ok _ => .ok true
        else .ok true) := by
  refine ⟨?_, ?_, ?_, ?_⟩
  · rw [cache_get_run]
    unfold redisClient.get Redis.read
    by_cases hf : w.redis.nextFault.1 = true
    · simp [hf]
    · simp only [hf, if_false, Bool.false_eq_true]
      cases hl : w.redis.lookup key with
      | none => rfl
      | some text => cases text <;> rfl
  · cases p with
    | unserializable => rw [cache_set_unserializable]
    | value v =>
      rw [cache_set_run]
      unfold redisClient.setEx
      by_cases hf : w.redis.nextFault.1 = true
      · simp [hf]
      · by_cases ht : ttl.getD (defaultTtl w.cacheTtlEnv) ≤ 0
        · simp [hf, ht]
        · simp [hf, ht]
  · rw [cache_del_run]
    unfold redisClient.del
    by_cases hf : w.redis.nextFault.1 = true
    · simp [hf]
    · simp [hf]
  · rw [cache_delPattern_run]
    unfold redisClient.keys redisClient.del Redis.matching
    by_cases hf : w.redis.nextFault.1 = true
    · simp [hf]
    · simp only [hf, if_false, Bool.false_eq_true]
      split_ifs with h1 h2 <;> simp_all

/-! ## What a successful `create` returns -/

theorem create_ok {taskData : JsObj} {w w1 : World} {res : Value}
    (h : Task.create taskData w = (.ok res, w1)) :
    ∃ row, w1.db.rows = w.db.rows ++ [row] ∧ row.id = w.db.nextId ∧
      row.created_at = w.db.now ∧ row.updated_at = w.db.now ∧
      res = .created
        { id := w.db.nextId
          title := taskData.get "title"
          description := taskData.get "description"
          status := (taskData.get "status").orElse (.str "pending")
          priority := (taskData.get "priority").orElse (.str "medium")
          due_date := taskData.get "due_date" } ∧
      row.field "title" = taskData.get "title" ∧
      row.field "description" = (taskData.get "description").orElse .null ∧
      row.field "status" = (taskData.get "status").orElse (.str "pending") ∧
      row.field "priority" = (taskData.get "priority").orElse (.str "medium") ∧
      row.field "due_date" = (taskData.get "due_date").orElse .null := by
  rw [create_run] at h
  cases he : (w.db.execute sqlInsert (Task.insertParams taskData)).1 with
  | error m => rw [he] at h; simp at h
  | ok qr =>
    rw [he] at h
    simp only [Prod.mk.injEq, Except.ok.injEq] at h
    obtain ⟨hres, hw⟩ := h
    obtain ⟨_, hrun⟩ := execute_ok he
    rw [run_insert] at hrun
    obtain ⟨t, d, s, p, due, row, hps, hqr, hdb, hid, hca, hua, ht, hd, hs, hp, hdue⟩ :=
      insert_ok hrun
    simp only [Task.insertParams, List.cons.injEq, Param.val.injEq, and_true] at hps
    obtain ⟨rfl, rfl, rfl, rfl, rfl⟩ := hps
    obtain ⟨n1, n2, n3, _⟩ := nextFault_db w.db
    refine ⟨row, ?_, hid.trans n2, hca.trans n3, hua.trans n3, ?_, ht, hd, hs, hp, hdue⟩
    · rw [← hw, cache_delPattern_db]
      show (w.db.execute sqlInsert (Task.insertParams taskData)).2.rows = _
      rw [hdb]
      simp [n1]
    · rw [← hres, hqr]
      simp [QueryResult.insertId, n2]

/-- C9 (as amended): the record a successful `create` returns carries the
store-assigned id of the new row (the row appended to the table, whose
`created_at` and `updated_at` the store set to the current timestamp) and the
properties id, title, description, status, priority, due_date only: it has no
`created_at` and no `updated_at`. -/
theorem create_returns_id_without_timestamps (taskData : JsObj) (w w1 : World) (res : Value)
    (h : Task.create taskData w = (.ok res, w1)) :
    ∃ row c, w1.db.rows = w.db.rows ++ [row] ∧ row.id = w.db.nextId ∧
      row.created_at = w.db.now ∧ row.updated_at = w.db.now ∧
      res = .created c ∧ c.id = row.id ∧
      res.keys = ["id", "title", "description", "status", "priority", "due_date"] ∧
      "created_at" ∉ res.keys ∧ "updated_at" ∉ res.keys := by
  obtain ⟨row, h1, h2, h3, h4, h5, _⟩ := create_ok h
  refine ⟨row, _, h1, h2, h3, h4, h5, h2.symm, ?_, ?_, ?_⟩ <;> rw [h5] <;>
    simp [Value.keys]

theorem create_returns_id_without_timestamps_witness :
    ∃ row c,
      (Task.create titleOnlyTask emptyWorld).2.db.rows = emptyWorld.db.rows ++ [row] ∧
      row.id = emptyWorld.db.nextId ∧
      row.created_at = emptyWorld.db.now ∧ row.updated_at = emptyWorld.db.now ∧
      Value.created ⟨1, .str "A", .undefined, .str "pending", .str "medium", .undefined⟩ =
        .created c ∧ c.id = row.id ∧
      (Value.created
          ⟨1, .str "A", .undefined, .str "pending", .str "medium", .undefined⟩).keys =
        ["id", "title", "description", "status", "priority", "due_date"] ∧
      "created_at" ∉ (Value.created
          ⟨1, .str "A", .undefined, .str "pending", .str "medium", .undefined⟩).keys ∧
      "updated_at" ∉ (Value.created
          ⟨1, .str "A", .undefined, .str "pending", .str "medium", .undefined⟩).keys :=
  create_returns_id_without_timestamps titleOnlyTask emptyWorld
    (Task.create titleOnlyTask emptyWorld).2
    (.created ⟨1, .str "A", .undefined, .str "pending", .str "medium", .undefined⟩)
    (Prod.ext (by decide) rfl)

/-- C9 (counterexample to the claim as stated): the record returned by a
successful `create` has no `created_at` and no `updated_at` property, while
the stored row has both. -/
theorem create_record_lacks_timestamps :
    (Task.create titleOnlyTask emptyWorld).1 =
      .ok (.created ⟨1, .str "A", .undefined, .str "pending", .str "medium", .undefined⟩) ∧
    "created_at" ∉ (Value.created
      ⟨1, .str "A", .undefined, .str "pending", .str "medium", .undefined⟩).keys ∧
    "updated_at" ∉ (Value.created
      ⟨1, .str "A", .undefined, .str "pending", .str "medium", .undefined⟩).keys ∧
    (Task.create titleOnlyTask emptyWorld).2.db.rows.map (fun r => (r.created_at, r.updated_at)) =
      [(1000, 1000)] := by
  decide

/-! ## The decimal text of an id -/

theorem digitChar_value :
    ∀ d, d < 10 → (Nat.digitChar d).toNat - 48 = d ∧ isDigitChar (Nat.digitChar d) = true := by
  decide

theorem digitsValue_concat (pre : List Char) (c : Char) :
    digitsValue (pre ++ [c]) = 10 * digitsValue pre + (c.toNat - 48) := by
  unfold digitsValue
  rw [List.foldl_append]
  rfl

theorem toDigitsCore_value :
    ∀ (fuel n : Nat) (ds : List Char), n < fuel →
      ∃ pre, Nat.toDigitsCore 10 fuel n ds = pre ++ ds ∧ digitsValue pre = n ∧ pre ≠ [] ∧
        pre.all isDigitChar = true
  | 0, n, ds, h => absurd h (Nat.not_lt_zero n)
  | fuel + 1, n, ds, h => by
    rw [Nat.toDigitsCore]
    obtain ⟨hv, hd⟩ := digitChar_value (n % 10) (Nat.mod_lt _ (by decide))
    by_cases h0 : n / 10 = 0
    · rw [if_pos h0]
      refine ⟨[Nat.digitChar (n % 10)], rfl, ?_, by simp, by simp [hd]⟩
      have : digitsValue [Nat.digitChar (n % 10)] = (Nat.digitChar (n % 10)).toNat - 48 := by
        simp [digitsValue]
      rw [this, hv]
      omega
    · rw [if_neg h0]
      obtain ⟨pre, hp, hpv, _, hall⟩ :=
        toDigitsCore_value fuel (n / 10) (Nat.digitChar (n % 10) :: ds) (by omega)
      refine ⟨pre ++ [Nat.digitChar (n % 10)], by rw [hp]; simp, ?_, by simp, ?_⟩
      · rw [digitsValue_concat, hpv, hv]
        omega
      · rw [List.all_append, hall]
        simp [hd]

/-- The store reads the decimal text of a number as that number. -/
theorem readId_toString (n : Nat) : readId (toString n) = some n := by
  obtain ⟨pre, hp, hv, hne, hall⟩ := toDigitsCore_value (n + 1) n [] (Nat.lt_succ_self n)
  have hd : (toString n).data = pre := by
    show Nat.toDigits 10 n = pre
    unfold Nat.toDigits
    rw [hp, List.append_nil]
  unfold readId
  rw [hd, if_pos ⟨hne, hall⟩, hv]

/-- C10 (as amended): after a successful `create` that took a fresh id, in a
state whose cache holds no value for that id and with the store answering,
`getById` of the returned id (given as its decimal text, as a client puts it
in the path) returns the stored row; its title, status and
priority are those of the record `create` returned; its description and
due date are those of the returned record when they were supplied as non-empty
strings, and `null` otherwise (while the returned record then carries the
supplied value: absent, `null` or empty). -/
theorem create_then_getById (taskData : JsObj) (w w1 : World) (c : Created)
    (h : Task.create taskData w = (.ok (.created c), w1))
    (hfresh : ∀ r ∈ w.db.rows, r.id ≠ w.db.nextId)
    (hmiss : (w1.redis.read (taskKey (toString c.id))).truthy = false)
    (hdb : w1.db.nextFault.1 = none) :
    ∃ row, (Task.getById (toString c.id) w1).1 = .ok (.task row) ∧ row.id = c.id ∧
      row.field "title" = c.title ∧ row.field "status" = c.status ∧
      row.field "priority" = c.priority ∧
      row.field "description" = c.description.orElse .null ∧
      row.field "due_date" = c.due_date.orElse .null ∧
      c.description = taskData.get "description" ∧ c.due_date = taskData.get "due_date" := by
  obtain ⟨row, h1, h2, _, _, h5, ht, hd, hs, hp, hdue⟩ := create_ok h
  simp only [Value.created.injEq] at h5
  subst h5
  refine ⟨row, ?_, h2, ht, hs, hp, hd, hdue, rfl, rfl⟩
  rw [getById_miss_run _ _ hmiss hdb, h1, readId_toString]
  have hf : (w.db.rows ++ [row]).filter (fun r => some w.db.nextId = some r.id) = [row] := by
    rw [List.filter_append]
    have : w.db.rows.filter (fun r => some w.db.nextId = some r.id) = [] := by
      rw [List.filter_eq_nil_iff]
      intro r hr
      simpa using fun e => hfresh r hr e.symm
    rw [this]
    simp [List.filter, h2]
  simp only [hf]

theorem create_then_getById_witness :
    ∃ row,
      (Task.getById "1" (Task.create emptyDescriptionTask emptyWorld).2).1 = .ok (.task row) ∧
      row.id = 1 ∧
      row.field "title" = JsVal.str "A" ∧ row.field "status" = JsVal.str "pending" ∧
      row.field "priority" = JsVal.str "medium" ∧
      row.field "description" = (JsVal.str "").orElse .null ∧
      row.field "due_date" = JsVal.undefined.orElse .null ∧
      JsVal.str "" = emptyDescriptionTask.get "description" ∧
      JsVal.undefined = emptyDescriptionTask.get "due_date" :=
  create_then_getById emptyDescriptionTask emptyWorld
    (Task.create emptyDescriptionTask emptyWorld).2
    ⟨1, .str "A", .str "", .str "pending", .str "medium", .undefined⟩
    (Prod.ext (by decide) rfl) (by decide) (by decide) (by decide)

/-- C10 (counterexample to the claim as stated): when description and
due date are omitted from a create call, the record `create` returns has them
`undefined`, while `getById` of the new id returns a row in which both are
`null`. -/
theorem create_omitted_fields_differ :
    (Task.create titleOnlyTask emptyWorld).1 =
      .ok (.created ⟨1, .str "A", .undefined, .str "pending", .str "medium", .undefined⟩) ∧
    ((Task.create titleOnlyTask emptyWorld).2.redis.read (taskKey "1")).truthy = false ∧
    (Task.getById "1" (Task.create titleOnlyTask emptyWorld).2).1 =
      .ok (.task ⟨1, "A", none, some "pending", some "medium", none, 1000, 1000⟩) ∧
    (⟨1, "A", none, some "pending", some "medium", none, 1000, 1000⟩ : Row).field
      "description" = .null ∧
    (⟨1, "A", none, some "pending", some "medium", none, 1000, 1000⟩ : Row).field
      "due_date" = .null := by
  decide

/-! ## `JSON.stringify` is injective -/

theorem hex_roundtrip :
    ∀ n, n < 32 → 16 * hexVal (hexDigit (n / 16)) + hexVal (hexDigit (n % 16)) = n := by
  decide

theorem decodeOne_quoteChar (c : Char) (rest : List Char) :
    decodeOne (quoteChar c ++ rest) = some (c, rest) := by
  unfold quoteChar
  split_ifs with h1 h2 h3 h4 h5 h6 h7 h8
  · subst h1
    rfl
  · subst h2
    rfl
  · have : c = Char.ofNat 8 := by rw [← h3, Char.ofNat_toNat]
    subst this
    rfl
  · have : c = Char.ofNat 12 := by rw [← h4, Char.ofNat_toNat]
    subst this
    rfl
  · have : c = Char.ofNat 10 := by rw [← h5, Char.ofNat_toNat]
    subst this
    rfl
  · have : c = Char.ofNat 13 := by rw [← h6, Char.ofNat_toNat]
    subst this
    rfl
  · have : c = Char.ofNat 9 := by rw [← h7, Char.ofNat_toNat]
    subst this
    rfl
  · have hu : ('u' : Char) = 'u' := rfl
    have hb : bslash = bslash := rfl
    simp only [List.cons_append, List.nil_append, decodeOne, hb, hu, if_true]
    rw [hex_roundtrip _ h8, Char.ofNat_toNat]
  · simp only [List.cons_append, List.nil_append, decodeOne, h2, if_false]

theorem quoteChar_not_dquote (c : Char) (rest r : List Char) :
    quoteChar c ++ rest ≠ dquote :: r := by
  intro h
  have h1 := decodeOne_quoteChar c rest
  rw [h] at h1
  have h2 : decodeOne (dquote :: r) = some (dquote, r) := rfl
  rw [h2] at h1
  simp only [Option.some.injEq, Prod.mk.injEq] at h1
  obtain ⟨hc, _⟩ := h1
  subst hc
  have h3 : quoteChar dquote = [bslash, dquote] := rfl
  rw [h3] at h
  simp only [List.cons_append, List.cons.injEq] at h
  exact absurd h.1 (by decide)

theorem quoteBody_inj :
    ∀ (a b r1 r2 : List Char),
      quoteBody a ++ dquote :: r1 = quoteBody b ++ dquote :: r2 → a = b ∧ r1 = r2
  | [], [], r1, r2, h => by
    simp only [quoteBody, List.nil_append, List.cons.injEq, true_and] at h
    exact ⟨rfl, h⟩
  | [], d :: bs, r1, r2, h => by
    simp only [quoteBody, List.nil_append, List.append_assoc] at h
    exact absurd h.symm (quoteChar_not_dquote d _ _)
  | c :: as, [], r1, r2, h => by
    simp only [quoteBody, List.nil_append, List.append_assoc] at h
    exact absurd h (quoteChar_not_dquote c _ _)
  | c :: as, d :: bs, r1, r2, h => by
    simp only [quoteBody, List.append_assoc] at h
    have h1 := decodeOne_quoteChar c (quoteBody as ++ dquote :: r1)
    rw [h, decodeOne_quoteChar] at h1
    simp only [Option.some.injEq, Prod.mk.injEq] at h1
    obtain ⟨hc, ht⟩ := h1
    obtain ⟨ha, hr⟩ := quoteBody_inj as bs r1 r2 ht.symm
    exact ⟨by rw [hc, ha], hr⟩

theorem quoteJSONString_inj (a b : String) (r1 r2 : List Char)
    (h : quoteJSONString a ++ r1 = quoteJSONString b ++ r2) : a = b ∧ r1 = r2 := by
  unfold quoteJSONString at h
  simp only [List.cons_append, List.append_assoc, List.singleton_append, List.cons.injEq,
    true_and] at h
  obtain ⟨hd, hr⟩ := quoteBody_inj _ _ _ _ h
  exact ⟨String.ext hd, hr⟩

theorem jsonValue_inj {v1 v2 : JsVal} {t1 t2 r1 r2 : List Char}
    (h1 : jsonValue v1 = some t1) (h2 : jsonValue v2 = some t2)
    (h : t1 ++ r1 = t2 ++ r2) : v1 = v2 ∧ r1 = r2 := by
  cases v1 with
  | undefined => simp [jsonValue] at h1
  | null =>
    cases v2 with
    | undefined => simp [jsonValue] at h2
    | null =>
      simp only [jsonValue, Option.some.injEq] at h1 h2
      subst h1 h2
      exact ⟨rfl, List.append_cancel_left h⟩
    | str s =>
      simp only [jsonValue, Option.some.injEq] at h1 h2
      subst h1 h2
      unfold quoteJSONString at h
      simp only [List.cons_append, List.cons.injEq] at h
      exact absurd h.1 (by decide)
  | str s =>
    cases v2 with
    | undefined => simp [jsonValue] at h2
    | null =>
      simp only [jsonValue, Option.some.injEq] at h1 h2
      subst h1 h2
      unfold quoteJSONString at h
      simp only [List.cons_append, List.cons.injEq] at h
      exact absurd h.1 (by decide)
    | str s2 =>
      simp only [jsonValue, Option.some.injEq] at h1 h2
      subst h1 h2
      obtain ⟨hs, hr⟩ := quoteJSONString_inj _ _ _ _ h
      exact ⟨by rw [hs], hr⟩

theorem jsonValue_defined {v : JsVal} (h : v ≠ .undefined) : ∃ t, jsonValue v = some t := by
  cases v with
  | undefined => exact absurd rfl h
  | null => exact ⟨_, rfl⟩
  | str s => exact ⟨_, rfl⟩

theorem jsonMember_inj {k1 k2 : String} {v1 v2 : JsVal} {t1 t2 r1 r2 : List Char}
    (h1 : jsonValue v1 = some t1) (h2 : jsonValue v2 = some t2)
    (h : jsonMember k1 t1 ++ r1 = jsonMember k2 t2 ++ r2) :
    k1 = k2 ∧ v1 = v2 ∧ r1 = r2 := by
  unfold jsonMember at h
  simp only [List.append_assoc] at h
  obtain ⟨hk, hr⟩ := quoteJSONString_inj _ _ _ _ h
  simp only [List.cons_append, List.cons.injEq, true_and] at hr
  obtain ⟨hv, hr2⟩ := jsonValue_inj h1 h2 hr
  exact ⟨hk, hv, hr2⟩

theorem jsonRest_filter : ∀ ps : List (String × JsVal),
    jsonRest ps = jsonRest (ps.filter (fun p => p.2 ≠ .undefined))
  | [] => rfl
  | p :: ps => by
    by_cases hp : p.2 = .undefined
    · rw [jsonRest, hp]
      simp only [jsonValue, List.filter, hp, ne_eq, not_true_eq_false, decide_False]
      exact jsonRest_filter ps
    · obtain ⟨t, ht⟩ := jsonValue_defined hp
      simp only [List.filter, hp, ne_eq, not_false_eq_true, decide_True]
      rw [jsonRest, jsonRest, ht, jsonRest_filter ps]

theorem jsonMembers_filter : ∀ ps : List (String × JsVal),
    jsonMembers ps = jsonMembers (ps.filter (fun p => p.2 ≠ .undefined))
  | [] => rfl
  | p :: ps => by
    by_cases hp : p.2 = .undefined
    · rw [jsonMembers, hp]
      simp only [jsonValue, List.filter, hp, ne_eq, not_true_eq_false, decide_False]
      exact jsonMembers_filter ps
    · obtain ⟨t, ht⟩ := jsonValue_defined hp
      simp only [List.filter, hp, ne_eq, not_false_eq_true, decide_True]
      rw [jsonMembers, jsonMembers, ht, jsonRest_filter ps]

theorem jsonRest_inj : ∀ ps qs : List (String × JsVal),
    (∀ p ∈ ps, p.2 ≠ .undefined) → (∀ q ∈ qs, q.2 ≠ .undefined) →
      jsonRest ps = jsonRest qs → ps = qs
  | [], [], _, _, _ => rfl
  | [], q :: qs, _, hq, h => by
    obtain ⟨t, ht⟩ := jsonValue_defined (hq q (by simp))
    rw [jsonRest, jsonRest, ht] at h
    simp only [List.cons.injEq] at h
    exact absurd h.1 (by decide)
  | p :: ps, [], hp, _, h => by
    obtain ⟨t, ht⟩ := jsonValue_defined (hp p (by simp))
    rw [jsonRest, jsonRest, ht] at h
    simp only [List.cons.injEq] at h
    exact absurd h.1 (by decide)
  | p :: ps, q :: qs, hp, hq, h => by
    obtain ⟨t, ht⟩ := jsonValue_defined (hp p (by simp))
    obtain ⟨u, hu⟩ := jsonValue_defined (hq q (by simp))
    rw [jsonRest, jsonRest, ht, hu] at h
    simp only [List.cons.injEq, true_and] at h
    obtain ⟨hk, hv, hr⟩ := jsonMember_inj ht hu h
    have := jsonRest_inj ps qs (fun x hx => hp x (by simp [hx]))
      (fun x hx => hq x (by simp [hx])) hr
    rw [this, Prod.ext hk hv]

theorem jsonMember_head (k : String) (t r : List Char) :
    ∃ r1, jsonMember k t ++ r = dquote :: r1 := by
  unfold jsonMember quoteJSONString
  exact ⟨_, rfl⟩

theorem jsonMembers_inj : ∀ ps qs : List (String × JsVal),
    (∀ p ∈ ps, p.2 ≠ .undefined) → (∀ q ∈ qs, q.2 ≠ .undefined) →
      jsonMembers ps = jsonMembers qs → ps = qs
  | [], [], _, _, _ => rfl
  | [], q :: qs, _, hq, h => by
    obtain ⟨t, ht⟩ := jsonValue_defined (hq q (by simp))
    rw [jsonMembers, jsonMembers, ht] at h
    obtain ⟨r1, hr1⟩ := jsonMember_head q.1 t (jsonRest qs)
    simp only [hr1] at h
    simp only [List.cons.injEq] at h
    exact absurd h.1 (by decide)
  | p :: ps, [], hp, _, h => by
    obtain ⟨t, ht⟩ := jsonValue_defined (hp p (by simp))
    rw [jsonMembers, jsonMembers, ht] at h
    obtain ⟨r1, hr1⟩ := jsonMember_head p.1 t (jsonRest ps)
    simp only [hr1] at h
    simp only [List.cons.injEq] at h
    exact absurd h.1 (by decide)
  | p :: ps, q :: qs, hp, hq, h => by
    obtain ⟨t, ht⟩ := jsonValue_defined (hp p (by simp))
    obtain ⟨u, hu⟩ := jsonValue_defined (hq q (by simp))
    rw [jsonMembers, jsonMembers, ht, hu] at h
    obtain ⟨hk, hv, hr⟩ := jsonMember_inj ht hu h
    have := jsonRest_inj ps qs (fun x hx => hp x (by simp [hx]))
      (fun x hx => hq x (by simp [hx])) hr
    rw [this, Prod.ext hk hv]

theorem listKey_definedProps {f g : JsObj} (h : listKey f = listKey g) :
    definedProps f = definedProps g := by
  have h1 := congrArg String.data h
  rw [listKey_data, listKey_data] at h1
  have h2 := List.append_cancel_left h1
  simp only [List.cons.injEq, true_and] at h2
  rw [jsonMembers_filter f.props, jsonMembers_filter g.props] at h2
  unfold definedProps
  apply jsonMembers_inj _ _ _ _ h2
  · intro p hp
    simpa using (List.mem_filter.mp hp).2
  · intro p hp
    simpa using (List.mem_filter.mp hp).2

theorem lookupProp_defined (k : String) : ∀ ps : List (String × JsVal),
    (ps.map Prod.fst).Nodup →
      lookupProp k ps = lookupProp k (ps.filter (fun p => p.2 ≠ .undefined))
  | [], _ => rfl
  | p :: ps, hn => by
    rw [List.map_cons, List.nodup_cons] at hn
    by_cases hp : p.2 = .undefined
    · simp only [List.filter, hp, ne_eq, not_true_eq_false, decide_False]
      rw [lookupProp]
      by_cases hk : p.1 = k
      · rw [if_pos hk, hp]
        have : ∀ qs : List (String × JsVal), k ∉ qs.map Prod.fst →
            lookupProp k qs = .undefined := by
          intro qs
          induction qs with
          | nil => intro _; rfl
          | cons q qs ih =>
            intro hq
            rw [List.map_cons, List.mem_cons, not_or] at hq
            rw [lookupProp, if_neg (fun e => hq.1 e.symm), ih hq.2]
        symm
        apply this
        intro hm
        apply hn.1
        rw [hk]
        obtain ⟨x, hx, hxk⟩ := List.mem_map.mp hm
        exact List.mem_map.mpr ⟨x, (List.mem_filter.mp hx).1, hxk⟩
      · rw [if_neg hk]
        exact lookupProp_defined k ps hn.2
    · simp only [List.filter, hp, ne_eq, not_false_eq_true, decide_True]
      rw [lookupProp, lookupProp, lookupProp_defined k ps hn.2]

theorem listKey_get {f g : JsObj} (h : listKey f = listKey g) (k : String) :
    f.get k = g.get k := by
  unfold JsObj.get
  rw [lookupProp_defined k f.props f.nodup, lookupProp_defined k g.props g.nodup]
  have := listKey_definedProps h
  unfold definedProps at this
  rw [this]

/-- C4: two filter objects that differ in their status or in their priority
(an absent field, `null` and every string, whatever characters it holds, being
different values) get different list cache keys. -/
theorem listKey_injective (f g : JsObj)
    (h : f.get "status" ≠ g.get "status" ∨ f.get "priority" ≠ g.get "priority") :
    listKey f ≠ listKey g := by
  intro hk
  rcases h with h | h
  · exact h (listKey_get hk "status")
  · exact h (listKey_get hk "priority")

theorem listKey_injective_witness :
    (quotedStatusFilters.get "status" ≠ quotedPriorityFilters.get "status" ∨
      quotedStatusFilters.get "priority" ≠ quotedPriorityFilters.get "priority") ∧
    listKey quotedStatusFilters ≠ listKey quotedPriorityFilters :=
  ⟨by decide, listKey_injective quotedStatusFilters quotedPriorityFilters (by decide)⟩

theorem listKey_of_definedProps (f g : JsObj) (h : definedProps f = definedProps g) :
    listKey f = listKey g := by
  unfold listKey jsonStringify
  rw [jsonMembers_filter f.props, jsonMembers_filter g.props]
  unfold definedProps at h
  rw [h]

theorem lookupProp_mem (k : String) (v : JsVal) : ∀ ps : List (String × JsVal),
    (ps.map Prod.fst).Nodup → (k, v) ∈ ps → lookupProp k ps = v
  | [], _, h => by simp at h
  | p :: ps, hn, h => by
    rw [List.map_cons, List.nodup_cons] at hn
    rw [lookupProp]
    rcases List.mem_cons.mp h with rfl | h
    · simp
    · have hne : p.1 ≠ k := by
        intro e
        apply hn.1
        rw [e]
        exact List.mem_map.mpr ⟨(k, v), h, rfl⟩
      rw [if_neg hne]
      exact lookupProp_mem k v ps hn.2 h

theorem get_of_mem (o : JsObj) (p : String × JsVal) (h : p ∈ o.props) : o.get p.1 = p.2 :=
  lookupProp_mem p.1 p.2 o.props o.nodup h

theorem mem_of_lookupProp (k : String) : ∀ ps : List (String × JsVal),
    lookupProp k ps ≠ .undefined → (k, lookupProp k ps) ∈ ps
  | [], h => absurd rfl h
  | p :: ps, h => by
    rw [lookupProp] at h ⊢
    by_cases hk : p.1 = k
    · rw [if_pos hk] at h ⊢
      rw [← hk]
      exact List.mem_cons_self _ _
    · rw [if_neg hk] at h ⊢
      exact List.mem_cons_of_mem _ (mem_of_lookupProp k ps h)

theorem definedProps_values (o : JsObj) :
    definedProps o = ((definedProps o).map Prod.fst).map (fun k => (k, o.get k)) := by
  rw [List.map_map]
  conv_lhs => rw [← List.map_id (definedProps o)]
  apply List.map_congr_left
  intro p hp
  have := get_of_mem o p (List.mem_filter.mp hp).1
  simp [this]

theorem mem_definedKeys (o : JsObj) (k : String) :
    k ∈ (definedProps o).map Prod.fst ↔ o.get k ≠ .undefined := by
  constructor
  · intro h
    obtain ⟨p, hp, rfl⟩ := List.mem_map.mp h
    have hm := List.mem_filter.mp hp
    rw [get_of_mem o p hm.1]
    simpa using hm.2
  · intro h
    have hm := mem_of_lookupProp k o.props h
    exact List.mem_map.mpr ⟨(k, o.get k), List.mem_filter.mpr ⟨hm, by simpa using h⟩, rfl⟩

theorem definedKeys_nodup (o : JsObj) : ((definedProps o).map Prod.fst).Nodup :=
  List.Nodup.sublist (List.Sublist.map _ (List.filter_sublist _)) o.nodup

theorem nodup_single {x : String} : ∀ l : List String, l.Nodup → (∀ y ∈ l, y = x) →
    l = [] ∨ l = [x]
  | [], _, _ => Or.inl rfl
  | [a], _, h => Or.inr (by rw [h a (by simp)])
  | a :: b :: t, hn, h => by
    have ha := h a (by simp)
    have hb := h b (by simp)
    rw [List.nodup_cons] at hn
    exact absurd (by rw [ha, hb]; simp) hn.1

theorem nodup_single_ext {x : String} {l1 l2 : List String} (h1 : l1.Nodup) (h2 : l2.Nodup)
    (a1 : ∀ y ∈ l1, y = x) (a2 : ∀ y ∈ l2, y = x) (hm : x ∈ l1 ↔ x ∈ l2) : l1 = l2 := by
  rcases nodup_single l1 h1 a1 with e1 | e1 <;> rcases nodup_single l2 h2 a2 with e2 | e2
  · rw [e1, e2]
  · rw [e1, e2] at hm
    simp at hm
  · rw [e1, e2] at hm
    simp at hm
  · rw [e1, e2]

theorem listKey_iff_writtenKeys (f g : JsObj)
    (hv : ∀ k ∈ writtenKeys f, f.get k = g.get k) :
    listKey f = listKey g ↔ writtenKeys f = writtenKeys g := by
  constructor
  · intro h
    unfold writtenKeys
    rw [listKey_definedProps h]
  · intro h
    apply listKey_of_definedProps
    rw [definedProps_values f, definedProps_values g]
    unfold writtenKeys at h hv
    rw [← h]
    apply List.map_congr_left
    intro k hk
    rw [hv k hk]

theorem filter_keys_values (f g : JsObj)
    (hs : f.get "status" = g.get "status") (hp : f.get "priority" = g.get "priority")
    (hf : ∀ p ∈ f.props, p.1 = "status" ∨ p.1 = "priority") :
    ∀ k ∈ writtenKeys f, f.get k = g.get k := by
  intro k hk
  obtain ⟨p, hp1, rfl⟩ := List.mem_map.mp hk
  rcases hf p (List.mem_filter.mp hp1).1 with e | e <;> rw [e]
  · exact hs
  · exact hp

theorem all_defined (f : JsObj) (hf : ∀ p ∈ f.props, p.1 = "status" ∨ p.1 = "priority")
    (h1 : f.get "status" ≠ .undefined) (h2 : f.get "priority" ≠ .undefined) :
    writtenKeys f = f.props.map Prod.fst := by
  unfold writtenKeys definedProps
  rw [List.filter_eq_self.mpr]
  intro p hp
  have hg := get_of_mem f p hp
  rcases hf p hp with e | e <;> rw [e] at hg
  · simpa [← hg] using h1
  · simpa [← hg] using h2

theorem one_defined (f g : JsObj) (x y : String)
    (hx : f.get x = g.get x)
    (hf : ∀ p ∈ f.props, p.1 = y ∨ p.1 = x) (hg : ∀ p ∈ g.props, p.1 = y ∨ p.1 = x)
    (huf : f.get y = .undefined) (hug : g.get y = .undefined) :
    writtenKeys f = writtenKeys g := by
  have key : ∀ (o : JsObj), (∀ p ∈ o.props, p.1 = y ∨ p.1 = x) → o.get y = .undefined →
      ∀ k ∈ writtenKeys o, k = x := by
    intro o ho hu k hk
    have hd := (mem_definedKeys o k).mp hk
    obtain ⟨p, hp1, rfl⟩ := List.mem_map.mp hk
    rcases ho p (List.mem_filter.mp hp1).1 with e | e
    · rw [e, hu] at hd
      exact absurd rfl hd
    · exact e
  apply nodup_single_ext (definedKeys_nodup f) (definedKeys_nodup g) (key f hf huf) (key g hg hug)
  rw [mem_definedKeys, mem_definedKeys, hx]

/-- C3 (as amended): for two filter objects that carry the same status and the
same priority and no other field, `getAll` computes the same list cache key
exactly when `JSON.stringify` writes their fields in the same order (it writes
the fields that are not `undefined`, in insertion order). So the key is the
same whenever at most one of the two fields is defined; when both are defined
it is the same exactly when the two objects list their fields in the same
order. The filter objects the controller builds from two queries that carry
the same status and the same priority (whatever else they carry and in
whatever order), always status before priority, get the same key. -/
theorem listKey_same_values (f g : JsObj)
    (hs : f.get "status" = g.get "status") (hp : f.get "priority" = g.get "priority")
    (hf : ∀ p ∈ f.props, p.1 = "status" ∨ p.1 = "priority")
    (hg : ∀ p ∈ g.props, p.1 = "status" ∨ p.1 = "priority") :
    (listKey f = listKey g ↔ writtenKeys f = writtenKeys g) ∧
    (f.get "status" = .undefined ∨ f.get "priority" = .undefined → listKey f = listKey g) ∧
    (f.get "status" ≠ .undefined → f.get "priority" ≠ .undefined →
      (listKey f = listKey g ↔ f.props.map Prod.fst = g.props.map Prod.fst)) ∧
    (∀ q1 q2 : JsObj, q1.get "status" = q2.get "status" →
      q1.get "priority" = q2.get "priority" →
      listKey (TaskController.filtersOf q1) = listKey (TaskController.filtersOf q2)) := by
  have hiff := listKey_iff_writtenKeys f g (filter_keys_values f g hs hp hf)
  refine ⟨hiff, ?_, ?_, ?_⟩
  · rintro (h | h)
    · exact hiff.mpr (one_defined f g "priority" "status" hp hf hg h (by rw [← hs]; exact h))
    · exact hiff.mpr (one_defined f g "status" "priority" hs
        (fun p hp => (hf p hp).symm) (fun p hp => (hg p hp).symm) h (by rw [← hp]; exact h))
  · intro h1 h2
    rw [hiff, all_defined f hf h1 h2, all_defined g hg (by rw [← hs]; exact h1)
      (by rw [← hp]; exact h2)]
  · intro q1 q2 h1 h2
    unfold TaskController.filtersOf
    rw [h1, h2]

theorem listKey_same_values_witness :
    undefinedStatusFilters.get "status" = priorityThenStatusFilters.get "status" ∧
    undefinedStatusFilters.get "priority" = priorityThenStatusFilters.get "priority" ∧
    (∀ p ∈ undefinedStatusFilters.props, p.1 = "status" ∨ p.1 = "priority") ∧
    (∀ p ∈ priorityThenStatusFilters.props, p.1 = "status" ∨ p.1 = "priority") ∧
    ((listKey undefinedStatusFilters = listKey priorityThenStatusFilters ↔
      writtenKeys undefinedStatusFilters = writtenKeys priorityThenStatusFilters) ∧
    (undefinedStatusFilters.get "status" = .undefined ∨
      undefinedStatusFilters.get "priority" = .undefined →
        listKey undefinedStatusFilters = listKey priorityThenStatusFilters) ∧
    (undefinedStatusFilters.get "status" ≠ .undefined →
      undefinedStatusFilters.get "priority" ≠ .undefined →
      (listKey undefinedStatusFilters = listKey priorityThenStatusFilters ↔
        undefinedStatusFilters.props.map Prod.fst =
          priorityThenStatusFilters.props.map Prod.fst)) ∧
    (∀ q1 q2 : JsObj, q1.get "status" = q2.get "status" →
      q1.get "priority" = q2.get "priority" →
      listKey (TaskController.filtersOf q1) = listKey (TaskController.filtersOf q2))) :=
  ⟨by decide, by decide, by decide, by decide,
    listKey_same_values undefinedStatusFilters priorityThenStatusFilters (by decide) (by decide)
      (by decide) (by decide)⟩

/-- C3 (counterexample to the claim as stated): two filter objects with the
same status and the same priority, given to `getAll` with the two fields in
different order, get different list cache keys. -/
theorem listKey_depends_on_order :
    statusFirstFilters.get "status" = priorityFirstFilters.get "status" ∧
    statusFirstFilters.get "priority" = priorityFirstFilters.get "priority" ∧
    listKey statusFirstFilters ≠ listKey priorityFirstFilters := by
  decide

/-! ## New events of a run -/

theorem newEvents_of_log {w w1 : World} {l : List Event} (h : w1.log = w.log ++ l) :
    newEvents w w1 = l := by
  unfold newEvents
  rw [h, List.drop_left]

theorem log_eq_newEvents {w w1 : World} (h : LogGrows w w1) :
    w1.log = w.log ++ newEvents w w1 := by
  obtain ⟨evs, he⟩ := h
  rw [newEvents_of_log he, he]

theorem newEvents_trans {w w1 w2 : World} (h1 : LogGrows w w1) (h2 : LogGrows w1 w2) :
    newEvents w w2 = newEvents w w1 ++ newEvents w1 w2 := by
  apply newEvents_of_log
  rw [log_eq_newEvents h2, log_eq_newEvents h1, List.append_assoc]

theorem newEvents_self (w : World) : newEvents w w = [] :=
  newEvents_of_log (by simp)

theorem newEvents_execute (sql : String) (params : List Param) (w : World) :
    newEvents w (pool.execute sql params w).2 =
      [.sql sql params (errorOf (w.db.execute sql params).1)] :=
  newEvents_of_log rfl

theorem cache_get_events (key : String) (w : World) :
    ∀ e ∈ newEvents w (cache.get key w).2, e.isSql = false ∧ e.isInvalidation = false := by
  rw [newEvents_of_log (l := [.redisGet key (!w.redis.nextFault.1)]) (by rw [cache_get_run])]
  intro e he
  simp only [List.mem_singleton] at he
  subst he
  exact ⟨rfl, rfl⟩

theorem cache_set_events (key : String) (p : Payload) (ttl : Option Int) (w : World) :
    ∀ e ∈ newEvents w (cache.set key p ttl w).2, e.isSql = false ∧ e.isInvalidation = false := by
  cases p with
  | unserializable =>
    rw [cache_set_unserializable, newEvents_self]
    simp
  | value v =>
    rw [cache_set_run]
    split_ifs
    · rw [newEvents_of_log (l := [.redisSetEx key (ttl.getD (defaultTtl w.cacheTtlEnv)) false])
        rfl]
      intro e he
      simp only [List.mem_singleton] at he
      subst he
      exact ⟨rfl, rfl⟩
    · rw [newEvents_of_log (l := [.redisSetEx key (ttl.getD (defaultTtl w.cacheTtlEnv)) true])
        rfl]
      intro e he
      simp only [List.mem_singleton] at he
      subst he
      exact ⟨rfl, rfl⟩

theorem cache_del_events (key : String) (w : World) :
    ∀ e ∈ newEvents w (cache.del key w).2, e.isSql = false := by
  rw [cache_del_run]
  split_ifs
  · rw [newEvents_of_log (l := [.redisDel [key] false]) rfl]
    intro e he
    simp only [List.mem_singleton] at he
    subst he
    rfl
  · rw [newEvents_of_log (l := [.redisDel [key] true]) rfl]
    intro e he
    simp only [List.mem_singleton] at he
    subst he
    rfl

theorem cache_delPattern_events (pattern : String) (w : World) :
    ∀ e ∈ newEvents w (cache.delPattern pattern w).2, e.isSql = false := by
  rw [cache_delPattern_run]
  split_ifs
  · rw [newEvents_of_log (l := [.redisKeys pattern false]) rfl]
    intro e he
    simp only [List.mem_singleton] at he
    subst he
    rfl
  · rw [newEvents_of_log (l := [.redisKeys pattern true,
      .redisDel (w.redis.matching pattern) false]) rfl]
    intro e he
    simp only [List.mem_cons, List.mem_singleton, List.not_mem_nil, or_false] at he
    rcases he with rfl | rfl <;> rfl
  · rw [newEvents_of_log (l := [.redisKeys pattern true,
      .redisDel (w.redis.matching pattern) true]) rfl]
    intro e he
    simp only [List.mem_cons, List.mem_singleton, List.not_mem_nil, or_false] at he
    rcases he with rfl | rfl <;> rfl
  · rw [newEvents_of_log (l := [.redisKeys pattern true]) rfl]
    intro e he
    simp only [List.mem_singleton] at he
    subst he
    rfl

theorem filter_isSql_nil {evs : List Event} (h : ∀ e ∈ evs, e.isSql = false) :
    evs.filter Event.isSql = [] := by
  rw [List.filter_eq_nil_iff]
  intro e he
  rw [h e he]
  simp

theorem sqlEvents_trans {w w1 w2 : World} (h1 : LogGrows w w1) (h2 : LogGrows w1 w2) :
    sqlEvents w w2 = sqlEvents w w1 ++ sqlEvents w1 w2 := by
  unfold sqlEvents
  rw [newEvents_trans h1 h2, List.filter_append]

theorem sqlEvents_cache_get (key : String) (w : World) :
    sqlEvents w (cache.get key w).2 = [] :=
  filter_isSql_nil (fun e he => (cache_get_events key w e he).1)

theorem sqlEvents_cache_set (key : String) (p : Payload) (ttl : Option Int) (w : World) :
    sqlEvents w (cache.set key p ttl w).2 = [] :=
  filter_isSql_nil (fun e he => (cache_set_events key p ttl w e he).1)

theorem sqlEvents_cache_del (key : String) (w : World) :
    sqlEvents w (cache.del key w).2 = [] :=
  filter_isSql_nil (cache_del_events key w)

theorem sqlEvents_cache_delPattern (pattern : String) (w : World) :
    sqlEvents w (cache.delPattern pattern w).2 = [] :=
  filter_isSql_nil (cache_delPattern_events pattern w)

theorem sqlEvents_execute (sql : String) (params : List Param) (w : World) :
    sqlEvents w (pool.execute sql params w).2 =
      [.sql sql params (errorOf (w.db.execute sql params).1)] := by
  unfold sqlEvents
  rw [newEvents_execute]
  rfl

theorem sqlEvents_invalidated (id : String) (w : World) : sqlEvents w (invalidated id w) = [] := by
  unfold invalidated
  rw [sqlEvents_trans (logGrows_cache_del (taskKey id) w) (logGrows_cache_delPattern _ _),
    sqlEvents_cache_del, sqlEvents_cache_delPattern]
  rfl

theorem logGrows_invalidated (id : String) (w : World) : LogGrows w (invalidated id w) :=
  (logGrows_cache_del (taskKey id) w).trans (logGrows_cache_delPattern _ _)

theorem mem_sqlEvents {w w1 : World} {e : Event} (he : e.isSql = true) :
    e ∈ newEvents w w1 ↔ e ∈ sqlEvents w w1 := by
  unfold sqlEvents
  rw [List.mem_filter]
  exact ⟨fun h => ⟨h, he⟩, fun h => h.1⟩

/-! ## Store failures and the outcome of a call -/

theorem sqlEvents_getById (id : String) (w : World) :
    (∃ v, (Task.getById id w).1 = .ok v ∧
      (sqlEvents w (Task.getById id w).2 = [] ∨
        sqlEvents w (Task.getById id w).2 = [.sql sqlSelectById [.val (.str id)] none])) ∨
    (∃ m, (Task.getById id w).1 = .error ("Failed to get task: " ++ m) ∧
      sqlEvents w (Task.getById id w).2 = [.sql sqlSelectById [.val (.str id)] (some m)]) := by
  have hg := logGrows_cache_get (taskKey id) w
  have hx := logGrows_execute sqlSelectById [.val (.str id)] (cache.get (taskKey id) w).2
  have hs : sqlEvents w (pool.execute sqlSelectById [.val (.str id)] (cache.get (taskKey id) w).2).2 =
      [.sql sqlSelectById [.val (.str id)] (errorOf (w.db.execute sqlSelectById [.val (.str id)]).1)] := by
    rw [sqlEvents_trans hg hx, sqlEvents_cache_get, sqlEvents_execute, cache_get_db]
    rfl
  rw [execute_selectById] at hs
  rw [getById_run]
  split_ifs with ht
  · exact Or.inl ⟨_, rfl, Or.inl (sqlEvents_cache_get _ _)⟩
  · cases hn : w.db.nextFault.1 with
    | some m =>
      rw [hn] at hs
      exact Or.inr ⟨m, rfl, hs⟩
    | none =>
      rw [hn] at hs
      simp only
      cases hr : w.db.rows.filter (fun r => readId id = some r.id) with
      | nil => exact Or.inl ⟨_, rfl, Or.inr hs⟩
      | cons row t =>
        refine Or.inl ⟨_, rfl, Or.inr ?_⟩
        simp only
        rw [sqlEvents_trans (hg.trans hx) (logGrows_cache_set _ _ _ _), hs, sqlEvents_cache_set]
        rfl

theorem sqlEvents_getAll (filters : JsObj) (w : World) :
    (∃ v, (Task.getAll filters w).1 = .ok v ∧
      (sqlEvents w (Task.getAll filters w).2 = [] ∨
        sqlEvents w (Task.getAll filters w).2 =
          [.sql (Task.listQuery filters) (Task.listParams filters) none])) ∨
    (∃ m, (Task.getAll filters w).1 = .error ("Failed to get tasks: " ++ m) ∧
      sqlEvents w (Task.getAll filters w).2 =
        [.sql (Task.listQuery filters) (Task.listParams filters) (some m)]) := by
  have hg := logGrows_cache_get (listKey filters) w
  have hx := logGrows_execute (Task.listQuery filters) (Task.listParams filters)
    (cache.get (listKey filters) w).2
  have hs : sqlEvents w (pool.execute (Task.listQuery filters) (Task.listParams filters)
      (cache.get (listKey filters) w).2).2 =
      [.sql (Task.listQuery filters) (Task.listParams filters)
        (errorOf (w.db.execute (Task.listQuery filters) (Task.listParams filters)).1)] := by
    rw [sqlEvents_trans hg hx, sqlEvents_cache_get, sqlEvents_execute, cache_get_db]
    rfl
  rw [execute_list] at hs
  rw [getAll_run]
  split_ifs with ht
  · exact Or.inl ⟨_, rfl, Or.inl (sqlEvents_cache_get _ _)⟩
  · cases hn : w.db.nextFault.1 with
    | some m =>
      rw [hn] at hs
      exact Or.inr ⟨m, rfl, hs⟩
    | none =>
      rw [hn] at hs
      refine Or.inl ⟨_, rfl, Or.inr ?_⟩
      simp only
      rw [sqlEvents_trans (hg.trans hx) (logGrows_cache_set _ _ _ _), hs, sqlEvents_cache_set]
      rfl

theorem sqlEvents_getStats (w : World) :
    (∃ v, (Task.getStats w).1 = .ok v ∧
      (sqlEvents w (Task.getStats w).2 = [] ∨
        sqlEvents w (Task.getStats w).2 = [.sql sqlStats Task.statsParams none])) ∨
    (∃ m, (Task.getStats w).1 = .error ("Failed to get stats: " ++ m) ∧
      sqlEvents w (Task.getStats w).2 = [.sql sqlStats Task.statsParams (some m)]) := by
  have hg := logGrows_cache_get statsKey w
  have hx := logGrows_execute sqlStats Task.statsParams (cache.get statsKey w).2
  have hs : sqlEvents w (pool.execute sqlStats Task.statsParams (cache.get statsKey w).2).2 =
      [.sql sqlStats Task.statsParams (errorOf (w.db.execute sqlStats Task.statsParams).1)] := by
    rw [sqlEvents_trans hg hx, sqlEvents_cache_get, sqlEvents_execute, cache_get_db]
    rfl
  rw [execute_stats] at hs
  rw [getStats_run]
  split_ifs with ht
  · exact Or.inl ⟨_, rfl, Or.inl (sqlEvents_cache_get _ _)⟩
  · cases hn : w.db.nextFault.1 with
    | some m =>
      rw [hn] at hs
      exact Or.inr ⟨m, rfl, hs⟩
    | none =>
      rw [hn] at hs
      refine Or.inl ⟨_, rfl, Or.inr ?_⟩
      simp only
      rw [sqlEvents_trans (hg.trans hx) (logGrows_cache_set _ _ _ _), hs, sqlEvents_cache_set]
      rfl

theorem sqlEvents_create (taskData : JsObj) (w : World) :
    (∃ v, (Task.create taskData w).1 = .ok v ∧
      sqlEvents w (Task.create taskData w).2 =
        [.sql sqlInsert (Task.insertParams taskData) none]) ∨
    (∃ m, (Task.create taskData w).1 = .error ("Failed to create task: " ++ m) ∧
      sqlEvents w (Task.create taskData w).2 =
        [.sql sqlInsert (Task.insertParams taskData) (some m)]) := by
  have hs := sqlEvents_execute sqlInsert (Task.insertParams taskData) w
  rw [create_run]
  cases he : (w.db.execute sqlInsert (Task.insertParams taskData)).1 with
  | error m =>
    rw [he] at hs
    exact Or.inr ⟨m, rfl, hs⟩
  | ok qr =>
    rw [he] at hs
    refine Or.inl ⟨_, rfl, ?_⟩
    simp only
    rw [sqlEvents_trans (logGrows_execute _ _ _) (logGrows_cache_delPattern _ _), hs,
      sqlEvents_cache_delPattern]
    rfl

theorem sqlEvents_delete (id : String) (w : World) :
    (∃ v, (Task.delete id w).1 = .ok v ∧
      sqlEvents w (Task.delete id w).2 = [.sql sqlDelete [.val (.str id)] none]) ∨
    (∃ m, (Task.delete id w).1 = .error ("Failed to delete task: " ++ m) ∧
      sqlEvents w (Task.delete id w).2 = [.sql sqlDelete [.val (.str id)] (some m)]) := by
  have hs := sqlEvents_execute sqlDelete [.val (.str id)] w
  rw [execute_delete] at hs
  rw [delete_run]
  cases hn : w.db.nextFault.1 with
  | some m =>
    rw [hn] at hs
    exact Or.inr ⟨m, rfl, hs⟩
  | none =>
    rw [hn] at hs
    simp only
    split_ifs
    · exact Or.inl ⟨_, rfl, hs⟩
    · refine Or.inl ⟨_, rfl, ?_⟩
      rw [sqlEvents_trans (logGrows_execute _ _ _) (logGrows_invalidated _ _), hs,
        sqlEvents_invalidated]
      rfl

theorem presentColumns_nil_iff (taskData : JsObj) :
    presentColumns taskData = [] ↔ ∀ c ∈ dataColumns, taskData.get c = .undefined := by
  unfold presentColumns
  rw [List.filter_eq_nil_iff]
  constructor
  · intro h c hc
    simpa using h c hc
  · intro h c hc
    simpa using h c hc

theorem sqlEvents_update (id : String) (taskData : JsObj) (w : World) :
    (presentColumns taskData = [] ∧
      Task.update id taskData w =
        (.error "Failed to update task: No fields to update", w)) ∨
    (∃ v, (Task.update id taskData w).1 = .ok v ∧
      (sqlEvents w (Task.update id taskData w).2 =
          [.sql (Task.updateSql taskData) (Task.updateParams id taskData) none] ∨
        sqlEvents w (Task.update id taskData w).2 =
          [.sql (Task.updateSql taskData) (Task.updateParams id taskData) none,
            .sql sqlSelectById [.val (.str id)] none])) ∨
    (∃ m, (Task.update id taskData w).1 = .error ("Failed to update task: " ++ m) ∧
      sqlEvents w (Task.update id taskData w).2 =
        [.sql (Task.updateSql taskData) (Task.updateParams id taskData) (some m)]) ∨
    (∃ m, (Task.update id taskData w).1 =
        .error ("Failed to update task: " ++ ("Failed to get task: " ++ m)) ∧
      sqlEvents w (Task.update id taskData w).2 =
        [.sql (Task.updateSql taskData) (Task.updateParams id taskData) none,
          .sql sqlSelectById [.val (.str id)] (some m)]) := by
  by_cases hp : presentColumns taskData = []
  · exact Or.inl ⟨hp, update_no_fields id taskData w ((presentColumns_nil_iff _).mp hp)⟩
  · right
    have hs := sqlEvents_execute (Task.updateSql taskData) (Task.updateParams id taskData) w
    have hx := logGrows_execute (Task.updateSql taskData) (Task.updateParams id taskData) w
    rw [update_run id taskData w hp]
    cases he : (w.db.execute (Task.updateSql taskData) (Task.updateParams id taskData)).1 with
    | error m =>
      rw [he] at hs
      exact Or.inr (Or.inl ⟨m, rfl, hs⟩)
    | ok res =>
      rw [he] at hs
      simp only
      split_ifs with ha
      · exact Or.inl ⟨_, rfl, Or.inl hs⟩
      · have hi := logGrows_invalidated id
          (pool.execute (Task.updateSql taskData) (Task.updateParams id taskData) w).2
        have hsi : sqlEvents w (invalidated id
            (pool.execute (Task.updateSql taskData) (Task.updateParams id taskData) w).2) =
            [.sql (Task.updateSql taskData) (Task.updateParams id taskData) none] := by
          rw [sqlEvents_trans hx hi, hs, sqlEvents_invalidated]
          rfl
        generalize invalidated id
          (pool.execute (Task.updateSql taskData) (Task.updateParams id taskData) w).2 = W
          at hi hsi
        have hgl := logGrows_getById id W
        have htr := sqlEvents_trans (hx.trans hi) hgl
        rcases sqlEvents_getById id W with ⟨v, hv, hev⟩ | ⟨m, hm, hev⟩
        · rw [hv]
          refine Or.inl ⟨v, rfl, ?_⟩
          simp only
          rcases hev with hev | hev
          · left
            rw [htr, hsi, hev]
            rfl
          · right
            rw [htr, hsi, hev]
            rfl
        · rw [hm]
          refine Or.inr (Or.inr ⟨m, rfl, ?_⟩)
          simp only
          rw [htr, hsi, hev]
          rfl

/-- C7: whenever a store statement issued by one of the six methods fails,
the call raises: its outcome is an error whose message is the method's
"Failed to ..." text followed by the store's message (for the re-fetch inside
`update`, followed by the text of `getById` and then the store's message); it
is never a value. -/
theorem store_failure_raises (c : Call) (w : World) (sql : String) (params : List Param)
    (m : String) (h : Event.sql sql params (some m) ∈ newEvents w (c.run w).2) :
    (c.run w).1 = .error (c.failureText ++ m) ∨
    (∃ id taskData, c = .update id taskData ∧ sql = sqlSelectById ∧
      (c.run w).1 = .error (c.failureText ++ ("Failed to get task: " ++ m))) := by
  rw [mem_sqlEvents (e := Event.sql sql params (some m)) rfl] at h
  cases c with
  | getAll filters =>
    rcases sqlEvents_getAll filters w with ⟨v, _, hev | hev⟩ | ⟨m1, hm, hev⟩
    · simp [Call.run, hev] at h
    · simp [Call.run, hev] at h
    · simp only [Call.run, hev, List.mem_singleton, Event.sql.injEq, Option.some.injEq] at h
      rw [h.2.2]
      exact Or.inl hm
  | getById id =>
    rcases sqlEvents_getById id w with ⟨v, _, hev | hev⟩ | ⟨m1, hm, hev⟩
    · simp [Call.run, hev] at h
    · simp [Call.run, hev] at h
    · simp only [Call.run, hev, List.mem_singleton, Event.sql.injEq, Option.some.injEq] at h
      rw [h.2.2]
      exact Or.inl hm
  | create taskData =>
    rcases sqlEvents_create taskData w with ⟨v, _, hev⟩ | ⟨m1, hm, hev⟩
    · simp [Call.run, hev] at h
    · simp only [Call.run, hev, List.mem_singleton, Event.sql.injEq, Option.some.injEq] at h
      rw [h.2.2]
      exact Or.inl hm
  | update id taskData =>
    rcases sqlEvents_update id taskData w with
      ⟨_, hu⟩ | ⟨v, _, hev | hev⟩ | ⟨m1, hm, hev⟩ | ⟨m1, hm, hev⟩
    · simp only [Call.run, hu] at h
      unfold sqlEvents at h
      rw [newEvents_self] at h
      simp at h
    · simp [Call.run, hev] at h
    · simp [Call.run, hev] at h
    · simp only [Call.run, hev, List.mem_singleton, Event.sql.injEq, Option.some.injEq] at h
      rw [h.2.2]
      exact Or.inl hm
    · simp only [Call.run, hev, List.mem_cons, List.mem_singleton, Event.sql.injEq,
        Option.some.injEq, List.not_mem_nil, or_false, reduceCtorEq, and_false, false_or] at h
      rw [h.2.2]
      exact Or.inr ⟨id, taskData, rfl, h.1, hm⟩
  | delete id =>
    rcases sqlEvents_delete id w with ⟨v, _, hev⟩ | ⟨m1, hm, hev⟩
    · simp [Call.run, hev] at h
    · simp only [Call.run, hev, List.mem_singleton, Event.sql.injEq, Option.some.injEq] at h
      rw [h.2.2]
      exact Or.inl hm
  | getStats =>
    rcases sqlEvents_getStats w with ⟨v, _, hev | hev⟩ | ⟨m1, hm, hev⟩
    · simp [Call.run, hev] at h
    · simp [Call.run, hev] at h
    · simp only [Call.run, hev, List.mem_singleton, Event.sql.injEq, Option.some.injEq] at h
      rw [h.2.2]
      exact Or.inl hm

theorem store_failure_raises_witness :
    Event.sql sqlSelectById [.val (.str "1")] (some "Connection lost") ∈
      newEvents failingWorld ((Call.getById "1").run failingWorld).2 ∧
    (((Call.getById "1").run failingWorld).1 =
        .error ((Call.getById "1").failureText ++ "Connection lost") ∨
      (∃ id taskData, Call.getById "1" = .update id taskData ∧ sqlSelectById = sqlSelectById ∧
        ((Call.getById "1").run failingWorld).1 =
          .error ((Call.getById "1").failureText ++ ("Failed to get task: " ++ "Connection lost")))) :=
  ⟨by decide,
    store_failure_raises (.getById "1") failingWorld sqlSelectById [.val (.str "1")] "Connection lost"
      (by decide)⟩

/-! ## A cache outage -/

theorem down_next {r : Redis} (h : r.down) : r.nextFault.1 = true ∧ r.nextFault.2.down := by
  obtain ⟨h1, h2⟩ := h
  unfold Redis.nextFault
  cases hf : r.faults with
  | nil => exact ⟨h1, h1, by simp [hf]⟩
  | cons b bs =>
    rw [hf] at h2
    exact ⟨h2 b (by simp), h1, fun c hc => h2 c (by simp [hc])⟩

theorem read_down {r : Redis} (h : r.down) (key : String) : r.read key = Value.null := by
  unfold Redis.read
  rw [(down_next h).1]
  rfl

theorem cache_set_redis_down (key : String) (p : Payload) (ttl : Option Int) (w : World)
    (h : w.redis.down) : (cache.set key p ttl w).2.redis.down := by
  cases p with
  | unserializable => rw [cache_set_unserializable]; exact h
  | value v =>
    rw [cache_set_run]
    simp only [(down_next h).1, true_or, if_true]
    exact (down_next h).2

theorem getById_down (id : String) (w : World) (h : w.redis.down) :
    (Task.getById id w).1 = (Direct.getById id w).1 ∧
      (Task.getById id w).2.db = (Direct.getById id w).2.db := by
  have hd : Direct.getById id w =
      match w.db.nextFault.1 with
      | some m => (.error ("Failed to get task: " ++ m), (pool.execute sqlSelectById [.val (.str id)] w).2)
      | none =>
        match w.db.rows.filter (fun r => readId id = some r.id) with
        | [] => (.ok Value.null, (pool.execute sqlSelectById [.val (.str id)] w).2)
        | row :: _ => (.ok (Value.task row), (pool.execute sqlSelectById [.val (.str id)] w).2) := by
    unfold Direct.getById Js.tryCatch
    simp only [Js.run_bind, execute_fst, execute_selectById]
    cases hn : w.db.nextFault.1 with
    | some m => simp [Js.throw]
    | none =>
      simp only [QueryResult.rowList]
      cases hr : w.db.rows.filter (fun r => readId id = some r.id) <;> simp [pure, Js.pure]
  rw [hd, getById_run, read_down h]
  simp only [Value.truthy, Bool.false_eq_true, if_false]
  cases hn : w.db.nextFault.1 with
  | some m => exact ⟨rfl, by rw [execute_db, execute_db, cache_get_db]⟩
  | none =>
    simp only
    cases hr : w.db.rows.filter (fun r => readId id = some r.id) with
    | nil => exact ⟨rfl, by rw [execute_db, execute_db, cache_get_db]⟩
    | cons row t =>
      exact ⟨rfl, by simp only [cache_set_db, execute_db, cache_get_db]⟩

theorem direct_getById_db (id : String) (w w1 : World) (h : w.db = w1.db) :
    (Direct.getById id w).1 = (Direct.getById id w1).1 ∧
      (Direct.getById id w).2.db = (Direct.getById id w1).2.db := by
  unfold Direct.getById Js.tryCatch
  simp only [Js.run_bind, execute_fst, execute_db, h]
  cases hx : (w1.db.execute sqlSelectById [.val (.str id)]).1 with
  | error m => simp [Js.throw, execute_db, h]
  | ok res =>
    simp only
    cases res.rowList <;> simp [pure, Js.pure, execute_db, h]

theorem getAll_down (filters : JsObj) (w : World) (h : w.redis.down) :
    (Task.getAll filters w).1 = (Direct.getAll filters w).1 ∧
      (Task.getAll filters w).2.db = (Direct.getAll filters w).2.db := by
  have hd : Direct.getAll filters w =
      match w.db.nextFault.1 with
      | some m =>
        (.error ("Failed to get tasks: " ++ m),
          (pool.execute (Task.listQuery filters) (Task.listParams filters) w).2)
      | none =>
        (.ok (Value.tasks (listRows filters w.db.rows)),
          (pool.execute (Task.listQuery filters) (Task.listParams filters) w).2) := by
    unfold Direct.getAll Js.tryCatch
    simp only [Js.run_bind, execute_fst, execute_list]
    cases hn : w.db.nextFault.1 with
    | some m => simp [Js.throw]
    | none => simp [QueryResult.rowList, pure, Js.pure]
  rw [hd, getAll_run, read_down h]
  simp only [Value.truthy, Bool.false_eq_true, if_false]
  cases hn : w.db.nextFault.1 with
  | some m => exact ⟨rfl, by rw [execute_db, execute_db, cache_get_db]⟩
  | none => exact ⟨rfl, by simp only [cache_set_db, execute_db, cache_get_db]⟩

theorem getStats_down (w : World) (h : w.redis.down) :
    (Task.getStats w).1 = (Direct.getStats w).1 ∧
      (Task.getStats w).2.db = (Direct.getStats w).2.db := by
  have hd : Direct.getStats w =
      match w.db.nextFault.1 with
      | some m =>
        (.error ("Failed to get stats: " ++ m), (pool.execute sqlStats Task.statsParams w).2)
      | none =>
        (.ok (Value.stats (tableStats w.db)), (pool.execute sqlStats Task.statsParams w).2) := by
    unfold Direct.getStats Js.tryCatch
    simp only [Js.run_bind, execute_fst, execute_stats]
    cases hn : w.db.nextFault.1 with
    | some m => simp [Js.throw]
    | none => simp [QueryResult.firstStats, Js.pure, pure, tableStats]
  rw [hd, getStats_run, read_down h]
  simp only [Value.truthy, Bool.false_eq_true, if_false]
  cases hn : w.db.nextFault.1 with
  | some m => exact ⟨rfl, by rw [execute_db, execute_db, cache_get_db]⟩
  | none => exact ⟨rfl, by simp only [cache_set_db, execute_db, cache_get_db]⟩

theorem create_down (taskData : JsObj) (w : World) :
    (Task.create taskData w).1 = (Direct.create taskData w).1 ∧
      (Task.create taskData w).2.db = (Direct.create taskData w).2.db := by
  have hd : Direct.create taskData w =
      match (w.db.execute sqlInsert (Task.insertParams taskData)).1 with
      | .ok res =>
        (.ok (Value.created
          { id := res.insertId
            title := taskData.get "title"
            description := taskData.get "description"
            status := (taskData.get "status").orElse (.str "pending")
            priority := (taskData.get "priority").orElse (.str "medium")
            due_date := taskData.get "due_date" }),
          (pool.execute sqlInsert (Task.insertParams taskData) w).2)
      | .error m =>
        (.error ("Failed to create task: " ++ m),
          (pool.execute sqlInsert (Task.insertParams taskData) w).2) := by
    unfold Direct.create Js.tryCatch
    simp only [Js.run_bind, execute_fst]
    cases (w.db.execute sqlInsert (Task.insertParams taskData)).1 with
    | error m => simp [Js.throw]
    | ok res => simp [pure, Js.pure]
  rw [hd, create_run]
  cases (w.db.execute sqlInsert (Task.insertParams taskData)).1 with
  | error m => exact ⟨rfl, rfl⟩
  | ok res => exact ⟨rfl, by simp only [cache_delPattern_db]⟩

theorem invalidated_db (id : String) (w : World) : (invalidated id w).db = w.db := by
  unfold invalidated
  rw [cache_delPattern_db, cache_del_db]

theorem delete_down (id : String) (w : World) :
    (Task.delete id w).1 = (Direct.delete id w).1 ∧
      (Task.delete id w).2.db = (Direct.delete id w).2.db := by
  have hd : Direct.delete id w =
      match w.db.nextFault.1 with
      | some m =>
        (.error ("Failed to delete task: " ++ m), (pool.execute sqlDelete [.val (.str id)] w).2)
      | none =>
        if w.db.rows.countP (fun r => readId id = some r.id) = 0 then
          (.ok (Value.bool false), (pool.execute sqlDelete [.val (.str id)] w).2)
        else (.ok (Value.bool true), (pool.execute sqlDelete [.val (.str id)] w).2) := by
    unfold Direct.delete Js.tryCatch
    simp only [Js.run_bind, execute_fst, execute_delete]
    cases hn : w.db.nextFault.1 with
    | some m => simp [Js.throw]
    | none =>
      simp only [QueryResult.affectedRows]
      split_ifs <;> simp [pure, Js.pure]
  rw [hd, delete_run]
  cases hn : w.db.nextFault.1 with
  | some m => exact ⟨rfl, rfl⟩
  | none =>
    simp only
    split_ifs
    · exact ⟨rfl, rfl⟩
    · exact ⟨rfl, invalidated_db _ _⟩

theorem invalidated_down (id : String) (w : World) (h : w.redis.down) :
    (invalidated id w).redis.down := by
  unfold invalidated
  have h1 : (cache.del (taskKey id) w).2.redis.down := by
    rw [cache_del_run]
    simp only [(down_next h).1, if_true]
    exact (down_next h).2
  rw [cache_delPattern_run]
  simp only [(down_next h1).1, if_true]
  exact (down_next h1).2

theorem update_down (id : String) (taskData : JsObj) (w : World) (h : w.redis.down) :
    (Task.update id taskData w).1 = (Direct.update id taskData w).1 ∧
      (Task.update id taskData w).2.db = (Direct.update id taskData w).2.db := by
  by_cases hp : presentColumns taskData = []
  · have hd : Direct.update id taskData w =
        (.error "Failed to update task: No fields to update", w) := by
      unfold Direct.update Js.tryCatch
      simp [updateParts_eq, hp, Js.throw]
    rw [hd, update_no_fields id taskData w ((presentColumns_nil_iff _).mp hp)]
    exact ⟨rfl, rfl⟩
  · have hl : ¬ ((presentColumns taskData).map setItem).length = 0 := by
      simpa using hp
    have hd : Direct.update id taskData w =
        match (w.db.execute (Task.updateSql taskData) (Task.updateParams id taskData)).1 with
        | .error m =>
          (.error ("Failed to update task: " ++ m),
            (pool.execute (Task.updateSql taskData) (Task.updateParams id taskData) w).2)
        | .ok res =>
          if res.affectedRows = 0 then
            (.ok Value.null,
              (pool.execute (Task.updateSql taskData) (Task.updateParams id taskData) w).2)
          else
            match (Direct.getById id
                (pool.execute (Task.updateSql taskData) (Task.updateParams id taskData) w).2).1 with
            | .ok v =>
              (.ok v, (Direct.getById id
                (pool.execute (Task.updateSql taskData) (Task.updateParams id taskData) w).2).2)
            | .error m =>
              (.error ("Failed to update task: " ++ m), (Direct.getById id
                (pool.execute (Task.updateSql taskData) (Task.updateParams id taskData)
                  w).2).2) := by
      unfold Direct.update Js.tryCatch Task.updateSql Task.updateParams
      simp only [updateParts_eq, hl, if_false]
      generalize sqlUpdate ((presentColumns taskData).map setItem) = sql
      generalize (presentColumns taskData).map (fun c => Param.val (taskData.get c)) ++
        [Param.val (.str id)] = ps
      simp only [Js.run_bind, execute_fst]
      cases hr : (w.db.execute sql ps).1 with
      | error m => simp [Js.throw]
      | ok res =>
        simp only
        split_ifs with hc
        · simp [pure, Js.pure]
        · cases hg : (Direct.getById id (pool.execute sql ps w).2).1 with
          | ok v => simp
          | error m => simp [Js.throw]
    rw [hd, update_run id taskData w hp]
    cases he : (w.db.execute (Task.updateSql taskData) (Task.updateParams id taskData)).1 with
    | error m => exact ⟨rfl, rfl⟩
    | ok res =>
      simp only
      split_ifs with ha
      · exact ⟨rfl, rfl⟩
      · have hdn := invalidated_down id
          (pool.execute (Task.updateSql taskData) (Task.updateParams id taskData) w).2 h
        have hdb := invalidated_db id
          (pool.execute (Task.updateSql taskData) (Task.updateParams id taskData) w).2
        generalize invalidated id
          (pool.execute (Task.updateSql taskData) (Task.updateParams id taskData) w).2 = W
          at hdn hdb
        obtain ⟨g1, g2⟩ := getById_down id W hdn
        obtain ⟨d1, d2⟩ := direct_getById_db id W
          (pool.execute (Task.updateSql taskData) (Task.updateParams id taskData) w).2 hdb
        rw [g1, d1]
        cases hg : (Direct.getById id
          (pool.execute (Task.updateSql taskData) (Task.updateParams id taskData) w).2).1 with
        | ok v => exact ⟨rfl, g2.trans d2⟩
        | error m => exact ⟨rfl, g2.trans d2⟩

theorem mem_of_sqlEvents {w w1 : World} {l : List Event} {e : Event}
    (h : sqlEvents w w1 = l) (hm : e ∈ l) : e ∈ newEvents w w1 := by
  rw [← h] at hm
  exact (List.mem_filter.mp hm).1

theorem raise_has_cause (c : Call) (w : World) (e : String) (h : (c.run w).1 = .error e) :
    (∃ sql params m, Event.sql sql params (some m) ∈ newEvents w (c.run w).2) ∨
    (∃ id taskData, c = .update id taskData ∧ presentColumns taskData = []) := by
  cases c with
  | getAll filters =>
    rcases sqlEvents_getAll filters w with ⟨v, hv, _⟩ | ⟨m, _, hev⟩
    · simp [Call.run, hv] at h
    · exact Or.inl ⟨_, _, m, mem_of_sqlEvents hev (List.mem_singleton.mpr rfl)⟩
  | getById id =>
    rcases sqlEvents_getById id w with ⟨v, hv, _⟩ | ⟨m, _, hev⟩
    · simp [Call.run, hv] at h
    · exact Or.inl ⟨_, _, m, mem_of_sqlEvents hev (List.mem_singleton.mpr rfl)⟩
  | create taskData =>
    rcases sqlEvents_create taskData w with ⟨v, hv, _⟩ | ⟨m, _, hev⟩
    · simp [Call.run, hv] at h
    · exact Or.inl ⟨_, _, m, mem_of_sqlEvents hev (List.mem_singleton.mpr rfl)⟩
  | update id taskData =>
    rcases sqlEvents_update id taskData w with
      ⟨hp, _⟩ | ⟨v, hv, _⟩ | ⟨m, _, hev⟩ | ⟨m, _, hev⟩
    · exact Or.inr ⟨id, taskData, rfl, hp⟩
    · simp [Call.run, hv] at h
    · exact Or.inl ⟨_, _, m, mem_of_sqlEvents hev (List.mem_singleton.mpr rfl)⟩
    · exact Or.inl ⟨sqlSelectById, [.val (.str id)], m,
        mem_of_sqlEvents hev (List.mem_cons_of_mem _ (List.mem_singleton.mpr rfl))⟩
  | delete id =>
    rcases sqlEvents_delete id w with ⟨v, hv, _⟩ | ⟨m, _, hev⟩
    · simp [Call.run, hv] at h
    · exact Or.inl ⟨_, _, m, mem_of_sqlEvents hev (List.mem_singleton.mpr rfl)⟩
  | getStats =>
    rcases sqlEvents_getStats w with ⟨v, hv, _⟩ | ⟨m, _, hev⟩
    · simp [Call.run, hv] at h
    · exact Or.inl ⟨_, _, m, mem_of_sqlEvents hev (List.mem_singleton.mpr rfl)⟩

/-- C1 (as amended): when Redis is down (every cache command fails, so that
`cache.get` yields `null` and `cache.set`, `cache.del`, `cache.delPattern`
yield `false`), each of the six methods returns the same outcome and leaves
the store in the same state as the method with every cache call removed; and
it raises only if a store statement it issued failed or, for `update`, if no
field is present. -/
theorem outage_refines_direct (c : Call) (w : World) (hd : w.redis.down) :
    (c.run w).1 = (c.direct w).1 ∧ (c.run w).2.db = (c.direct w).2.db ∧
    ∀ e, (c.run w).1 = .error e →
      (∃ sql params m, Event.sql sql params (some m) ∈ newEvents w (c.run w).2) ∨
      (∃ id taskData, c = .update id taskData ∧ presentColumns taskData = []) := by
  refine ⟨?_, ?_, fun e he => raise_has_cause c w e he⟩
  · cases c with
    | getAll filters => exact (getAll_down filters w hd).1
    | getById id => exact (getById_down id w hd).1
    | create taskData => exact (create_down taskData w).1
    | update id taskData => exact (update_down id taskData w hd).1
    | delete id => exact (delete_down id w).1
    | getStats => exact (getStats_down w hd).1
  · cases c with
    | getAll filters => exact (getAll_down filters w hd).2
    | getById id => exact (getById_down id w hd).2
    | create taskData => exact (create_down taskData w).2
    | update id taskData => exact (update_down id taskData w hd).2
    | delete id => exact (delete_down id w).2
    | getStats => exact (getStats_down w hd).2

theorem outage_refines_direct_witness :
    downWorld.redis.down ∧
    ((Call.update "1" completedUpdate).run downWorld).1 =
      ((Call.update "1" completedUpdate).direct downWorld).1 ∧
    ((Call.update "1" completedUpdate).run downWorld).2.db =
      ((Call.update "1" completedUpdate).direct downWorld).2.db ∧
    ∀ e, ((Call.update "1" completedUpdate).run downWorld).1 = .error e →
      (∃ sql params m, Event.sql sql params (some m) ∈
        newEvents downWorld ((Call.update "1" completedUpdate).run downWorld).2) ∨
      (∃ id taskData, Call.update "1" completedUpdate = .update id taskData ∧
        presentColumns taskData = []) :=
  ⟨by decide, outage_refines_direct (.update "1" completedUpdate) downWorld (by decide)⟩

/-- C1 (counterexample to the claim as stated): with Redis down, `update`
called with no field present raises although no store statement failed: none
was issued at all. -/
theorem outage_update_raises_without_store_failure :
    downWorld.redis.down ∧
    (Task.update "1" JsObj.empty downWorld).1 =
      .error "Failed to update task: No fields to update" ∧
    newEvents downWorld (Task.update "1" JsObj.empty downWorld).2 = [] := by
  decide

/-! ## Write, then invalidate -/

theorem isWriteSql_update (taskData : JsObj) (h : presentColumns taskData ≠ []) :
    isWriteSql (Task.updateSql taskData) = true := by
  unfold isWriteSql Task.updateSql
  simp only [Bool.or_eq_true, List.any_eq_true, decide_eq_true_eq]
  exact Or.inr ⟨_, presentColumns_mem taskData h, rfl⟩

theorem invalidated_events (id : String) (w : World) :
    ∀ e ∈ newEvents w (invalidated id w), e.isSql = false := by
  unfold invalidated
  rw [newEvents_trans (logGrows_cache_del (taskKey id) w) (logGrows_cache_delPattern _ _)]
  intro e he
  rcases List.mem_append.mp he with h | h
  · exact cache_del_events _ _ e h
  · exact cache_delPattern_events _ _ e h

theorem getById_events (id : String) (w : World) :
    ∀ e ∈ newEvents w (Task.getById id w).2,
      e.isSql = false ∨ ∃ err, e = .sql sqlSelectById [.val (.str id)] err := by
  intro e he
  by_cases hs : e.isSql = true
  · right
    have hm := (mem_sqlEvents hs).mp he
    rcases sqlEvents_getById id w with ⟨v, _, hev | hev⟩ | ⟨m, _, hev⟩
    · rw [hev] at hm
      simp at hm
    · rw [hev] at hm
      exact ⟨none, List.mem_singleton.mp hm⟩
    · rw [hev] at hm
      exact ⟨some m, List.mem_singleton.mp hm⟩
  · left
    simpa using hs

/-- The shape of the trace of a mutating call: nothing at all (an `update`
without fields), or the write statement first and, only if it succeeded,
further events none of which is a write. -/
theorem mutation_trace (m : Mutation) (w : World) :
    newEvents w (m.run w).2 = [] ∨
    ∃ sql params err rest,
      newEvents w (m.run w).2 = .sql sql params err :: rest ∧ isWriteSql sql = true ∧
      (err ≠ none → rest = []) ∧
      ∀ e ∈ rest, e.isSql = false ∨ ∃ p r, e = .sql sqlSelectById p r := by
  cases m with
  | create taskData =>
    right
    simp only [Mutation.run]
    rw [create_run]
    cases he : (w.db.execute sqlInsert (Task.insertParams taskData)).1 with
    | error msg =>
      refine ⟨sqlInsert, Task.insertParams taskData, some msg, [], ?_, by decide,
        fun _ => rfl, by simp⟩
      simp only
      rw [newEvents_execute, he]
      rfl
    | ok res =>
      refine ⟨sqlInsert, Task.insertParams taskData, none,
        newEvents (pool.execute sqlInsert (Task.insertParams taskData) w).2
          (cache.delPattern listPattern
            (pool.execute sqlInsert (Task.insertParams taskData) w).2).2,
        ?_, by decide, fun h => absurd rfl h, ?_⟩
      · simp only
        rw [newEvents_trans (logGrows_execute _ _ _) (logGrows_cache_delPattern _ _),
          newEvents_execute, he]
        rfl
      · intro e hm
        exact Or.inl (cache_delPattern_events _ _ e hm)
  | delete id =>
    right
    simp only [Mutation.run]
    have hx := newEvents_execute sqlDelete [.val (.str id)] w
    rw [execute_delete] at hx
    rw [delete_run]
    cases hn : w.db.nextFault.1 with
    | some msg =>
      rw [hn] at hx
      exact ⟨sqlDelete, [.val (.str id)], some msg, [], hx, by decide, fun _ => rfl, by simp⟩
    | none =>
      rw [hn] at hx
      simp only
      split_ifs
      · exact ⟨sqlDelete, [.val (.str id)], none, [], hx, by decide, fun _ => rfl, by simp⟩
      · refine ⟨sqlDelete, [.val (.str id)], none,
          newEvents (pool.execute sqlDelete [.val (.str id)] w).2
            (invalidated id (pool.execute sqlDelete [.val (.str id)] w).2),
          ?_, by decide, fun h => absurd rfl h, ?_⟩
        · rw [newEvents_trans (logGrows_execute _ _ _) (logGrows_invalidated _ _), hx]
          rfl
        · intro e hm
          exact Or.inl (invalidated_events _ _ e hm)
  | update id taskData =>
    simp only [Mutation.run]
    by_cases hp : presentColumns taskData = []
    · left
      rw [update_no_fields id taskData w ((presentColumns_nil_iff _).mp hp)]
      exact newEvents_self w
    · right
      have hx := newEvents_execute (Task.updateSql taskData) (Task.updateParams id taskData) w
      have hg := logGrows_execute (Task.updateSql taskData) (Task.updateParams id taskData) w
      rw [update_run id taskData w hp]
      cases he : (w.db.execute (Task.updateSql taskData) (Task.updateParams id taskData)).1 with
      | error msg =>
        rw [he] at hx
        exact ⟨_, _, some msg, [], hx, isWriteSql_update taskData hp, fun _ => rfl, by simp⟩
      | ok res =>
        rw [he] at hx
        simp only
        split_ifs
        · exact ⟨_, _, none, [], hx, isWriteSql_update taskData hp, fun _ => rfl, by simp⟩
        · have hi := logGrows_invalidated id
            (pool.execute (Task.updateSql taskData) (Task.updateParams id taskData) w).2
          have hev := invalidated_events id
            (pool.execute (Task.updateSql taskData) (Task.updateParams id taskData) w).2
          generalize invalidated id
            (pool.execute (Task.updateSql taskData) (Task.updateParams id taskData) w).2 = W
            at hi hev
          have hgl := logGrows_getById id W
          have hge := getById_events id W
          have hfinal : newEvents w (Task.getById id W).2 =
              Event.sql (Task.updateSql taskData) (Task.updateParams id taskData) none ::
                (newEvents (pool.execute (Task.updateSql taskData)
                  (Task.updateParams id taskData) w).2 W ++ newEvents W (Task.getById id W).2) := by
            rw [newEvents_trans hg (hi.trans hgl), newEvents_trans hi hgl, hx]
            rfl
          have hrest : ∀ e ∈ newEvents (pool.execute (Task.updateSql taskData)
                (Task.updateParams id taskData) w).2 W ++ newEvents W (Task.getById id W).2,
              e.isSql = false ∨ ∃ p r, e = .sql sqlSelectById p r := by
            intro e hm
            rcases List.mem_append.mp hm with h | h
            · exact Or.inl (hev e h)
            · rcases hge e h with h1 | ⟨err, h1⟩
              · exact Or.inl h1
              · exact Or.inr ⟨_, _, h1⟩
          cases hres : (Task.getById id W).1 with
          | ok v =>
            exact ⟨_, _, none, _, hfinal, isWriteSql_update taskData hp,
              fun h => absurd rfl h, hrest⟩
          | error msg =>
            exact ⟨_, _, none, _, hfinal, isWriteSql_update taskData hp,
              fun h => absurd rfl h, hrest⟩

/-- C6: in the trace of a `create`, `update` or `delete` call, every cache
deletion (the `DEL` of `cache.del`, the `KEYS` and `DEL` of `cache.delPattern`)
comes after the call's store write, which is the first event and succeeded;
and if the store write failed, the call issued no cache deletion at all. -/
theorem write_then_invalidate (m : Mutation) (w : World) :
    (∀ pre e post, newEvents w (m.run w).2 = pre ++ e :: post → e.isInvalidation = true →
      ∃ sql params, pre.head? = some (.sql sql params none) ∧ isWriteSql sql = true) ∧
    (∀ sql params msg, isWriteSql sql = true →
      Event.sql sql params (some msg) ∈ newEvents w (m.run w).2 →
      ∀ e ∈ newEvents w (m.run w).2, e.isInvalidation = false) := by
  rcases mutation_trace m w with h | ⟨sql, params, err, rest, h, hw, herr, hrest⟩
  · rw [h]
    refine ⟨fun pre e post hp _ => ?_, fun _ _ _ _ hm => by simp at hm⟩
    have := congrArg List.length hp
    simp only [List.length_nil, List.length_append, List.length_cons] at this
    omega
  · rw [h]
    refine ⟨?_, ?_⟩
    · intro pre e post hp hinv
      cases pre with
      | nil =>
        simp only [List.nil_append, List.cons.injEq] at hp
        rw [← hp.1] at hinv
        simp [Event.isInvalidation] at hinv
      | cons a pre1 =>
        simp only [List.cons_append, List.cons.injEq] at hp
        obtain ⟨ha, hr⟩ := hp
        cases err with
        | none => exact ⟨sql, params, by rw [← ha]; rfl, hw⟩
        | some msg =>
          have := herr (by simp)
          rw [this] at hr
          have := congrArg List.length hr
          simp only [List.length_nil, List.length_append, List.length_cons] at this
          omega
    · intro s p msg hs hm e he
      have hhead : err ≠ none := by
        rcases List.mem_cons.mp hm with h1 | h1
        · simp only [Event.sql.injEq] at h1
          rw [← h1.2.2]
          simp
        · rcases hrest _ h1 with h2 | ⟨p1, r1, h2⟩
          · simp [Event.isSql] at h2
          · simp only [Event.sql.injEq] at h2
            rw [h2.1] at hs
            exact absurd hs (by decide)
      rw [herr hhead] at he
      simp only [List.mem_singleton] at he
      rw [he]
      rfl

/-! ## Coherence of cache and store -/

theorem taskKey_inj {a b : String} (h : taskKey a = taskKey b) : a = b := by
  have h1 := congrArg String.data h
  rw [taskKey_data, taskKey_data] at h1
  simp only [List.cons.injEq, true_and] at h1
  exact String.ext h1

theorem coherent_same {w w1 : World} (hc : Coherent w)
    (he : ∀ key, w1.redis.entry key = w.redis.entry key) (hr : w1.db.rows = w.db.rows) :
    Coherent w1 := by
  obtain ⟨h1, h2⟩ := hc
  refine ⟨fun id e h => ?_, fun f e h => ?_⟩
  · rw [he] at h
    rw [hr]
    exact h1 id e h
  · rw [he] at h
    rw [hr]
    exact h2 f e h

theorem cache_set_entry (k : String) (v : Value) (ttl : Option Int) (w : World)
    (hh : w.redis.healthy) (key : String) :
    (cache.set k (.value v) ttl w).2.redis.entry key = w.redis.entry key ∨
    (key = k ∧ (cache.set k (.value v) ttl w).2.redis.entry key =
      some ⟨k, ttl.getD (defaultTtl w.cacheTtlEnv), .json v⟩) := by
  by_cases hk : key = k
  · obtain ⟨_, h2⟩ := cache_set_healthy k v ttl w hh
    unfold Redis.entry
    rw [h2]
    split_ifs
    · exact Or.inl rfl
    · right
      refine ⟨hk, ?_⟩
      rw [hk]
      simp
  · exact Or.inl ((cache_set_frame k v ttl w hh).2 key hk)

theorem listRows_congr {f g : JsObj} (h : listKey f = listKey g) (rows : List Row) :
    listRows f rows = listRows g rows := by
  unfold listRows
  rw [listKey_get h "status", listKey_get h "priority"]

theorem coherent_set_task (id : String) (row : Row) (ttl : Option Int) {w W : World}
    (hc : Coherent w) (he : ∀ key, W.redis.entry key = w.redis.entry key)
    (hr : W.db.rows = w.db.rows) (hh : W.redis.healthy)
    (hrow : (w.db.rows.filter (fun r => readId id = some r.id)).head? = some row) :
    Coherent (cache.set (taskKey id) (.value (.task row)) ttl W).2 := by
  have hW := coherent_same hc he hr
  have hdb : (cache.set (taskKey id) (.value (.task row)) ttl W).2.db.rows = w.db.rows := by
    rw [cache_set_db, hr]
  refine ⟨fun id1 e h => ?_, fun f e h => ?_⟩
  · rw [hdb]
    rcases cache_set_entry (taskKey id) (.task row) ttl W hh (taskKey id1) with h1 | ⟨hk, h1⟩
    · rw [h1] at h
      have := hW.1 id1 e h
      rwa [hr] at this
    · rw [h1] at h
      simp only [Option.some.injEq] at h
      rw [taskKey_inj hk, ← h]
      exact ⟨row, hrow, rfl⟩
  · rw [hdb]
    rcases cache_set_entry (taskKey id) (.task row) ttl W hh (listKey f) with h1 | ⟨hk, _⟩
    · rw [h1] at h
      have := hW.2 f e h
      rwa [hr] at this
    · exact absurd hk.symm (taskKey_ne_listKey id f)

theorem coherent_set_list (filters : JsObj) (ttl : Option Int) {w W : World}
    (hc : Coherent w) (he : ∀ key, W.redis.entry key = w.redis.entry key)
    (hr : W.db.rows = w.db.rows) (hh : W.redis.healthy) :
    Coherent (cache.set (listKey filters)
      (.value (.tasks (listRows filters w.db.rows))) ttl W).2 := by
  have hW := coherent_same hc he hr
  have hdb : (cache.set (listKey filters)
      (.value (.tasks (listRows filters w.db.rows))) ttl W).2.db.rows = w.db.rows := by
    rw [cache_set_db, hr]
  refine ⟨fun id1 e h => ?_, fun f e h => ?_⟩
  · rw [hdb]
    rcases cache_set_entry (listKey filters) (.tasks (listRows filters w.db.rows)) ttl W hh
      (taskKey id1) with h1 | ⟨hk, _⟩
    · rw [h1] at h
      have := hW.1 id1 e h
      rwa [hr] at this
    · exact absurd hk (taskKey_ne_listKey id1 filters)
  · rw [hdb]
    rcases cache_set_entry (listKey filters) (.tasks (listRows filters w.db.rows)) ttl W hh
      (listKey f) with h1 | ⟨hk, h1⟩
    · rw [h1] at h
      have := hW.2 f e h
      rwa [hr] at this
    · rw [h1] at h
      simp only [Option.some.injEq] at h
      rw [← h, listRows_congr hk]

theorem coherent_set_stats (v : Value) (ttl : Option Int) {w W : World}
    (hc : Coherent w) (he : ∀ key, W.redis.entry key = w.redis.entry key)
    (hr : W.db.rows = w.db.rows) (hh : W.redis.healthy) :
    Coherent (cache.set statsKey (.value v) ttl W).2 := by
  have hW := coherent_same hc he hr
  have hf := (cache_set_frame statsKey v ttl W hh).2
  refine ⟨fun id1 e h => ?_, fun f e h => ?_⟩
  · rw [hf _ (fun hk => statsKey_ne_taskKey id1 hk.symm)] at h
    rw [cache_set_db]
    exact hW.1 id1 e h
  · rw [hf _ (listKey_ne_statsKey f)] at h
    rw [cache_set_db]
    exact hW.2 f e h

theorem execute_error_rows {sql : String} {params : List Param} {db : Db} {m : String}
    (h : (db.execute sql params).1 = .error m) : (db.execute sql params).2.rows = db.rows := by
  rw [execute_eq] at h ⊢
  split_ifs at h ⊢ with hu
  · rfl
  · cases hn : db.nextFault.1 with
    | some m1 => exact (nextFault_db db).1
    | none =>
      rw [hn] at h
      simp only at h ⊢
      cases hr : Db.run sql params db.nextFault.2 with
      | error m1 => exact (nextFault_db db).1
      | ok p => rw [hr] at h; simp at h

theorem select_rows (id : String) (db : Db) :
    (db.execute sqlSelectById [.val (.str id)]).2.rows = db.rows := by
  rw [execute_selectById]
  cases db.nextFault.1 <;> exact (nextFault_db db).1

theorem list_rows (filters : JsObj) (db : Db) :
    (db.execute (Task.listQuery filters) (Task.listParams filters)).2.rows = db.rows := by
  rw [execute_list]
  cases db.nextFault.1 <;> exact (nextFault_db db).1

theorem stats_rows (db : Db) : (db.execute sqlStats Task.statsParams).2.rows = db.rows := by
  rw [execute_stats]
  cases db.nextFault.1 <;> exact (nextFault_db db).1

theorem getById_coherent (id : String) (w : World) (hh : w.redis.healthy) (hc : Coherent w) :
    Coherent (Task.getById id w).2 := by
  obtain ⟨g1, g2⟩ := cache_get_frame (taskKey id) w hh
  have hWe : ∀ key, (pool.execute sqlSelectById [.val (.str id)]
      (cache.get (taskKey id) w).2).2.redis.entry key = w.redis.entry key := g2
  have hWr : (pool.execute sqlSelectById [.val (.str id)] (cache.get (taskKey id) w).2).2.db.rows =
      w.db.rows := by
    rw [execute_db, cache_get_db, select_rows]
  rw [getById_run]
  split_ifs
  · exact coherent_same hc g2 (by rw [cache_get_db])
  · cases hn : w.db.nextFault.1 with
    | some m => exact coherent_same hc hWe hWr
    | none =>
      simp only
      cases hr : w.db.rows.filter (fun r => readId id = some r.id) with
      | nil => exact coherent_same hc hWe hWr
      | cons row t =>
        exact coherent_set_task id row none hc hWe hWr g1 (by rw [hr]; rfl)

theorem getAll_coherent (filters : JsObj) (w : World) (hh : w.redis.healthy)
    (hc : Coherent w) : Coherent (Task.getAll filters w).2 := by
  obtain ⟨g1, g2⟩ := cache_get_frame (listKey filters) w hh
  have hWe : ∀ key, (pool.execute (Task.listQuery filters) (Task.listParams filters)
      (cache.get (listKey filters) w).2).2.redis.entry key = w.redis.entry key := g2
  have hWr : (pool.execute (Task.listQuery filters) (Task.listParams filters)
      (cache.get (listKey filters) w).2).2.db.rows = w.db.rows := by
    rw [execute_db, cache_get_db, list_rows]
  rw [getAll_run]
  split_ifs
  · exact coherent_same hc g2 (by rw [cache_get_db])
  · cases hn : w.db.nextFault.1 with
    | some m => exact coherent_same hc hWe hWr
    | none => exact coherent_set_list filters none hc hWe hWr g1

theorem getStats_coherent (w : World) (hh : w.redis.healthy) (hc : Coherent w) :
    Coherent (Task.getStats w).2 := by
  obtain ⟨g1, g2⟩ := cache_get_frame statsKey w hh
  have hWe : ∀ key, (pool.execute sqlStats Task.statsParams
      (cache.get statsKey w).2).2.redis.entry key = w.redis.entry key := g2
  have hWr : (pool.execute sqlStats Task.statsParams (cache.get statsKey w).2).2.db.rows =
      w.db.rows := by
    rw [execute_db, cache_get_db, stats_rows]
  rw [getStats_run]
  split_ifs
  · exact coherent_same hc g2 (by rw [cache_get_db])
  · cases hn : w.db.nextFault.1 with
    | some m => exact coherent_same hc hWe hWr
    | none => exact coherent_set_stats _ (some 60) hc hWe hWr g1

theorem head?_filter_append (rows : List Row) (row r : Row) (p : Row → Bool)
    (h : (rows.filter p).head? = some r) :
    ((rows ++ [row]).filter p).head? = some r := by
  rw [List.filter_append]
  cases hf : rows.filter p with
  | nil => rw [hf] at h; simp at h
  | cons a t =>
    rw [hf] at h
    simpa using h

theorem create_coherent (taskData : JsObj) (w : World) (hh : w.redis.healthy)
    (hc : Coherent w) : Coherent (Task.create taskData w).2 := by
  cases hres : (Task.create taskData w).1 with
  | error m =>
    have hw : (Task.create taskData w).2 =
        (pool.execute sqlInsert (Task.insertParams taskData) w).2 := by
      rw [create_run] at hres ⊢
      cases he : (w.db.execute sqlInsert (Task.insertParams taskData)).1 with
      | error m1 => rfl
      | ok res => rw [he] at hres; simp at hres
    have he : ∃ m1, (w.db.execute sqlInsert (Task.insertParams taskData)).1 = .error m1 := by
      rw [create_run] at hres
      cases he : (w.db.execute sqlInsert (Task.insertParams taskData)).1 with
      | error m1 => exact ⟨m1, rfl⟩
      | ok res => rw [he] at hres; simp at hres
    obtain ⟨m1, he⟩ := he
    rw [hw]
    exact coherent_same hc (fun _ => rfl) (by rw [execute_db]; exact execute_error_rows he)
  | ok res =>
    have hfull : Task.create taskData w = (.ok res, (Task.create taskData w).2) :=
      Prod.ext hres rfl
    obtain ⟨row, hrows, _⟩ := create_ok hfull
    have hw := create_ok_world hfull
    obtain ⟨_, hent⟩ := cache_delPattern_healthy
      (pool.execute sqlInsert (Task.insertParams taskData) w).2 hh
    rw [← hw, execute_redis] at hent
    refine ⟨fun id e h => ?_, fun f e h => ?_⟩
    · unfold Redis.entry at h
      rw [hent, entry_filter_list _ _ (isListKey_taskKey id)] at h
      obtain ⟨r, hr, hd⟩ := hc.1 id e h
      exact ⟨r, by rw [hrows]; exact head?_filter_append _ _ _ _ hr, hd⟩
    · unfold Redis.entry at h
      rw [hent, find?_filter_none _ _ _ (by
        intro x hx
        simp only [decide_eq_true_eq] at hx
        simp [hx, isListKey_listKey])] at h
      simp at h

theorem coherent_invalidated (id : String) {w W : World} (hc : Coherent w)
    (hre : W.redis = w.redis) (hh : w.redis.healthy) (hsole : SoleSpelling id w)
    (hrows : ∀ j : Option Nat, j ≠ readId id →
      W.db.rows.filter (fun r => j = some r.id) = w.db.rows.filter (fun r => j = some r.id)) :
    Coherent (invalidated id W) := by
  have hW : W.redis.healthy := by rw [hre]; exact hh
  obtain ⟨_, hf⟩ := invalidated_frame id W hW
  refine ⟨fun id1 e h => ?_, fun f e h => ?_⟩
  · have hne : taskKey id1 ≠ taskKey id := by
      intro hk
      rw [hk, invalidated_no_task id W hW] at h
      simp at h
    rw [hf _ (isListKey_taskKey id1) hne, hre] at h
    obtain ⟨r, hr, hd⟩ := hc.1 id1 e h
    have hkey : readId id1 = some r.id := by
      have hm := List.mem_of_mem_head? hr
      simpa using (List.mem_filter.mp hm).2
    have hj : readId id1 ≠ readId id := by
      intro heq
      apply hne
      rw [hsole id1 e r.id h hkey (by rw [← heq]; exact hkey)]
    exact ⟨r, by rw [invalidated_db, hrows _ hj]; exact hr, hd⟩
  · rw [invalidated_no_list id W hW _ (isListKey_listKey f)] at h
    simp at h

theorem delete_coherent (id : String) (w : World) (hh : w.redis.healthy) (hc : Coherent w)
    (hsole : SoleSpelling id w) : Coherent (Task.delete id w).2 := by
  have hx := execute_delete id w.db
  rw [delete_run]
  cases hn : w.db.nextFault.1 with
  | some m =>
    rw [hn] at hx
    exact coherent_same hc (fun _ => rfl) (by rw [execute_db, hx]; exact (nextFault_db w.db).1)
  | none =>
    rw [hn] at hx
    simp only
    split_ifs with h0
    · dsimp only
      refine coherent_same hc (fun _ => rfl) ?_
      rw [execute_db, hx]
      show w.db.rows.filter (fun r => readId id ≠ some r.id) = w.db.rows
      rw [List.filter_eq_self]
      intro r hr
      rw [List.countP_eq_zero] at h0
      simpa using h0 r hr
    · dsimp only
      refine coherent_invalidated id hc rfl hh hsole ?_
      intro j hj
      rw [execute_db, hx]
      show (w.db.rows.filter (fun r => readId id ≠ some r.id)).filter
        (fun r => j = some r.id) = _
      rw [List.filter_filter]
      apply List.filter_congr
      intro r _
      by_cases hr : j = some r.id
      · have hne : ¬ readId id = some r.id := fun e => hj (hr.trans e.symm)
        simp [hr, hne]
      · simp [hr]

theorem update_coherent (id : String) (taskData : JsObj) (w : World) (hh : w.redis.healthy)
    (hc : Coherent w) (hsole : SoleSpelling id w) : Coherent (Task.update id taskData w).2 := by
  by_cases hp : presentColumns taskData = []
  · rw [update_no_fields id taskData w ((presentColumns_nil_iff _).mp hp)]
    exact hc
  · have hx := execute_update id taskData w.db hp
    rw [update_run id taskData w hp]
    cases he : (w.db.execute (Task.updateSql taskData) (Task.updateParams id taskData)).1 with
    | error m =>
      exact coherent_same hc (fun _ => rfl) (by rw [execute_db]; exact execute_error_rows he)
    | ok res =>
      simp only
      cases hn : w.db.nextFault.1 with
      | some m =>
        rw [hn] at hx
        rw [hx] at he
        simp at he
      | none =>
        rw [hn] at hx
        simp only at hx
        cases hur : updateRows w.db.now
            ((presentColumns taskData).zip ((presentColumns taskData).map taskData.get))
            (readId id) w.db.rows with
        | error m =>
          rw [hur] at hx
          rw [hx] at he
          simp at he
        | ok p =>
          obtain ⟨rows1, n⟩ := p
          rw [hur] at hx
          simp only at hx
          obtain ⟨hcount, hother, _⟩ := updateRows_ok hur
          have hres : res = .header 0 n := by
            rw [hx] at he
            simp only [Except.ok.injEq] at he
            exact he.symm
          have hrows : (pool.execute (Task.updateSql taskData)
              (Task.updateParams id taskData) w).2.db.rows = rows1 := by
            rw [execute_db, hx]
          split_ifs with h0
          · dsimp only
            refine coherent_same hc (fun _ => rfl) ?_
            rw [hrows]
            rw [hres] at h0
            simp only [QueryResult.affectedRows] at h0
            rw [h0] at hcount
            have hnone : ∀ r ∈ w.db.rows, readId id ≠ some r.id := by
              intro r hr
              have := (List.countP_eq_zero.mp hcount.symm) r hr
              simpa using this
            rw [updateRows_no_match _ _ _ _ hnone] at hur
            simp only [Except.ok.injEq, Prod.mk.injEq] at hur
            exact hur.1.symm
          · have hci : Coherent (invalidated id (pool.execute (Task.updateSql taskData)
                (Task.updateParams id taskData) w).2) := by
              refine coherent_invalidated id hc rfl hh hsole ?_
              intro j hj
              rw [hrows]
              exact hother j hj
            have hhi := (invalidated_frame id (pool.execute (Task.updateSql taskData)
              (Task.updateParams id taskData) w).2 hh).1
            have hg := getById_coherent id _ hhi hci
            cases hgr : (Task.getById id (invalidated id (pool.execute
              (Task.updateSql taskData) (Task.updateParams id taskData) w).2)).1 with
            | ok v => exact hg
            | error m => exact hg

theorem cachedWorld_task_entry {s : String} {e : Entry}
    (h : cachedWorld.redis.entry (taskKey s) = some e) :
    s = "1" ∧ e.data = .json (.task sampleRow) := by
  unfold Redis.entry at h
  have hk := List.find?_some h
  have hm := List.mem_of_find?_eq_some h
  simp only [decide_eq_true_eq] at hk
  have hm1 : e = ⟨listKey (controllerFilters .undefined .undefined), 300,
        .json (.tasks [sampleRow])⟩ ∨
      e = ⟨taskKey "1", 300, .json (.task sampleRow)⟩ ∨
      e = ⟨statsKey, 60, .json (.stats ⟨1, some 1, some 0, some 0, some 0, some 0⟩)⟩ := by
    simpa [cachedWorld] using hm
  rcases hm1 with rfl | rfl | rfl
  · exact absurd hk.symm (taskKey_ne_listKey _ _)
  · exact ⟨(taskKey_inj hk).symm, rfl⟩
  · exact absurd hk (statsKey_ne_taskKey s)

theorem cachedWorld_list_entry {f : JsObj} {e : Entry}
    (h : cachedWorld.redis.entry (listKey f) = some e) :
    listKey f = listKey (controllerFilters .undefined .undefined) ∧
      e.data = .json (.tasks [sampleRow]) := by
  unfold Redis.entry at h
  have hk := List.find?_some h
  have hm := List.mem_of_find?_eq_some h
  simp only [decide_eq_true_eq] at hk
  have hm1 : e = ⟨listKey (controllerFilters .undefined .undefined), 300,
        .json (.tasks [sampleRow])⟩ ∨
      e = ⟨taskKey "1", 300, .json (.task sampleRow)⟩ ∨
      e = ⟨statsKey, 60, .json (.stats ⟨1, some 1, some 0, some 0, some 0, some 0⟩)⟩ := by
    simpa [cachedWorld] using hm
  rcases hm1 with rfl | rfl | rfl
  · exact ⟨hk.symm, rfl⟩
  · exact absurd hk (taskKey_ne_listKey _ _)
  · exact absurd hk.symm (listKey_ne_statsKey f)

theorem coherent_cachedWorld : Coherent cachedWorld := by
  refine ⟨fun id e h => ?_, fun f e h => ?_⟩
  · obtain ⟨rfl, hd⟩ := cachedWorld_task_entry h
    exact ⟨sampleRow, by decide, hd⟩
  · obtain ⟨hk, hd⟩ := cachedWorld_list_entry h
    rw [hd, listRows_congr hk]
    decide

theorem soleSpelling_cachedWorld : SoleSpelling "1" cachedWorld := by
  intro s e n h _ _
  exact (cachedWorld_task_entry h).1

/-- C2 (as amended): on a healthy cache (every cache command succeeds; no entry
expires during a call), each of `getAll`, `getById` and `create` (and
`getStats`) takes a coherent state to a coherent state, and so do
`update(id, ...)` and `delete(id)` when the cache holds the row of `id` under
no other spelling of its key: afterwards every cached `task:<id>` entry is
still the store's current row for that id and every cached
`tasks:all:<filters>` entry is still the store's current result for those
filters, whether the call returned or raised. -/
theorem coherence_preserved (c : Call) (w : World) (hh : w.redis.healthy) (hc : Coherent w)
    (hs : c.soleSpelling w) : Coherent (c.run w).2 := by
  cases c with
  | getAll filters => exact getAll_coherent filters w hh hc
  | getById id => exact getById_coherent id w hh hc
  | create taskData => exact create_coherent taskData w hh hc
  | update id taskData => exact update_coherent id taskData w hh hc hs
  | delete id => exact delete_coherent id w hh hc hs
  | getStats => exact getStats_coherent w hh hc

theorem coherence_preserved_witness :
    cachedWorld.redis.healthy ∧ Coherent cachedWorld ∧
      (Call.update "1" completedUpdate).soleSpelling cachedWorld ∧
      Coherent ((Call.update "1" completedUpdate).run cachedWorld).2 :=
  ⟨by decide, coherent_cachedWorld, soleSpelling_cachedWorld,
    coherence_preserved (.update "1" completedUpdate) cachedWorld (by decide)
      coherent_cachedWorld soleSpelling_cachedWorld⟩

theorem coherent_plainWorld : Coherent plainWorld :=
  ⟨fun _ _ h => by simp [Redis.entry, plainWorld] at h,
    fun _ _ h => by simp [Redis.entry, plainWorld] at h⟩

theorem coherent_aliasWorld : Coherent aliasWorld :=
  getById_coherent "01" plainWorld (by decide) coherent_plainWorld

set_option maxRecDepth 4000 in
/-- C2 (counterexample to the claim as stated): after `GET /api/tasks/01` the
state is coherent, with task 1 cached under `task:01`. The call
`update("1", {status: "completed"})` then succeeds and removes `task:1` only:
the entry under `task:01` still holds the old row, `getById("01")` returns it
with status `pending`, and the state is no longer coherent. -/
theorem update_leaves_other_spelling_stale :
    aliasWorld.redis.healthy ∧ Coherent aliasWorld ∧
    (Task.update "1" completedUpdate aliasWorld).1 =
      .ok (.task { sampleRow with status := some "completed", updated_at := 1000 }) ∧
    (Task.update "1" completedUpdate aliasWorld).2.db.rows =
      [{ sampleRow with status := some "completed", updated_at := 1000 }] ∧
    (Task.getById "01" (Task.update "1" completedUpdate aliasWorld).2).1 =
      .ok (.task sampleRow) ∧
    ¬ Coherent (Task.update "1" completedUpdate aliasWorld).2 := by
  refine ⟨by decide, coherent_aliasWorld, by decide, by decide, by decide, ?_⟩
  intro hc
  obtain ⟨row, hr, hd⟩ := hc.1 "01" ⟨taskKey "01", 300, .json (.task sampleRow)⟩ (by decide)
  have h1 : ((Task.update "1" completedUpdate aliasWorld).2.db.rows.filter
      (fun r => readId "01" = some r.id)).head? =
      some { sampleRow with status := some "completed", updated_at := 1000 } := by decide
  rw [h1] at hr
  simp only [Option.some.injEq] at hr
  rw [← hr] at hd
  exact absurd hd (by decide)

end TaskApp
